import Mathlib

/-!
Verification of the LensOra backend against its specification.

Texts are modelled as `List Char` (Python `str`), numbers as `ℚ`
(Python floats idealised as exact rationals), dictionaries as
association lists or functions, and fallible external calls as
`Except`/`Option` values supplied as parameters.  Every definition is a
shallow embedding of the corresponding Python function; the file first
gives the definitions and then the theorems.
-/

namespace LensOra

/-! ## Basic text utilities (Python `str` operations on `List Char`) -/

/-- The characters Python's default `str.strip()` and `str.split()` treat as
whitespace (ASCII range). -/
def isPyWS (c : Char) : Bool :=
  c = ' ' || c = '\t' || c = '\n' || c = '\r' || c = '\x0b' || c = '\x0c'

/-- Python `s.strip()`: drop leading and trailing whitespace. -/
def pyStrip (s : List Char) : List Char :=
  ((s.dropWhile isPyWS).reverse.dropWhile isPyWS).reverse

/-- Python `s.split('\n')`: split on every newline; never returns `[]`
(the empty string yields `[[]]`). -/
def splitNL : List Char → List (List Char)
  | [] => [[]]
  | c :: cs =>
    if c = '\n' then [] :: splitNL cs
    else
      match splitNL cs with
      | p :: ps => (c :: p) :: ps
      | [] => [[c]]

/-- Python `'\n'.join(parts)`. -/
def joinNL : List (List Char) → List Char
  | [] => []
  | [p] => p
  | p :: ps => p ++ '\n' :: joinNL ps

/-- Helper for `pyWords`: `acc` is the reversed current word. -/
def pyWordsAux : List Char → List Char → List (List Char)
  | acc, [] => if acc.isEmpty then [] else [acc.reverse]
  | acc, c :: cs =>
    if isPyWS c then
      if acc.isEmpty then pyWordsAux [] cs else acc.reverse :: pyWordsAux [] cs
    else pyWordsAux (c :: acc) cs

/-- Python `s.split()`: the maximal runs of non-whitespace characters. -/
def pyWords (s : List Char) : List (List Char) := pyWordsAux [] s

/-- Python `s.lower()` (ASCII case fold, which is all the patterns need). -/
def lowerChars (s : List Char) : List Char := s.map Char.toLower

/-- Python `needle in hay` for strings: substring containment. -/
def containsSub (needle : List Char) : List Char → Bool
  | [] => needle.isEmpty
  | c :: t => needle.isPrefixOf (c :: t) || containsSub needle t

/-! ## Citation token scanning

The guardrail validator (`backend/services/solution_validator.py`) uses three
regular expressions over a paragraph:

* `CITATION_PATTERN = \[(INT|WEB):[^\]]+\]` (computed but unused in the
  paragraph loop),
* the coverage check `\[(INT|WEB:[^\]]+)\]` (line 58), which matches a
  literal `[INT]` or `[WEB:`…`]`,
* the whitelist check `\[(INT:[^\]]+|WEB:[^\]]+)\]` (line 63).

`re.findall` scans left to right, takes the leftmost match, and resumes
after it; inside a bracket the content `[^\]]+` is the (non-empty) run up
to the first `]`.  The scanners below implement exactly that. -/

/-- If `s` starts with a non-empty run of characters other than `]` followed
by `]`, return that run and the suffix after the `]`. -/
def takeContent : List Char → Option (List Char × List Char)
  | [] => none
  | c :: cs =>
    if c = ']' then none
    else if cs.head? = some ']' then some ([c], cs.tail)
    else (takeContent cs).map (fun p => (c :: p.1, p.2))

/-- Whether the coverage regex `\[(INT|WEB:[^\]]+)\]` has a match in `s`:
a literal `[INT]`, or `[WEB:` followed by a non-empty `]`-free run and `]`.
Note it does NOT match `[INT:…]`. -/
def hasCoverageToken : List Char → Bool
  | [] => false
  | c :: cs =>
    if c = '[' then
      (("INT]".toList.isPrefixOf cs) ||
        ("WEB:".toList.isPrefixOf cs && (takeContent (cs.drop 4)).isSome) ||
        hasCoverageToken cs)
    else hasCoverageToken cs

/-- Fuel-indexed scanner for `re.findall(r"\[(INT:[^\]]+|WEB:[^\]]+)\]", s)`:
returns the captured groups (`INT:…` / `WEB:…`) of the non-overlapping
leftmost matches in order. -/
def findCitTokensAux : Nat → List Char → List (List Char)
  | 0, _ => []
  | _, [] => []
  | fuel + 1, c :: cs =>
    if c = '[' then
      if "INT:".toList.isPrefixOf cs then
        match takeContent (cs.drop 4) with
        | some (content, rest) =>
          ("INT:".toList ++ content) :: findCitTokensAux fuel rest
        | none => findCitTokensAux fuel cs
      else if "WEB:".toList.isPrefixOf cs then
        match takeContent (cs.drop 4) with
        | some (content, rest) =>
          ("WEB:".toList ++ content) :: findCitTokensAux fuel rest
        | none => findCitTokensAux fuel cs
      else findCitTokensAux fuel cs
    else findCitTokensAux fuel cs

/-- The citation tokens of `s` (captured groups of the whitelist regex). -/
def findCitTokens (s : List Char) : List (List Char) :=
  findCitTokensAux s.length s

/-! ## The guardrail validator (`solution_validator.validate_solution`) -/

/-- `UNSAFE_COMMAND_PATTERNS` from `backend/services/constants.py`. -/
def UNSAFE_COMMAND_PATTERNS : List (List Char) :=
  ["DROP TABLE".toList, "DELETE FROM".toList, "TRUNCATE ".toList,
   "SHUTDOWN IMMEDIATE".toList, "rm -rf /".toList,
   "format c:".toList, "ALTER SYSTEM".toList, "GRANT ALL".toList]

/-- The unsafe patterns found in a paragraph, case-insensitively
(`pat.lower() in para.lower()`). -/
def unsafeHits (para : List Char) : List (List Char) :=
  UNSAFE_COMMAND_PATTERNS.filter (fun pat => containsSub (lowerChars pat) (lowerChars para))

/-- `ValidationIssue` from `solution_validator.py`. -/
structure ValidationIssue where
  severity : List Char
  message : List Char
  paragraph_index : Option Nat
deriving DecidableEq

def sevWarning : List Char := "warning".toList
def sevError : List Char := "error".toList
def lacksCitationsMsg : List Char := "Paragraph lacks citations".toList
def unknownIntMsg : List Char := "Unknown internal citation ".toList
def unknownExtMsg : List Char := "Unknown external citation ".toList
def unsafeMsgHead : List Char := "Unsafe command pattern(s): ".toList

/-- Python `', '.join(parts)`. -/
def joinComma : List (List Char) → List Char
  | [] => []
  | [p] => p
  | p :: ps => p ++ ", ".toList ++ joinComma ps

/-- The issues the whitelist check (lines 63–67) records for paragraph `i`:
one `error` issue per citation occurrence whose tag is not allowed. -/
def whitelistIssues (intTags webTags : List (List Char)) (i : Nat)
    (para : List Char) : List ValidationIssue :=
  (findCitTokens para).flatMap (fun raw =>
    (if "INT:".toList.isPrefixOf raw && !(intTags.contains raw) then
      [⟨sevError, unknownIntMsg ++ raw, some i⟩] else []) ++
    (if "WEB:".toList.isPrefixOf raw && !(webTags.contains raw) then
      [⟨sevError, unknownExtMsg ++ raw, some i⟩] else []))

/-- The coverage warning (lines 60–61) for paragraph `i`. -/
def coverageIssues (i : Nat) (para : List Char) : List ValidationIssue :=
  if !hasCoverageToken para && decide (4 < (pyWords para).length) then
    [⟨sevWarning, lacksCitationsMsg, some i⟩]
  else []

/-- The paragraph loop of `validate_solution` (lines 52–74): returns the
kept (cleaned) paragraphs and the issues, starting at paragraph index `i`. -/
def validateParas (intTags webTags : List (List Char)) :
    Nat → List (List Char) → List (List Char) × List ValidationIssue
  | _, [] => ([], [])
  | i, para :: rest =>
    let (cps, iss) := validateParas intTags webTags (i + 1) rest
    if para.isEmpty then (para :: cps, iss)
    else
      let here := coverageIssues i para ++ whitelistIssues intTags webTags i para
      let hits := unsafeHits para
      if hits.isEmpty then (para :: cps, here ++ iss)
      else (cps, here ++ [⟨sevError, unsafeMsgHead ++ joinComma hits, some i⟩] ++ iss)

/-- `validate_solution(solution_text, allowed_internal, allowed_external_indices)`:
returns `(cleaned_text, issues, is_valid)`. -/
def validate_solution (solution_text : List Char)
    (allowed_internal allowed_external_indices : List (List Char)) :
    List Char × List ValidationIssue × Bool :=
  let paragraphs := (splitNL solution_text).map pyStrip
  let intTags := allowed_internal.map (fun k => "INT:".toList ++ k)
  let webTags := allowed_external_indices.map (fun idx => "WEB:".toList ++ idx)
  let (cleaned, issues) := validateParas intTags webTags 0 paragraphs
  (joinNL cleaned, issues, !(issues.any (fun iss => iss.severity == sevError)))

/-! ## Confidence scoring (`resolution_activities.py`) -/

/-- `compute_confidence(distances, coverage_ratio, external_used)`
(lines 31–39): similarities are `1/(1+d)`, the raw score is
`0.55·top + 0.30·avg + 0.10·coverage + boost`, clamped to `[0, 0.98]`;
an empty distance list yields `0.15`. -/
def compute_confidence (distances : List ℚ) (coverage : ℚ)
    (external_used : Bool) : ℚ :=
  match distances.map (fun d => 1 / (1 + d)) with
  | [] => 3 / 20
  | s :: sims =>
    let top_sim := sims.foldl max s
    let avg_sim := (s :: sims).sum / ((s :: sims).length : ℚ)
    let external_boost : ℚ := if external_used && decide (top_sim < 9 / 20) then 1 / 20 else 0
    let raw := 11 / 20 * top_sim + 3 / 10 * avg_sim + 1 / 10 * coverage + external_boost
    max 0 (min raw (98 / 100))

/-- The per-rank decay list `[1.0, 0.93, 0.87]` (line 148). -/
def decay : List ℚ := [1, 93 / 100, 87 / 100]

/-- `decay[i if i < len(decay) else -1]` (line 151). -/
def decayAt (i : Nat) : ℚ :=
  decay.getD (if i < decay.length then i else decay.length - 1) 1

/-- Round half to even at integer precision (Python `round` on exact values). -/
def rhe (x : ℚ) : ℤ :=
  if x - ⌊x⌋ < 1 / 2 then ⌊x⌋
  else if 1 / 2 < x - ⌊x⌋ then ⌊x⌋ + 1
  else if ⌊x⌋ % 2 = 0 then ⌊x⌋ else ⌊x⌋ + 1

/-- Python `round(x, 4)` (idealised to exact arithmetic). -/
def round4 (x : ℚ) : ℚ := (rhe (x * 10000) : ℚ) / 10000

/-- One iteration of the adjustment loop (lines 149–158): apply the rank
decay to the shared base confidence, cap at `0.55` when the guardrail
marked the alternative invalid, and round to 4 decimals. -/
def adjustConfidence (base : ℚ) (i : Nat) (is_valid : Bool) : ℚ :=
  let local_conf := base * decayAt i
  round4 (if is_valid then local_conf else min local_conf (11 / 20))

/-- The adjustment loop over the generated alternatives: each solution text
is guardrail-validated and its confidence computed; returns
`(confidence, guardrail_valid)` per alternative, in order. -/
def scoreSolutions (base : ℚ) (texts : List (List Char))
    (allowed_internal allowed_external_indices : List (List Char)) :
    List (ℚ × Bool) :=
  texts.enum.map (fun p =>
    let is_valid := (validate_solution p.2 allowed_internal allowed_external_indices).2.2
    (adjustConfidence base p.1 is_valid, is_valid))

/-- `escalate_flag = any(sol.get('confidence', 0) < 0.2 for sol in solutions)`
(line 196). -/
def escalateFlag (confs : List ℚ) : Bool :=
  confs.any (fun c => decide (c < 1 / 5))

/-! ## External augmentation trigger (`resolution_activities.py` lines 70–89) -/

/-- `need_external` (lines 71–75): no internal distances, or the best
distance exceeds `0.55`, or the gap ratio between the two closest distances
exceeds `1.2` (with `ε = 1e-6`). -/
def need_external (internal_distances : List ℚ) : Bool :=
  internal_distances.isEmpty ||
  (match internal_distances.min? with
   | some m => decide (m > 11 / 20)
   | none => false) ||
  (decide (1 < internal_distances.length) &&
    (let s := internal_distances.mergeSort (· ≤ ·)
     decide ((s.getD 1 0 - s.getD 0 0) / (s.getD 0 0 + 1 / 1000000) > 6 / 5)))

/-- The heuristic search fallback of `web_search_service.search`
(lines 71–80): the `max_results` longest non-empty stripped lines of the
ticket text, longest first (stable). -/
def heuristicResults (ticket_text : List Char) (max_results : Nat) :
    List (List Char) :=
  let lines := ((splitNL ticket_text).map pyStrip).filter (fun l => !l.isEmpty)
  (lines.mergeSort (fun a b => b.length ≤ a.length)).take max_results

/-- `web_search_service.search(ticket_text, max_results)`, with the external
Tavily call supplied as a parameter: `none` when no API key is configured,
`some (.error e)` when the request fails, `some (.ok raw)` when it returns
`raw`.  The Tavily path keeps at most `max_results` shaped results and falls
back to the heuristic when it fails or returns none. -/
def webSearch (enabled : Bool) (tavily : Option (Except (List Char) (List (List Char))))
    (ticket_text : List Char) (max_results : Nat) : List (List Char) :=
  if !enabled then []
  else
    match tavily with
    | some (Except.ok raw) =>
      let shaped := raw.take max_results
      if shaped.isEmpty then heuristicResults ticket_text max_results else shaped
    | some (Except.error _) => heuristicResults ticket_text max_results
    | none => heuristicResults ticket_text max_results

/-- The external-augmentation step of the resolution activity
(lines 80–89): when `need` holds, the search-and-ingest attempt's result is
used; an exception (`Except.error`) is caught and leaves the external
sources empty — the pipeline continues with internal sources only. -/
def externalAugmentation {α : Type} (need : Bool)
    (attempt : Except (List Char) (List α)) : List α :=
  if need then
    match attempt with
    | Except.ok sources => sources
    | Except.error _ => []
  else []

/-! ## Rate limiting and single flight (`api/routes.py` lines 25–29, 279–289) -/

/-- `_GEN_RATE_LIMIT_SECONDS = 25`. -/
def GEN_RATE_LIMIT_SECONDS : ℚ := 25

/-- The module-level guards: `_last_generation` (dict, modelled as an
association list where the most recent binding is first) and `_inflight`
(set, modelled as a list). -/
structure GenState where
  lastGeneration : List (String × ℚ)
  inflight : List String

/-- `_last_generation.get(ticket_key)`. -/
def GenState.lookupLast (st : GenState) (k : String) : Option ℚ :=
  (st.lastGeneration.find? (fun p => p.1 == k)).map Prod.snd

/-- `last and (now - last) < _GEN_RATE_LIMIT_SECONDS` — the Python truthiness
of the float `last` is `last ≠ 0`. -/
def rateLimited (last : Option ℚ) (now : ℚ) : Bool :=
  match last with
  | none => false
  | some t => !(t == 0) && decide (now - t < GEN_RATE_LIMIT_SECONDS)

/-- The response of `generate_solutions` as far as the guards decide it. -/
inductive GenResponse where
  | http429
  | http409
  | accepted
deriving DecidableEq

/-- How many pipeline invocations a response starts. -/
def GenResponse.invocations : GenResponse → Nat
  | .accepted => 1
  | _ => 0

/-- The guard section of `generate_solutions` (lines 280–289): reject with
429 inside the rate window, then with 409 when the key is in flight;
otherwise record the key as in flight, stamp `_last_generation`, and
proceed to the pipeline. -/
def genStep (st : GenState) (k : String) (now : ℚ) : GenResponse × GenState :=
  if rateLimited (st.lookupLast k) now then (.http429, st)
  else if st.inflight.contains k then (.http409, st)
  else (.accepted,
    { lastGeneration := (k, now) :: st.lastGeneration,
      inflight := k :: st.inflight })

/-- The `finally` block (line 422): `_inflight.discard(ticket_key)`. -/
def genFinish (st : GenState) (k : String) : GenState :=
  { st with inflight := st.inflight.filter (fun x => !(x == k)) }

/-! ## Polling categorization (`polling_service.py` lines 100–136) -/

/-- The categorization loop: each fetched ticket key is routed on its last
known status (`known_statuses.get`), and a previously `incomplete` ticket is
revalidated only when it has a recorded last-validation timestamp and its
Jira `updated` timestamp is strictly later.  Returns
`(new_tickets, incomplete_tickets, complete_tickets)`. -/
def categorize (tickets : List String) (status : String → Option String)
    (updated : String → ℚ) (lastVal : String → Option ℚ) :
    List String × List String × List String :=
  match tickets with
  | [] => ([], [], [])
  | k :: ks =>
    let (n, inc, comp) := categorize ks status updated lastVal
    if status k = some "complete" then (n, inc, k :: comp)
    else if status k = some "incomplete" then
      match lastVal k with
      | some v => if updated k > v then (n, k :: inc, comp) else (n, inc, comp)
      | none => (n, inc, comp)
    else (k :: n, inc, comp)

/-- `tickets_to_process = new_tickets + incomplete_tickets` (line 136). -/
def ticketsToProcess (tickets : List String) (status : String → Option String)
    (updated : String → ℚ) (lastVal : String → Option ℚ) : List String :=
  (categorize tickets status updated lastVal).1 ++
    (categorize tickets status updated lastVal).2.1

/-- The claim's `new` set, as the claim words it: the keys with no recorded
status. -/
def claimNewKeys (tickets : List String) (status : String → Option String) :
    List String :=
  tickets.filter (fun k => status k = none)

/-- The claim's `stale` set: recorded status `incomplete` and updated after
the last validation. -/
def claimStaleKeys (tickets : List String) (status : String → Option String)
    (updated : String → ℚ) (lastVal : String → Option ℚ) : List String :=
  tickets.filter (fun k =>
    status k = some "incomplete" &&
      match lastVal k with
      | some v => decide (updated k > v)
      | none => false)

/-! ## Duplicate detection (`rag_service.find_potential_duplicate`) -/

/-- The nearest row of the vector search (`ORDER BY distance LIMIT 1`):
the corpus entry with minimal distance (first among ties). -/
def nearestBy : List (String × ℚ) → Option (String × ℚ)
  | [] => none
  | x :: xs => some (xs.foldl (fun b y => if y.2 < b.2 then y else b) x)

/-- `find_potential_duplicate(query, threshold=0.35)` over a corpus given as
`(ticket_key, L2 distance to the query)` pairs: the nearest solved ticket,
but only when its distance is strictly below the threshold. -/
def find_potential_duplicate (corpus : List (String × ℚ)) (threshold : ℚ) :
    Option (String × ℚ) :=
  match nearestBy corpus with
  | none => none
  | some r => if r.2 < threshold then some r else none

/-- The default threshold `0.35`. -/
def DUPLICATE_THRESHOLD : ℚ := 35 / 100

/-! ## Polling intervals (`polling_service.py` line 162, `api/routes.py`
lines 244–259) -/

/-- `PollingService.interval_minutes = 5`. -/
def interval_minutes : ℕ := 5

/-- What the polling loop actually sleeps before the next cycle
(`polling_service.py` lines 161–164): always `interval_minutes * 60`
seconds, independent of the incomplete-ticket count. -/
def pollingLoopSleepSeconds : ℕ := interval_minutes * 60

/-- The adaptive interval computed in `routes.get_incomplete_tickets`
(lines 244–259) for the displayed `next_poll_time`. -/
def adaptiveIntervalSeconds (incomplete_count : ℕ) : ℚ :=
  let base : ℚ := (interval_minutes : ℚ) * 60
  let adaptive_min : ℚ := 60
  let adaptive_max : ℚ := 600
  let interval :=
    if incomplete_count = 0 then base
    else if incomplete_count < 5 then max (base * (6 / 10)) adaptive_min
    else if incomplete_count < 15 then max (base * (4 / 10)) adaptive_min
    else adaptive_min
  min interval adaptive_max

/-! ## The compliance scrubber (`compliance_filter.py`)

The five patterns are concrete regular expressions; each is embedded as a
deterministic "match at this position" function returning the length of the
(leftmost-greedy, with the backtracking the pattern's shape allows) match
starting at the given position, given the preceding character for the `\b`
assertions.  `re.sub` semantics: scan left to right, replace the leftmost
match, resume after it.  Word characters are modelled over the ASCII range
(`[A-Za-z0-9_]`), which is what the patterns themselves target. -/

def isWordChar (c : Char) : Bool := c.isAlphanum || c = '_'

def optWord : Option Char → Bool
  | none => false
  | some c => isWordChar c

/-- The `\b` assertion between an adjacent pair of (optional) characters. -/
def isBoundary (prev next : Option Char) : Bool := optWord prev != optWord next

def isLocalChar (c : Char) : Bool :=
  c.isAlphanum || c = '.' || c = '_' || c = '%' || c = '+' || c = '-'

def isDomChar (c : Char) : Bool := c.isAlphanum || c = '.' || c = '-'

def isHexChar (c : Char) : Bool :=
  c.isDigit || ('a' ≤ c && c ≤ 'f') || ('A' ≤ c && c ≤ 'F')

def isB64Char (c : Char) : Bool := c.isAlphanum || c = '+' || c = '/'

def isJwtChar (c : Char) : Bool := c.isAlphanum || c = '-' || c = '_'

/-- `EMAIL_RE = [A-Za-z0-9._%+-]+@[A-Za-z0-9.-]+\.[A-Za-z]{2,}`: the match at
this position, if any.  The domain backtracking selects the rightmost `.`
of the domain run that is preceded by at least one domain character and
followed by at least two letters; the TLD is the maximal letter run there. -/
def emailMatchAt (_prev : Option Char) (s : List Char) : Option Nat :=
  let loc := s.takeWhile isLocalChar
  if loc.isEmpty then none
  else if s.get? loc.length ≠ some '@' then none
  else
    let rest := s.drop (loc.length + 1)
    let dom := rest.takeWhile isDomChar
    let candidates := (List.range dom.length).filter (fun m =>
      decide (1 ≤ m) && (dom.get? m == some '.') &&
        decide (2 ≤ ((dom.drop (m + 1)).takeWhile Char.isAlpha).length))
    match candidates.max? with
    | none => none
    | some m =>
      some (loc.length + 1 + m + 1 + ((dom.drop (m + 1)).takeWhile Char.isAlpha).length)

/-- `API_KEY_RE = \b(?:sk|api|key)[_-][A-Za-z0-9]{8,}\b` (ignore-case). -/
def apiKeyMatchAt (prev : Option Char) (s : List Char) : Option Nat :=
  if !isBoundary prev s.head? then none
  else
    let low := lowerChars s
    let tagLen : Option Nat :=
      if "sk".toList.isPrefixOf low && (low.get? 2 == some '_' || low.get? 2 == some '-') then some 2
      else if "api".toList.isPrefixOf low && (low.get? 3 == some '_' || low.get? 3 == some '-') then some 3
      else if "key".toList.isPrefixOf low && (low.get? 3 == some '_' || low.get? 3 == some '-') then some 3
      else none
    match tagLen with
    | none => none
    | some t =>
      let run := (s.drop (t + 1)).takeWhile Char.isAlphanum
      if decide (8 ≤ run.length) && !optWord (s.get? (t + 1 + run.length)) then
        some (t + 1 + run.length)
      else none

/-- `HEX_LONG_RE = \b[a-f0-9]{32,}\b` (ignore-case). -/
def hexMatchAt (prev : Option Char) (s : List Char) : Option Nat :=
  if !isBoundary prev s.head? then none
  else
    let run := s.takeWhile isHexChar
    if decide (32 ≤ run.length) && !optWord (s.get? run.length) then some run.length
    else none

/-- `BASE64ISH_RE = \b[A-Za-z0-9+/]{40,}={0,2}\b`: the class run backtracks
from its maximal length down to 40 (class characters `+` and `/` are not
word characters, so a run may legally end inside the maximal run), and at
the maximal length the `=` count backtracks from 2 down to 0. -/
def base64MatchAt (prev : Option Char) (s : List Char) : Option Nat :=
  if !isBoundary prev s.head? then none
  else
    let run := s.takeWhile isB64Char
    if decide (run.length < 40) then none
    else
      ((List.range' 40 (run.length - 39)).reverse.findSome? (fun m =>
        let eqAvail := if m = run.length then min 2 ((s.drop m).takeWhile (fun c => c = '=')).length else 0
        (List.range (eqAvail + 1)).reverse.findSome? (fun eq =>
          if isBoundary (s.get? (m + eq - 1)) (s.get? (m + eq)) then some (m + eq)
          else none)))

/-- `JWT_RE = \b[A-Za-z0-9-_]+\.[A-Za-z0-9-_]+\.[A-Za-z0-9-_]+\b`: the first
two segments are forced (each must be the maximal class run, followed by a
literal `.`), the third backtracks from its maximal length down to 1 to
satisfy the trailing `\b`. -/
def jwtMatchAt (prev : Option Char) (s : List Char) : Option Nat :=
  if !isBoundary prev s.head? then none
  else
    let seg1 := s.takeWhile isJwtChar
    if seg1.isEmpty then none
    else if s.get? seg1.length ≠ some '.' then none
    else
      let s2 := s.drop (seg1.length + 1)
      let seg2 := s2.takeWhile isJwtChar
      if seg2.isEmpty then none
      else if s2.get? seg2.length ≠ some '.' then none
      else
        let base := seg1.length + 1 + seg2.length + 1
        let seg3 := (s.drop base).takeWhile isJwtChar
        if seg3.isEmpty then none
        else
          ((List.range' 1 seg3.length).reverse.findSome? (fun k =>
            if isBoundary (s.get? (base + k - 1)) (s.get? (base + k)) then
              some (base + k)
            else none))

/-- `REDACTION_TOKEN = "[REDACTED]"`. -/
def REDACTED : List Char := "[REDACTED]".toList

/-- `pat.sub("[REDACTED]", text)` with a match counter: scan left to right,
replace each leftmost match, resume after it.  `prev` is the character
before the current position (for `\b`); the fuel is bounded by the number
of characters, each step consuming at least one. -/
def substAux (matchAt : Option Char → List Char → Option Nat) :
    Nat → Option Char → List Char → List Char × Nat
  | 0, _, s => (s, 0)
  | fuel + 1, prev, s =>
    match s with
    | [] => ([], 0)
    | c :: cs =>
      match matchAt prev (c :: cs) with
      | some n =>
        let r := substAux matchAt fuel (((c :: cs).take n).getLast?) ((c :: cs).drop n)
        (REDACTED ++ r.1, r.2 + 1)
      | none =>
        let r := substAux matchAt fuel (some c) cs
        (c :: r.1, r.2)

/-- One pattern's substitution pass over a whole text. -/
def substPattern (matchAt : Option Char → List Char → Option Nat)
    (s : List Char) : List Char × Nat :=
  substAux matchAt s.length none s

/-- `PATTERNS = [EMAIL_RE, API_KEY_RE, HEX_LONG_RE, BASE64ISH_RE, JWT_RE]`. -/
def PATTERNS : List (Option Char → List Char → Option Nat) :=
  [emailMatchAt, apiKeyMatchAt, hexMatchAt, base64MatchAt, jwtMatchAt]

/-- `scrub(text)`: apply the five redaction passes in order, counting all
replacements. -/
def scrub (text : List Char) : List Char × Nat :=
  PATTERNS.foldl (fun acc pat =>
    let r := substPattern pat acc.1
    (r.1, acc.2 + r.2)) (text, 0)

/-! ## Predicates used by the theorem statements -/

/-- The stripped paragraphs `validate_solution` works on. -/
def stripParas (text : List Char) : List (List Char) :=
  (splitNL text).map pyStrip

/-- A paragraph contains at least one unsafe command pattern. -/
def hasUnsafe (para : List Char) : Bool := !(unsafeHits para).isEmpty

/-- An issue is a citation-whitelist `error` for paragraph `i`. -/
def isUnknownCitIssueAt (i : Nat) (iss : ValidationIssue) : Bool :=
  iss.severity == sevError && iss.paragraph_index == some i &&
    (unknownIntMsg.isPrefixOf iss.message || unknownExtMsg.isPrefixOf iss.message)

/-- A citation token violates the whitelist. -/
def offendingToken (intTags webTags : List (List Char)) (raw : List Char) : Bool :=
  ("INT:".toList.isPrefixOf raw && !(intTags.contains raw)) ||
    ("WEB:".toList.isPrefixOf raw && !(webTags.contains raw))


/-- Whether the pattern has a match at some position of `s`, scanning with
the character preceding `s` for the `\\b` assertions. -/
def hasMatchFrom (matchAt : Option Char → List Char → Option Nat) :
    Option Char → List Char → Bool
  | _, [] => false
  | prev, c :: cs => (matchAt prev (c :: cs)).isSome || hasMatchFrom matchAt (some c) cs

/-- The character preceding position `L` of `s`, when `prev` precedes `s`. -/
def prevAt (prev : Option Char) (s : List Char) (L : Nat) : Option Char :=
  if L = 0 then prev else s.get? (L - 1)

/-- The character preceding the continuation after `u`, when `prev`
precedes `u`. -/
def endPrev (prev : Option Char) (u : List Char) : Option Char :=
  if u.isEmpty then prev else u.getLast?

/-- The relation between the character before a position in a pass's input
and the character before the aligned position in its output: either the two
have the same word-character status, or the output side is a non-word
character (the `]` of a redaction token) while the input side sits at a word
boundary. -/
def PrevOK (prevIn prevOut : Option Char) (s : List Char) : Prop :=
  optWord prevOut = optWord prevIn ∨
    (optWord prevOut = false ∧ isBoundary prevIn s.head? = true)


/-! Helper definitions naming components of the pattern matchers. -/

def apiTag (low : List Char) : Option Nat :=
  if "sk".toList.isPrefixOf low && (low.get? 2 == some '_' || low.get? 2 == some '-') then some 2
  else if "api".toList.isPrefixOf low && (low.get? 3 == some '_' || low.get? 3 == some '-') then some 3
  else if "key".toList.isPrefixOf low && (low.get? 3 == some '_' || low.get? 3 == some '-') then some 3
  else none

def jwtA (s : List Char) : Nat := (s.takeWhile isJwtChar).length

def jwtB (s : List Char) : Nat := ((s.drop (jwtA s + 1)).takeWhile isJwtChar).length

def jwtBase (s : List Char) : Nat := jwtA s + 1 + jwtB s + 1

def jwtC (s : List Char) : Nat := ((s.drop (jwtBase s)).takeWhile isJwtChar).length

def emailLoc (s : List Char) : Nat := (s.takeWhile isLocalChar).length

def emailDom (s : List Char) : List Char := (s.drop (emailLoc s + 1)).takeWhile isDomChar

def emailCands (s : List Char) : List Nat :=
  (List.range (emailDom s).length).filter (fun m =>
    decide (1 ≤ m) && ((emailDom s).get? m == some '.') &&
      decide (2 ≤ (((emailDom s).drop (m + 1)).takeWhile Char.isAlpha).length))


/-! # Theorems -/

/-! ## C6 — duplicate detection threshold -/

/-- C6: `find_potential_duplicate` returns the nearest solved ticket iff its
L2 distance is strictly below the default threshold `0.35`; otherwise (in
particular at distance exactly `0.35`) it returns `none`. -/
theorem duplicate_iff_below_threshold (corpus : List (String × ℚ))
    (r : String × ℚ) (h : nearestBy corpus = some r) :
    (find_potential_duplicate corpus DUPLICATE_THRESHOLD = some r ↔
      r.2 < DUPLICATE_THRESHOLD) ∧
    (¬ r.2 < DUPLICATE_THRESHOLD →
      find_potential_duplicate corpus DUPLICATE_THRESHOLD = none) ∧
    (r.2 = DUPLICATE_THRESHOLD →
      find_potential_duplicate corpus DUPLICATE_THRESHOLD = none) := by
  unfold find_potential_duplicate
  rw [h]
  refine ⟨⟨fun he => ?_, fun hlt => by simp [hlt]⟩, fun hge => by simp [hge], fun heq => ?_⟩
  · by_contra hlt
    simp [hlt] at he
  · have : ¬ r.2 < DUPLICATE_THRESHOLD := by rw [heq]; exact lt_irrefl _
    simp [this]

/-- Witness for C6 at a concrete corpus: the nearest ticket `("T1", 0.1)` is
reported at threshold `0.35`, and at distance exactly `0.35` nothing is. -/
theorem duplicate_iff_below_threshold_witness :
    find_potential_duplicate [("T1", 1 / 10), ("T2", 2)] DUPLICATE_THRESHOLD =
        some ("T1", 1 / 10) ∧
    find_potential_duplicate [("T3", 35 / 100)] DUPLICATE_THRESHOLD = none := by
  constructor
  · exact (duplicate_iff_below_threshold [("T1", 1 / 10), ("T2", 2)] ("T1", 1 / 10)
      (by norm_num [nearestBy])).1.mpr (by norm_num [DUPLICATE_THRESHOLD])
  · exact (duplicate_iff_below_threshold [("T3", 35 / 100)] ("T3", 35 / 100)
      (by norm_num [nearestBy])).2.2 rfl

/-! ## C9 — polling sleep interval -/

/-- C9 (divergence): the polling loop's sleep before the next cycle is the
constant `interval_minutes * 60 = 300` seconds, while the adaptive schedule
the claim describes (implemented only in `routes.get_incomplete_tickets`
for the displayed `next_poll_time`) gives `60` seconds at an
incomplete-ticket count of 20 — so the loop's sleep does not follow the
adaptive schedule. -/
theorem polling_sleep_divergence :
    pollingLoopSleepSeconds = 300 ∧
    adaptiveIntervalSeconds 20 = 60 ∧
    adaptiveIntervalSeconds 0 = 300 ∧
    (pollingLoopSleepSeconds : ℚ) ≠ adaptiveIntervalSeconds 20 := by
  refine ⟨rfl, ?_, ?_, ?_⟩ <;> norm_num [adaptiveIntervalSeconds, interval_minutes,
    pollingLoopSleepSeconds]

/-! ## C4 — rate limit and single flight -/

/-- C4: a `generate-solutions` request within 25 seconds of the previous
accepted request is rejected with 429 and changes nothing; a request for a
key in the in-flight set is rejected with 409 and changes nothing; and two
overlapping requests for the same key (the second arriving before the first
finishes) yield exactly one pipeline invocation. -/
theorem generate_solutions_guard (st : GenState) (k : String) (t now now2 : ℚ) :
    (st.lookupLast k = some t → t ≠ 0 → now - t < GEN_RATE_LIMIT_SECONDS →
      genStep st k now = (GenResponse.http429, st)) ∧
    (rateLimited (st.lookupLast k) now = false → st.inflight.contains k = true →
      genStep st k now = (GenResponse.http409, st)) ∧
    (st.inflight.contains k = false → rateLimited (st.lookupLast k) now = false →
      (genStep st k now).1 = GenResponse.accepted ∧
      (genStep st k now).1.invocations +
        (genStep (genStep st k now).2 k now2).1.invocations = 1) := by
  refine ⟨fun h1 h2 h3 => ?_, fun h1 h2 => ?_, fun h1 h2 => ?_⟩
  · have hr : rateLimited (st.lookupLast k) now = true := by
      simp [rateLimited, h1, h2, GEN_RATE_LIMIT_SECONDS]
      exact h3
    simp [genStep, hr]
  · rw [List.contains_eq_any_beq] at h2
    simp only [List.any_eq_true, beq_iff_eq] at h2
    obtain ⟨x, hx, rfl⟩ := h2
    simp [genStep, h1, hx]
  · rw [List.contains_eq_any_beq] at h1
    simp only [List.any_eq_false, beq_iff_eq] at h1
    have h1' : k ∉ st.inflight := fun hm => h1 k hm rfl
    have hst : genStep st k now = (GenResponse.accepted,
        ⟨(k, now) :: st.lastGeneration, k :: st.inflight⟩) := by
      simp [genStep, h1', h2]
    rw [hst]
    refine ⟨rfl, ?_⟩
    by_cases hr2 : rateLimited ((GenState.mk ((k, now) :: st.lastGeneration)
        (k :: st.inflight)).lookupLast k) now2
    · simp [genStep, hr2, GenResponse.invocations]
    · simp [genStep, hr2, GenResponse.invocations]

/-! ## C3 — external augmentation trigger -/

/-- C3: external web augmentation is triggered iff the internal distance
list is empty, or its minimum exceeds `0.55`, or (when there are at least
two distances) the gap ratio of the two smallest (sorted ascending, with
`ε = 1e-6`) exceeds `1.2`; when triggered at most 3 external results are
requested (the search returns at most its `max_results` argument, here 3,
on every provider path), and a failure of the search-and-ingest attempt is
non-fatal: the pipeline continues with no external sources.  With no
trigger there is no augmentation. -/
theorem external_augmentation_trigger (d : List ℚ) (enabled : Bool)
    (tavily : Option (Except (List Char) (List (List Char)))) (txt : List Char)
    (e : List Char) (need : Bool)
    (att : Except (List Char) (List (List Char))) :
    (need_external d = true ↔
      d = [] ∨ (∃ m, d.min? = some m ∧ 11 / 20 < m) ∨
        (1 < d.length ∧
          6 / 5 < ((d.mergeSort (· ≤ ·)).getD 1 0 - (d.mergeSort (· ≤ ·)).getD 0 0) /
            ((d.mergeSort (· ≤ ·)).getD 0 0 + 1 / 1000000))) ∧
    (webSearch enabled tavily txt 3).length ≤ 3 ∧
    externalAugmentation need (Except.error e) = ([] : List (List Char)) ∧
    externalAugmentation false att = ([] : List (List Char)) := by
  refine ⟨?_, ?_, by simp [externalAugmentation], by simp [externalAugmentation]⟩
  · unfold need_external
    cases hm : d.min? with
    | none =>
      have hd : d = [] := by
        cases d with
        | nil => rfl
        | cons x xs => simp [List.min?] at hm
      subst hd
      simp
    | some m =>
      simp only [Bool.or_eq_true, Bool.and_eq_true, decide_eq_true_eq,
        List.isEmpty_iff, gt_iff_lt, hm]
      constructor
      · rintro ((h | h) | ⟨h1, h2⟩)
        · exact Or.inl h
        · exact Or.inr (Or.inl ⟨m, rfl, h⟩)
        · exact Or.inr (Or.inr ⟨h1, h2⟩)
      · rintro (h | ⟨m', hm', h⟩ | ⟨h1, h2⟩)
        · exact Or.inl (Or.inl h)
        · injection hm' with hmm
          subst hmm
          exact Or.inl (Or.inr h)
        · exact Or.inr ⟨h1, h2⟩
  · unfold webSearch
    by_cases he : enabled
    · simp only [he]
      cases tavily with
      | none =>
        simp [heuristicResults, List.length_take]
      | some t =>
        cases t with
        | ok raw =>
          by_cases hsh : (raw.take 3).isEmpty <;>
            simp [hsh, heuristicResults, List.length_take]
        | error err =>
          simp [heuristicResults, List.length_take]
    · simp [he]

/-! ## C5 — polling classification -/

/-- C5 counterexample: a ticket whose recorded status is `"error"` (the
status the validation pipeline stores when the model chain fails) is
dispatched for validation, yet it is neither a `new` key in the claim's
sense (it has a recorded status) nor a stale one — so the dispatched set is
not the union the claim states. -/
theorem polling_error_status_counterexample :
    ¬ (ticketsToProcess ["T1"] (fun _ => some "error") (fun _ => 1)
          (fun _ => some 0) =
        claimNewKeys ["T1"] (fun _ => some "error") ++
          claimStaleKeys ["T1"] (fun _ => some "error") (fun _ => 1)
            (fun _ => some 0)) := by
  decide

/-- C5 (amended): the dispatched keys are exactly the keys with no recorded
`complete`/`incomplete` status (new or unrecognised, e.g. `error`) followed
by the stale keys (recorded `incomplete`, with a recorded last-validation
timestamp and a strictly later Jira update); the complete keys are exactly
the skipped ones and are disjoint from the dispatched set. -/
theorem polling_classification (tickets : List String)
    (status : String → Option String) (updated : String → ℚ)
    (lastVal : String → Option ℚ) :
    (categorize tickets status updated lastVal).1 =
      tickets.filter (fun k =>
        !(status k == some "complete") && !(status k == some "incomplete")) ∧
    (categorize tickets status updated lastVal).2.1 =
      claimStaleKeys tickets status updated lastVal ∧
    (categorize tickets status updated lastVal).2.2 =
      tickets.filter (fun k => status k == some "complete") ∧
    (∀ k, k ∈ ticketsToProcess tickets status updated lastVal →
      k ∉ (categorize tickets status updated lastVal).2.2) := by
  have main : (categorize tickets status updated lastVal).1 =
      tickets.filter (fun k =>
        !(status k == some "complete") && !(status k == some "incomplete")) ∧
      (categorize tickets status updated lastVal).2.1 =
        claimStaleKeys tickets status updated lastVal ∧
      (categorize tickets status updated lastVal).2.2 =
        tickets.filter (fun k => status k == some "complete") := by
    induction tickets with
    | nil => simp [categorize, claimStaleKeys]
    | cons k ks ih =>
      obtain ⟨ih1, ih2, ih3⟩ := ih
      by_cases hc : status k = some "complete"
      · simp [categorize, hc, claimStaleKeys, List.filter_cons, ih1, ih2, ih3]
      · by_cases hi : status k = some "incomplete"
        · cases hv : lastVal k with
          | none =>
            simp [categorize, hc, hi, hv, claimStaleKeys, List.filter_cons,
              ih1, ih2, ih3]
          | some v =>
            by_cases hu : updated k > v
            · simp [categorize, hc, hi, hv, hu, claimStaleKeys, List.filter_cons,
                ih1, ih2, ih3]
            · simp [categorize, hc, hi, hv, hu, claimStaleKeys, List.filter_cons,
                ih1, ih2, ih3]
        · simp [categorize, hc, hi, claimStaleKeys, List.filter_cons, ih1, ih2, ih3]
  obtain ⟨h1, h2, h3⟩ := main
  refine ⟨h1, h2, h3, fun k hk => ?_⟩
  rw [h3]
  unfold ticketsToProcess at hk
  rw [h1, h2] at hk
  intro hmem
  rw [List.mem_filter] at hmem
  rcases List.mem_append.mp hk with hl | hr
  · rw [List.mem_filter] at hl
    simp only [Bool.and_eq_true, Bool.not_eq_true', beq_eq_false_iff_ne] at hl
    exact hl.2.1 (by simpa using hmem.2)
  · unfold claimStaleKeys at hr
    rw [List.mem_filter] at hr
    have h5 := hr.2
    simp only [Bool.and_eq_true, decide_eq_true_eq, beq_iff_eq] at h5 hmem
    have hcc : some "incomplete" = some "complete" := h5.1.symm.trans hmem.2
    simp at hcc

/-! ## C1 — confidence bounds, invalid cap, escalation flag -/

theorem compute_confidence_bounds (d : List ℚ) (cov : ℚ) (e : Bool) :
    0 ≤ compute_confidence d cov e ∧ compute_confidence d cov e ≤ 98 / 100 := by
  unfold compute_confidence
  cases d with
  | nil => norm_num
  | cons x xs =>
    simp only [List.map_cons]
    exact ⟨le_max_left 0 _, max_le (by norm_num) (min_le_right _ _)⟩

theorem decayAt_bounds (i : Nat) : 0 ≤ decayAt i ∧ decayAt i ≤ 1 := by
  rcases i with _ | _ | _ | n
  · norm_num [decayAt, decay]
  · norm_num [decayAt, decay]
  · norm_num [decayAt, decay]
  · simp only [decayAt, decay, List.length_cons, List.length_nil]
    rw [if_neg (by omega)]
    norm_num

theorem rhe_nonneg (x : ℚ) (hx : 0 ≤ x) : 0 ≤ rhe x := by
  unfold rhe
  have hf : (0 : ℤ) ≤ ⌊x⌋ := Int.floor_nonneg.mpr hx
  split
  · exact hf
  · split
    · omega
    · split <;> omega

theorem rhe_le_int (x : ℚ) (n : ℤ) (h : x ≤ (n : ℚ)) : rhe x ≤ n := by
  unfold rhe
  have hf : ⌊x⌋ ≤ n := by
    calc ⌊x⌋ ≤ ⌊(n : ℚ)⌋ := Int.floor_le_floor h
    _ = n := Int.floor_intCast n
  split
  · exact hf
  · have hlt : ⌊x⌋ < n := by
      rcases lt_or_eq_of_le hf with hl | he
      · exact hl
      · exfalso
        rename_i hr
        apply hr
        have : x - ⌊x⌋ ≤ 0 := by
          rw [he]
          linarith
        linarith
    split
    · omega
    · split <;> omega

theorem round4_nonneg (x : ℚ) (hx : 0 ≤ x) : 0 ≤ round4 x := by
  unfold round4
  have := rhe_nonneg (x * 10000) (by positivity)
  positivity

theorem round4_le (x : ℚ) (n : ℤ) (h : x ≤ (n : ℚ) / 10000) : round4 x ≤ (n : ℚ) / 10000 := by
  unfold round4
  have h1 : x * 10000 ≤ (n : ℚ) := by linarith
  have h2 : (rhe (x * 10000) : ℚ) ≤ (n : ℚ) := by
    exact_mod_cast rhe_le_int _ _ h1
  linarith

theorem adjustConfidence_bounds (base : ℚ) (i : Nat) (v : Bool)
    (hb0 : 0 ≤ base) (hb1 : base ≤ 98 / 100) :
    0 ≤ adjustConfidence base i v ∧ adjustConfidence base i v ≤ 98 / 100 ∧
      (v = false → adjustConfidence base i v ≤ 11 / 20) := by
  obtain ⟨hd0, hd1⟩ := decayAt_bounds i
  have hl0 : 0 ≤ base * decayAt i := mul_nonneg hb0 hd0
  have hl1 : base * decayAt i ≤ 98 / 100 := by
    calc base * decayAt i ≤ base * 1 := by
          exact mul_le_mul_of_nonneg_left hd1 hb0
    _ = base := mul_one base
    _ ≤ 98 / 100 := hb1
  unfold adjustConfidence
  cases v with
  | true =>
    simp only [if_true]
    refine ⟨round4_nonneg _ hl0, ?_, fun h => by cases h⟩
    have : base * decayAt i ≤ ((9800 : ℤ) : ℚ) / 10000 := by push_cast; linarith
    have := round4_le _ 9800 this
    push_cast at this
    linarith
  | false =>
    simp only [if_false, Bool.false_eq_true]
    have hm0 : 0 ≤ min (base * decayAt i) (11 / 20) := le_min hl0 (by norm_num)
    have hm1 : min (base * decayAt i) (11 / 20) ≤ 11 / 20 := min_le_right _ _
    refine ⟨round4_nonneg _ hm0, ?_, fun _ => ?_⟩
    · have : min (base * decayAt i) (11 / 20) ≤ ((9800 : ℤ) : ℚ) / 10000 := by
        push_cast
        linarith
      have := round4_le _ 9800 this
      push_cast at this
      linarith
    · have : min (base * decayAt i) (11 / 20) ≤ ((5500 : ℤ) : ℚ) / 10000 := by
        push_cast
        linarith
      have := round4_le _ 5500 this
      push_cast at this
      linarith

/-- C1: with the shared base confidence computed by `compute_confidence`
(`0.55·top_sim + 0.30·avg_sim + 0.10·coverage + external_boost` clamped to
`[0, 0.98]`), every adjusted alternative confidence (per-rank decay
`[1.0, 0.93, 0.87]`, cap `0.55` when the guardrail marks the alternative
invalid, rounded to 4 decimals) lies in `[0, 0.98]`, an invalid
alternative's confidence is at most `0.55`, and the escalate flag is true
iff some alternative's confidence is below `0.2`. -/
theorem confidence_bounds_and_escalation (distances : List ℚ) (cov : ℚ) (ext : Bool)
    (texts : List (List Char)) (wlI wlW : List (List Char)) :
    (∀ p ∈ scoreSolutions (compute_confidence distances cov ext) texts wlI wlW,
      0 ≤ p.1 ∧ p.1 ≤ 98 / 100 ∧ (p.2 = false → p.1 ≤ 11 / 20)) ∧
    (escalateFlag ((scoreSolutions (compute_confidence distances cov ext)
        texts wlI wlW).map Prod.fst) = true ↔
      ∃ p ∈ scoreSolutions (compute_confidence distances cov ext) texts wlI wlW,
        p.1 < 1 / 5) := by
  obtain ⟨hb0, hb1⟩ := compute_confidence_bounds distances cov ext
  constructor
  · intro p hp
    unfold scoreSolutions at hp
    rw [List.mem_map] at hp
    obtain ⟨q, hq, rfl⟩ := hp
    obtain ⟨h0, h1, h2⟩ := adjustConfidence_bounds (compute_confidence distances cov ext)
      q.1 ((validate_solution q.2 wlI wlW).2.2) hb0 hb1
    exact ⟨h0, h1, h2⟩
  · unfold escalateFlag
    rw [List.any_eq_true]
    constructor
    · rintro ⟨c, hc, hlt⟩
      rw [List.mem_map] at hc
      obtain ⟨p, hp, rfl⟩ := hc
      exact ⟨p, hp, of_decide_eq_true hlt⟩
    · rintro ⟨p, hp, hlt⟩
      exact ⟨p.1, List.mem_map_of_mem Prod.fst hp, decide_eq_true hlt⟩


/-! ## C2, C7, C8 — the guardrail validator -/

theorem hasUnsafe_nil : hasUnsafe ([] : List Char) = false := by decide

theorem validateParas_fst (I W : List (List Char)) (i : Nat) (ps : List (List Char)) :
    (validateParas I W i ps).1 = ps.filter (fun p => !hasUnsafe p) := by
  induction ps generalizing i with
  | nil => simp [validateParas]
  | cons p rest ih =>
    by_cases hp : p.isEmpty
    · have hpn : p = [] := by simpa [List.isEmpty_iff] using hp
      subst hpn
      simp [validateParas, List.filter_cons, hasUnsafe_nil, ih]
    · cases hhit : (unsafeHits p).isEmpty with
      | true =>
        have hhu : hasUnsafe p = false := by simp [hasUnsafe, hhit]
        simp [validateParas, hp, hhit, List.filter_cons, hhu, ih]
      | false =>
        have hhu : hasUnsafe p = true := by simp [hasUnsafe, hhit]
        simp [validateParas, hp, hhit, List.filter_cons, hhu, ih]

theorem validateParas_index_ge (I W : List (List Char)) (i : Nat)
    (ps : List (List Char)) :
    ∀ iss ∈ (validateParas I W i ps).2, ∀ k, iss.paragraph_index = some k → i ≤ k := by
  induction ps generalizing i with
  | nil => simp [validateParas]
  | cons p rest ih =>
    intro iss hiss k hk
    have hhead : ∀ jss ∈ coverageIssues i p ++ whitelistIssues I W i p ++
        [(⟨sevError, unsafeMsgHead ++ joinComma (unsafeHits p), some i⟩ : ValidationIssue)],
        jss.paragraph_index = some i := by
      intro jss hj
      rcases List.mem_append.mp hj with hj | hj
      · rcases List.mem_append.mp hj with hj | hj
        · unfold coverageIssues at hj
          split at hj
          · simp at hj
            rw [hj]
          · simp at hj
        · unfold whitelistIssues at hj
          rw [List.mem_flatMap] at hj
          obtain ⟨raw, _, hj⟩ := hj
          rcases List.mem_append.mp hj with hj | hj <;>
            · split at hj
              · simp at hj
                rw [hj]
              · simp at hj
      · simp at hj
        rw [hj]
    unfold validateParas at hiss
    by_cases hp : p.isEmpty
    · simp only [hp, if_true] at hiss
      exact Nat.le_of_succ_le (ih (i + 1) iss hiss k hk)
    · simp only [hp, if_false, Bool.false_eq_true] at hiss
      cases hhit : (unsafeHits p).isEmpty
      · rw [hhit] at hiss
        simp only [Bool.false_eq_true, if_false] at hiss
        rcases List.mem_append.mp hiss with h | h
        · rcases List.mem_append.mp h with h | h
          · have := hhead iss (by
              rcases List.mem_append.mp h with h1 | h1
              · exact List.mem_append.mpr (Or.inl (List.mem_append.mpr (Or.inl h1)))
              · exact List.mem_append.mpr (Or.inl (List.mem_append.mpr (Or.inr h1))))
            rw [hk] at this
            exact le_of_eq (Option.some.inj this).symm
          · have := hhead iss (List.mem_append.mpr (Or.inr h))
            rw [hk] at this
            exact le_of_eq (Option.some.inj this).symm
        · exact Nat.le_of_succ_le (ih (i + 1) iss h k hk)
      · rw [hhit] at hiss
        simp only [if_true] at hiss
        rcases List.mem_append.mp hiss with h | h
        · have := hhead iss (List.mem_append.mpr (Or.inl h))
          rw [hk] at this
          exact le_of_eq (Option.some.inj this).symm
        · exact Nat.le_of_succ_le (ih (i + 1) iss h k hk)

theorem validateParas_unsafe_issue (I W : List (List Char)) (i : Nat)
    (ps : List (List Char)) (j : Nat) (hj : j < ps.length)
    (hu : hasUnsafe (ps.get ⟨j, hj⟩) = true) :
    ∃ iss ∈ (validateParas I W i ps).2,
      iss.severity = sevError ∧ iss.paragraph_index = some (i + j) := by
  induction ps generalizing i j with
  | nil => cases hj
  | cons p rest ih =>
    cases j with
    | zero =>
      simp only [List.get] at hu
      have hp : p.isEmpty = false := by
        cases hpe : p.isEmpty
        · rfl
        · have : p = [] := by simpa [List.isEmpty_iff] using hpe
          rw [this] at hu
          rw [hasUnsafe_nil] at hu
          cases hu
      have hhit : (unsafeHits p).isEmpty = false := by
        unfold hasUnsafe at hu
        cases h : (unsafeHits p).isEmpty
        · rfl
        · rw [h] at hu
          cases hu
      refine ⟨⟨sevError, unsafeMsgHead ++ joinComma (unsafeHits p), some i⟩, ?_, rfl, by simp⟩
      unfold validateParas
      simp only [hp, Bool.false_eq_true, if_false, hhit]
      exact List.mem_append.mpr (Or.inl (List.mem_append.mpr (Or.inr (by simp))))
    | succ j' =>
      have hj' : j' < rest.length := Nat.lt_of_succ_lt_succ hj
      have hu' : hasUnsafe (rest.get ⟨j', hj'⟩) = true := by
        simpa [List.get] using hu
      obtain ⟨iss, hmem, hsev, hidx⟩ := ih (i + 1) j' hj' hu'
      refine ⟨iss, ?_, hsev, by rw [hidx]; congr 1; omega⟩
      unfold validateParas
      by_cases hp : p.isEmpty
      · simp only [hp, if_true]
        exact hmem
      · simp only [hp, Bool.false_eq_true, if_false]
        cases hhit : (unsafeHits p).isEmpty
        · rw [if_neg (by simp)]
          exact List.mem_append.mpr (Or.inr hmem)
        · rw [if_pos rfl]
          exact List.mem_append.mpr (Or.inr hmem)

theorem guardrail_strips_unsafe (text : List Char) (wlI wlW : List (List Char))
    (j : Nat) (hj : j < (stripParas text).length)
    (hu : hasUnsafe ((stripParas text).get ⟨j, hj⟩) = true) :
    (validate_solution text wlI wlW).2.2 = false ∧
    (∃ iss ∈ (validate_solution text wlI wlW).2.1,
      iss.severity = sevError ∧ iss.paragraph_index = some j) ∧
    (validate_solution text wlI wlW).1 =
      joinNL ((stripParas text).filter (fun p => !hasUnsafe p)) := by
  obtain ⟨iss, hmem, hsev, hidx⟩ :=
    validateParas_unsafe_issue (wlI.map (fun k => "INT:".toList ++ k))
      (wlW.map (fun idx => "WEB:".toList ++ idx)) 0 (stripParas text) j hj hu
  have hv2 : (validate_solution text wlI wlW).2.1 =
      (validateParas (wlI.map (fun k => "INT:".toList ++ k))
        (wlW.map (fun idx => "WEB:".toList ++ idx)) 0 (stripParas text)).2 := rfl
  have hany : ((validateParas (wlI.map (fun k => "INT:".toList ++ k))
      (wlW.map (fun idx => "WEB:".toList ++ idx)) 0 (stripParas text)).2.any
        (fun i => i.severity == sevError)) = true :=
    List.any_eq_true.mpr ⟨iss, hmem, by rw [hsev]; exact beq_self_eq_true sevError⟩
  refine ⟨?_, ?_, ?_⟩
  · have hval : (validate_solution text wlI wlW).2.2 =
        !((validateParas (wlI.map (fun k => "INT:".toList ++ k))
          (wlW.map (fun idx => "WEB:".toList ++ idx)) 0 (stripParas text)).2.any
            (fun i => i.severity == sevError)) := rfl
    rw [hval, hany]
    rfl
  · rw [hv2]
    exact ⟨iss, hmem, hsev, by rw [hidx]; congr 1; omega⟩
  · have hv1 : (validate_solution text wlI wlW).1 =
        joinNL ((validateParas (wlI.map (fun k => "INT:".toList ++ k))
          (wlW.map (fun idx => "WEB:".toList ++ idx)) 0 (stripParas text)).1) := rfl
    rw [hv1, validateParas_fst]

theorem unknownIntMsg_prefix_own (raw : List Char) :
    unknownIntMsg.isPrefixOf (unknownIntMsg ++ raw) = true := by
  rw [List.isPrefixOf_iff_prefix]
  exact List.prefix_append _ _

theorem unknownExtMsg_prefix_own (raw : List Char) :
    unknownExtMsg.isPrefixOf (unknownExtMsg ++ raw) = true := by
  rw [List.isPrefixOf_iff_prefix]
  exact List.prefix_append _ _

theorem unknownIntMsg_not_on_unsafeMsg (m : List Char) :
    unknownIntMsg.isPrefixOf (unsafeMsgHead ++ m) = false := by
  rw [Bool.eq_false_iff]
  intro h
  rw [List.isPrefixOf_iff_prefix, List.prefix_iff_eq_take] at h
  rw [List.take_append_of_le_length (by decide)] at h
  revert h
  decide

theorem unknownExtMsg_not_on_unsafeMsg (m : List Char) :
    unknownExtMsg.isPrefixOf (unsafeMsgHead ++ m) = false := by
  rw [Bool.eq_false_iff]
  intro h
  rw [List.isPrefixOf_iff_prefix, List.prefix_iff_eq_take] at h
  rw [List.take_append_of_le_length (by decide)] at h
  revert h
  decide

theorem not_both_int_web_tags (raw : List Char)
    (h1 : "INT:".toList.isPrefixOf raw = true)
    (h2 : "WEB:".toList.isPrefixOf raw = true) : False := by
  rw [List.isPrefixOf_iff_prefix] at h1 h2
  obtain ⟨t1, e1⟩ := h1
  obtain ⟨t2, e2⟩ := h2
  rw [← e1] at e2
  have hw : "WEB:".toList = ['W', 'E', 'B', ':'] := rfl
  have hi : "INT:".toList = ['I', 'N', 'T', ':'] := rfl
  rw [hw, hi] at e2
  simp at e2

theorem unsafeIssue_not_unknown (k i : Nat) (m : List Char) :
    isUnknownCitIssueAt k ⟨sevError, unsafeMsgHead ++ m, some i⟩ = false := by
  unfold isUnknownCitIssueAt
  simp [unknownIntMsg_not_on_unsafeMsg, unknownExtMsg_not_on_unsafeMsg]

theorem coverageIssues_countP (k i : Nat) (p : List Char) :
    (coverageIssues i p).countP (isUnknownCitIssueAt k) = 0 := by
  unfold coverageIssues
  split
  · simp [List.countP_singleton, isUnknownCitIssueAt, sevWarning, sevError]
  · simp

theorem whitelistIssues_countP_self (I W : List (List Char)) (i : Nat) (p : List Char) :
    (whitelistIssues I W i p).countP (isUnknownCitIssueAt i) =
      (findCitTokens p).countP (offendingToken I W) := by
  unfold whitelistIssues
  generalize findCitTokens p = toks
  induction toks with
  | nil => simp
  | cons raw rest ih =>
    rw [List.flatMap_cons, List.countP_append, List.countP_cons, ih]
    by_cases hI : ("INT:".toList.isPrefixOf raw && !(I.contains raw)) = true
    · by_cases hW : ("WEB:".toList.isPrefixOf raw && !(W.contains raw)) = true
      · exfalso
        exact not_both_int_web_tags raw (Bool.and_elim_left hI) (Bool.and_elim_left hW)
      · rw [if_pos hI, if_neg hW]
        have hpred : isUnknownCitIssueAt i
            (⟨sevError, unknownIntMsg ++ raw, some i⟩ : ValidationIssue) = true := by
          unfold isUnknownCitIssueAt
          simp [unknownIntMsg_prefix_own]
        have hoff : offendingToken I W raw = true := by
          unfold offendingToken
          rw [hI]
          rfl
        simp [hpred, hoff, List.countP_cons]
        omega
    · by_cases hW : ("WEB:".toList.isPrefixOf raw && !(W.contains raw)) = true
      · rw [if_neg hI, if_pos hW]
        have hpred : isUnknownCitIssueAt i
            (⟨sevError, unknownExtMsg ++ raw, some i⟩ : ValidationIssue) = true := by
          unfold isUnknownCitIssueAt
          simp [unknownExtMsg_prefix_own]
        have hoff : offendingToken I W raw = true := by
          unfold offendingToken
          rw [hW]
          simp
        simp [hpred, hoff, List.countP_cons]
        omega
      · rw [if_neg hI, if_neg hW]
        have hoff : offendingToken I W raw = false := by
          unfold offendingToken
          rw [Bool.eq_false_iff]
          intro h
          rcases Bool.or_eq_true_iff.mp h with h | h
          · exact hI h
          · exact hW h
        simp [hoff]

theorem whitelistIssues_countP_ne (I W : List (List Char)) (i k : Nat) (hik : k ≠ i)
    (p : List Char) :
    (whitelistIssues I W i p).countP (isUnknownCitIssueAt k) = 0 := by
  rw [List.countP_eq_zero]
  intro iss hmem
  unfold whitelistIssues at hmem
  rw [List.mem_flatMap] at hmem
  obtain ⟨raw, _, hmem⟩ := hmem
  have hidx : iss.paragraph_index = some i := by
    rcases List.mem_append.mp hmem with h | h <;>
      · split at h
        · simp at h
          rw [h]
        · simp at h
  unfold isUnknownCitIssueAt
  rw [hidx]
  have : (some i == some k) = false := by
    simp
    omega
  rw [this]
  simp

theorem validateParas_tail_countP_zero (I W : List (List Char)) (i k : Nat)
    (hk : k < i) (ps : List (List Char)) :
    (validateParas I W i ps).2.countP (isUnknownCitIssueAt k) = 0 := by
  rw [List.countP_eq_zero]
  intro iss hmem
  unfold isUnknownCitIssueAt
  cases hidx : iss.paragraph_index with
  | none => simp
  | some m =>
    have := validateParas_index_ge I W i ps iss hmem m hidx
    have : (some m == some k) = false := by
      simp
      omega
    rw [this]
    simp

theorem validateParas_unknown_countP (I W : List (List Char)) (i : Nat)
    (ps : List (List Char)) (j : Nat) (hj : j < ps.length) :
    (validateParas I W i ps).2.countP (isUnknownCitIssueAt (i + j)) =
      (findCitTokens (ps.get ⟨j, hj⟩)).countP (offendingToken I W) := by
  induction ps generalizing i j with
  | nil => cases hj
  | cons p rest ih =>
    have htail0 : (validateParas I W (i + 1) rest).2.countP
        (isUnknownCitIssueAt i) = 0 :=
      validateParas_tail_countP_zero I W (i + 1) i (by omega) rest
    cases j with
    | zero =>
      simp only [List.get]
      unfold validateParas
      by_cases hp : p.isEmpty
      · have hpn : p = [] := by simpa [List.isEmpty_iff] using hp
        simp only [hp, if_true]
        rw [Nat.add_zero]
        rw [htail0, hpn]
        simp [findCitTokens, findCitTokensAux]
      · simp only [hp, Bool.false_eq_true, if_false]
        rw [Nat.add_zero]
        cases hhit : (unsafeHits p).isEmpty
        · rw [if_neg (by simp)]
          simp only [List.countP_append]
          rw [coverageIssues_countP, whitelistIssues_countP_self, htail0,
            List.countP_singleton, unsafeIssue_not_unknown]
          simp
        · rw [if_pos rfl]
          simp only [List.countP_append]
          rw [coverageIssues_countP, whitelistIssues_countP_self, htail0]
          simp
    | succ j' =>
      have hj' : j' < rest.length := Nat.lt_of_succ_lt_succ hj
      have harith : i + (j' + 1) = (i + 1) + j' := by omega
      have hne : i + (j' + 1) ≠ i := by omega
      unfold validateParas
      by_cases hp : p.isEmpty
      · simp only [hp, if_true]
        rw [harith]
        exact ih (i + 1) j' hj'
      · simp only [hp, Bool.false_eq_true, if_false]
        cases hhit : (unsafeHits p).isEmpty
        · rw [if_neg (by simp)]
          simp only [List.countP_append]
          rw [coverageIssues_countP, whitelistIssues_countP_ne I W i _ hne,
            List.countP_singleton, unsafeIssue_not_unknown]
          have := ih (i + 1) j' hj'
          rw [harith]
          simp only [List.get]
          rw [this]
          simp
        · rw [if_pos rfl]
          simp only [List.countP_append]
          rw [coverageIssues_countP, whitelistIssues_countP_ne I W i _ hne]
          have := ih (i + 1) j' hj'
          rw [harith]
          simp only [List.get]
          rw [this]
          simp

theorem citation_whitelist_errors (text : List Char) (wlI wlW : List (List Char))
    (j : Nat) (hj : j < (stripParas text).length) :
    ((validate_solution text wlI wlW).2.1.countP (isUnknownCitIssueAt j) =
      (findCitTokens ((stripParas text).get ⟨j, hj⟩)).countP
        (offendingToken (wlI.map (fun k => "INT:".toList ++ k))
          (wlW.map (fun idx => "WEB:".toList ++ idx)))) ∧
    ((∃ iss ∈ (validate_solution text wlI wlW).2.1, isUnknownCitIssueAt j iss = true) ↔
      ∃ raw ∈ findCitTokens ((stripParas text).get ⟨j, hj⟩),
        offendingToken (wlI.map (fun k => "INT:".toList ++ k))
          (wlW.map (fun idx => "WEB:".toList ++ idx)) raw = true) := by
  have hv2 : (validate_solution text wlI wlW).2.1 =
      (validateParas (wlI.map (fun k => "INT:".toList ++ k))
        (wlW.map (fun idx => "WEB:".toList ++ idx)) 0 (stripParas text)).2 := rfl
  have hcount := validateParas_unknown_countP (wlI.map (fun k => "INT:".toList ++ k))
    (wlW.map (fun idx => "WEB:".toList ++ idx)) 0 (stripParas text) j hj
  rw [Nat.zero_add] at hcount
  have hmain : (validate_solution text wlI wlW).2.1.countP (isUnknownCitIssueAt j) =
      (findCitTokens ((stripParas text).get ⟨j, hj⟩)).countP
        (offendingToken (wlI.map (fun k => "INT:".toList ++ k))
          (wlW.map (fun idx => "WEB:".toList ++ idx))) := by
    rw [hv2]
    exact hcount
  refine ⟨hmain, ?_⟩
  rw [← List.countP_pos_iff, ← List.countP_pos_iff, hmain]

/-- C2 counterexample: the unsafe-pattern check runs on the *stripped*
paragraph, so a line whose trailing whitespace completes the pattern
`"TRUNCATE "` (a member of the curated list) is kept verbatim, with no
issue and `is_valid = true` — the claim as stated (containment in the raw
line) fails here. -/
theorem unsafe_line_strip_counterexample :
    containsSub (lowerChars "TRUNCATE ".toList)
      (lowerChars ((splitNL "abc TRUNCATE ".toList).headI)) = true ∧
    "TRUNCATE ".toList ∈ UNSAFE_COMMAND_PATTERNS ∧
    (validate_solution "abc TRUNCATE ".toList [] []).2.2 = true ∧
    (validate_solution "abc TRUNCATE ".toList [] []).2.1 = [] ∧
    (validate_solution "abc TRUNCATE ".toList [] []).1 = "abc TRUNCATE".toList := by
  decide

/-- C2 witness: on a concrete two-line solution whose first line holds
`DROP TABLE`, validation is invalid and the cleaned text is the second
line only. -/
theorem guardrail_strips_unsafe_witness :
    (validate_solution "Run DROP TABLE users;\nCollect logs first".toList [] []).2.2 =
        false ∧
    (validate_solution "Run DROP TABLE users;\nCollect logs first".toList [] []).1 =
        "Collect logs first".toList := by
  have h := guardrail_strips_unsafe "Run DROP TABLE users;\nCollect logs first".toList
    [] [] 0 (by decide) (by decide)
  refine ⟨h.1, ?_⟩
  rw [h.2.2]
  decide

/-- C7 witness: with internal whitelist `{ABC-1}` and no external indices,
the paragraph `see [INT:ABC-1] and [WEB:9]` yields exactly one
unknown-citation error. -/
theorem citation_whitelist_errors_witness :
    (validate_solution "see [INT:ABC-1] and [WEB:9]".toList
      ["ABC-1".toList] []).2.1.countP (isUnknownCitIssueAt 0) = 1 := by
  have h := (citation_whitelist_errors "see [INT:ABC-1] and [WEB:9]".toList
    ["ABC-1".toList] [] 0 (by decide)).1
  rw [h]
  decide

/-- C8 (divergence): the coverage check's regex `\[(INT|WEB:[^\]]+)\]` does
not match `[INT:…]` tokens, so a paragraph of more than 4 words whose only
citation is a whitelisted `[INT:ABC-1]` still receives the
`Paragraph lacks citations` warning — against both the claim and the
module's own documentation (the unused `CITATION_PATTERN` matches the
token). -/
theorem coverage_warning_despite_internal_citation :
    findCitTokens "Please restart the app server now [INT:ABC-1]".toList =
        ["INT:ABC-1".toList] ∧
    4 < (pyWords "Please restart the app server now [INT:ABC-1]".toList).length ∧
    (validate_solution "Please restart the app server now [INT:ABC-1]".toList
      ["ABC-1".toList] []).2.1 =
        [⟨sevWarning, lacksCitationsMsg, some 0⟩] ∧
    (validate_solution "Please restart the app server now [INT:ABC-1]".toList
      ["ABC-1".toList] []).2.2 = true := by
  decide


/-! Infrastructure lemmas for the scrub analysis. -/

theorem hasMatchFrom_cons (f : Option Char → List Char → Option Nat)
    (prev : Option Char) (c : Char) (cs : List Char) :
    hasMatchFrom f prev (c :: cs) =
      ((f prev (c :: cs)).isSome || hasMatchFrom f (some c) cs) := rfl

theorem prevAt_cons (prev : Option Char) (c : Char) (cs : List Char) (L : Nat) :
    prevAt (some c) cs L = prevAt prev (c :: cs) (L + 1) := by
  unfold prevAt
  cases L with
  | zero => simp
  | succ L' => simp

theorem prevAt_zero (prev : Option Char) (s : List Char) : prevAt prev s 0 = prev := by
  simp [prevAt]

theorem hasMatchFrom_false_at (f : Option Char → List Char → Option Nat)
    (prev : Option Char) (s : List Char)
    (h : hasMatchFrom f prev s = false) :
    ∀ L, L < s.length → f (prevAt prev s L) (s.drop L) = none := by
  induction s generalizing prev with
  | nil => intro L hL; cases hL
  | cons c cs ih =>
    intro L hL
    rw [hasMatchFrom_cons, Bool.or_eq_false_iff] at h
    cases L with
    | zero =>
      rw [prevAt_zero, List.drop_zero]
      exact Option.not_isSome_iff_eq_none.mp (by simp [h.1])
    | succ L' =>
      have := ih (some c) h.2 L' (Nat.lt_of_succ_lt_succ hL)
      rw [prevAt_cons prev] at this
      simpa using this

theorem hasMatchFrom_append_false (f : Option Char → List Char → Option Nat)
    (u v : List Char) (prev : Option Char)
    (hu : ∀ L, L < u.length → f (prevAt prev u L) (u.drop L ++ v) = none)
    (hv : hasMatchFrom f (endPrev prev u) v = false) :
    hasMatchFrom f prev (u ++ v) = false := by
  induction u generalizing prev with
  | nil =>
    simpa [endPrev] using hv
  | cons c cs ih =>
    rw [List.cons_append, hasMatchFrom_cons, Bool.or_eq_false_iff]
    constructor
    · have := hu 0 (by simp)
      rw [prevAt_zero, List.drop_zero, List.cons_append] at this
      simp [this]
    · apply ih (some c)
      · intro L hL
        have := hu (L + 1) (by simpa using Nat.succ_lt_succ hL)
        rw [← prevAt_cons prev] at this
        simpa using this
      · have he : endPrev prev (c :: cs) = endPrev (some c) cs := by
          unfold endPrev
          cases cs with
          | nil => simp
          | cons d ds => simp [List.getLast?]
        rw [← he]
        exact hv

theorem substAux_cons_some (p : Option Char → List Char → Option Nat)
    (fuel : Nat) (prev : Option Char) (c : Char) (cs : List Char) (n : Nat)
    (hm : p prev (c :: cs) = some n) :
    substAux p (fuel + 1) prev (c :: cs) =
      (REDACTED ++ (substAux p fuel ((c :: cs).take n).getLast? ((c :: cs).drop n)).1,
       (substAux p fuel ((c :: cs).take n).getLast? ((c :: cs).drop n)).2 + 1) := by
  conv_lhs => rw [substAux]
  dsimp only
  rw [hm]

theorem substAux_cons_none (p : Option Char → List Char → Option Nat)
    (fuel : Nat) (prev : Option Char) (c : Char) (cs : List Char)
    (hm : p prev (c :: cs) = none) :
    substAux p (fuel + 1) prev (c :: cs) =
      (c :: (substAux p fuel (some c) cs).1, (substAux p fuel (some c) cs).2) := by
  conv_lhs => rw [substAux]
  dsimp only
  rw [hm]

theorem substAux_of_clean (p : Option Char → List Char → Option Nat)
    (fuel : Nat) (prev : Option Char) (s : List Char) (hf : s.length ≤ fuel)
    (h : hasMatchFrom p prev s = false) :
    substAux p fuel prev s = (s, 0) := by
  induction s generalizing prev fuel with
  | nil =>
    cases fuel <;> rfl
  | cons c cs ih =>
    cases fuel with
    | zero => cases hf
    | succ fuel' =>
      rw [hasMatchFrom_cons, Bool.or_eq_false_iff] at h
      have hnone : p prev (c :: cs) = none :=
        Option.not_isSome_iff_eq_none.mp (by simp [h.1])
      rw [substAux_cons_none p fuel' prev c cs hnone,
        ih fuel' (some c) (Nat.le_of_succ_le_succ hf) h.2]

theorem substAux_seg (p : Option Char → List Char → Option Nat)
    (hp1 : ∀ pr t m, p pr t = some m → 1 ≤ m ∧ m ≤ t.length)
    (fuel : Nat) (prev : Option Char) (s : List Char) (hf : s.length ≤ fuel) :
    (substAux p fuel prev s = (s, 0) ∧ hasMatchFrom p prev s = false) ∨
    (∃ L n fuelR, L + n ≤ s.length ∧ 1 ≤ n ∧
      p (prevAt prev s L) (s.drop L) = some n ∧
      (∀ i, i < L → p (prevAt prev s i) (s.drop i) = none) ∧
      (s.drop (L + n)).length ≤ fuelR ∧
      (substAux p fuel prev s).1 =
        s.take L ++ REDACTED ++
          (substAux p fuelR (((s.drop L).take n).getLast?) (s.drop (L + n))).1) := by
  induction s generalizing prev fuel with
  | nil =>
    left
    constructor
    · cases fuel <;> rfl
    · rfl
  | cons c cs ih =>
    cases fuel with
    | zero => cases hf
    | succ fuel' =>
      cases hm : p prev (c :: cs) with
      | some n =>
        right
        obtain ⟨hn1, hn2⟩ := hp1 prev (c :: cs) n hm
        refine ⟨0, n, fuel', by simpa using hn2, hn1, by simpa [prevAt] using hm,
          by omega, ?_, ?_⟩
        · simp only [List.length_drop, List.length_cons] at hf ⊢
          omega
        · rw [substAux_cons_some p fuel' prev c cs n hm]
          simp
      | none =>
        rcases ih fuel' (some c) (Nat.le_of_succ_le_succ hf) with ⟨h1, h2⟩ | hseg
        · left
          constructor
          · rw [substAux_cons_none p fuel' prev c cs hm, h1]
          · rw [hasMatchFrom_cons, hm]
            simpa using h2
        · obtain ⟨L, n, fuelR, hLn, hn1, hmatch, hbefore, hfR, hout⟩ := hseg
          right
          refine ⟨L + 1, n, fuelR, ?_, hn1, ?_, ?_, ?_, ?_⟩
          · simp only [List.length_cons]
            omega
          · rw [← prevAt_cons prev]
            simpa using hmatch
          · intro i hi
            cases i with
            | zero => rw [prevAt_zero, List.drop_zero]; exact hm
            | succ i' =>
              rw [← prevAt_cons prev]
              simpa using hbefore i' (Nat.lt_of_succ_lt_succ hi)
          · simp only [List.length_drop, List.length_cons] at hfR ⊢
            omega
          · rw [substAux_cons_none p fuel' prev c cs hm]
            have harr : (c :: cs).drop (L + 1 + n) = cs.drop (L + n) := by
              have h9 : L + 1 + n = (L + n) + 1 := by omega
              rw [h9]
              simp
            have harr2 : (c :: cs).take (L + 1) = c :: cs.take L := by simp
            have harr3 : ((c :: cs).drop (L + 1)) = cs.drop L := by simp
            dsimp only
            rw [hout, harr, harr2, harr3]
            simp


/-! Character-class facts. -/

theorem charLeNat (a b : Char) : (a ≤ b) ↔ (a.toNat ≤ b.toNat) := by
  rw [Char.le_def, UInt32.le_def, BitVec.le_def]
  rfl

theorem charEqNat (a b : Char) : (a = b) ↔ (a.toNat = b.toNat) := by
  constructor
  · intro h; rw [h]
  · intro h
    apply Char.eq_of_val_eq
    apply UInt32.eq_of_toBitVec_eq
    apply BitVec.eq_of_toNat_eq
    exact h

theorem isDigit_iff (c : Char) : c.isDigit = true ↔ 48 ≤ c.toNat ∧ c.toNat ≤ 57 := by
  unfold Char.isDigit
  simp only [Bool.and_eq_true, decide_eq_true_eq, ge_iff_le, UInt32.le_def, BitVec.le_def]
  have h1 : ((48 : UInt32).toBitVec).toNat = 48 := by decide
  have h2 : ((57 : UInt32).toBitVec).toNat = 57 := by decide
  have hc : (c.val.toBitVec).toNat = c.toNat := rfl
  rw [h1, h2, hc]

theorem isLower_iff (c : Char) : c.isLower = true ↔ 97 ≤ c.toNat ∧ c.toNat ≤ 122 := by
  unfold Char.isLower
  simp only [Bool.and_eq_true, decide_eq_true_eq, ge_iff_le, UInt32.le_def, BitVec.le_def]
  have h1 : ((97 : UInt32).toBitVec).toNat = 97 := by decide
  have h2 : ((122 : UInt32).toBitVec).toNat = 122 := by decide
  have hc : (c.val.toBitVec).toNat = c.toNat := rfl
  rw [h1, h2, hc]

theorem isUpper_iff (c : Char) : c.isUpper = true ↔ 65 ≤ c.toNat ∧ c.toNat ≤ 90 := by
  unfold Char.isUpper
  simp only [Bool.and_eq_true, decide_eq_true_eq, ge_iff_le, UInt32.le_def, BitVec.le_def]
  have h1 : ((65 : UInt32).toBitVec).toNat = 65 := by decide
  have h2 : ((90 : UInt32).toBitVec).toNat = 90 := by decide
  have hc : (c.val.toBitVec).toNat = c.toNat := rfl
  rw [h1, h2, hc]

theorem isAlpha_iff (c : Char) : c.isAlpha = true ↔
    (65 ≤ c.toNat ∧ c.toNat ≤ 90) ∨ (97 ≤ c.toNat ∧ c.toNat ≤ 122) := by
  unfold Char.isAlpha
  rw [Bool.or_eq_true, isUpper_iff, isLower_iff]

theorem isAlphanum_iff (c : Char) : c.isAlphanum = true ↔
    (48 ≤ c.toNat ∧ c.toNat ≤ 57) ∨ (65 ≤ c.toNat ∧ c.toNat ≤ 90) ∨
      (97 ≤ c.toNat ∧ c.toNat ≤ 122) := by
  unfold Char.isAlphanum
  rw [Bool.or_eq_true, isAlpha_iff, isDigit_iff]
  tauto

theorem isWordChar_iff (c : Char) : isWordChar c = true ↔
    (48 ≤ c.toNat ∧ c.toNat ≤ 57) ∨ (65 ≤ c.toNat ∧ c.toNat ≤ 90) ∨
      (97 ≤ c.toNat ∧ c.toNat ≤ 122) ∨ c.toNat = 95 := by
  unfold isWordChar
  rw [Bool.or_eq_true, isAlphanum_iff, decide_eq_true_eq, charEqNat]
  have h : ('_' : Char).toNat = 95 := by decide
  rw [h]
  tauto

theorem isHexChar_iff (c : Char) : isHexChar c = true ↔
    (48 ≤ c.toNat ∧ c.toNat ≤ 57) ∨ (97 ≤ c.toNat ∧ c.toNat ≤ 102) ∨
      (65 ≤ c.toNat ∧ c.toNat ≤ 70) := by
  unfold isHexChar
  simp only [Bool.or_eq_true, Bool.and_eq_true, decide_eq_true_eq, charLeNat, isDigit_iff]
  have h1 : ('a' : Char).toNat = 97 := by decide
  have h2 : ('f' : Char).toNat = 102 := by decide
  have h3 : ('A' : Char).toNat = 65 := by decide
  have h4 : ('F' : Char).toNat = 70 := by decide
  rw [h1, h2, h3, h4]
  tauto

theorem isB64Char_iff (c : Char) : isB64Char c = true ↔
    (48 ≤ c.toNat ∧ c.toNat ≤ 57) ∨ (65 ≤ c.toNat ∧ c.toNat ≤ 90) ∨
      (97 ≤ c.toNat ∧ c.toNat ≤ 122) ∨ c.toNat = 43 ∨ c.toNat = 47 := by
  unfold isB64Char
  simp only [Bool.or_eq_true, decide_eq_true_eq, charEqNat, isAlphanum_iff]
  have h1 : ('+' : Char).toNat = 43 := by decide
  have h2 : ('/' : Char).toNat = 47 := by decide
  rw [h1, h2]
  tauto

theorem isJwtChar_iff (c : Char) : isJwtChar c = true ↔
    (48 ≤ c.toNat ∧ c.toNat ≤ 57) ∨ (65 ≤ c.toNat ∧ c.toNat ≤ 90) ∨
      (97 ≤ c.toNat ∧ c.toNat ≤ 122) ∨ c.toNat = 45 ∨ c.toNat = 95 := by
  unfold isJwtChar
  simp only [Bool.or_eq_true, decide_eq_true_eq, charEqNat, isAlphanum_iff]
  have h1 : ('-' : Char).toNat = 45 := by decide
  have h2 : ('_' : Char).toNat = 95 := by decide
  rw [h1, h2]
  tauto

theorem isLocalChar_iff (c : Char) : isLocalChar c = true ↔
    (48 ≤ c.toNat ∧ c.toNat ≤ 57) ∨ (65 ≤ c.toNat ∧ c.toNat ≤ 90) ∨
      (97 ≤ c.toNat ∧ c.toNat ≤ 122) ∨ c.toNat = 46 ∨ c.toNat = 95 ∨
      c.toNat = 37 ∨ c.toNat = 43 ∨ c.toNat = 45 := by
  unfold isLocalChar
  simp only [Bool.or_eq_true, decide_eq_true_eq, charEqNat, isAlphanum_iff]
  have h1 : ('.' : Char).toNat = 46 := by decide
  have h2 : ('_' : Char).toNat = 95 := by decide
  have h3 : ('%' : Char).toNat = 37 := by decide
  have h4 : ('+' : Char).toNat = 43 := by decide
  have h5 : ('-' : Char).toNat = 45 := by decide
  rw [h1, h2, h3, h4, h5]
  tauto

theorem isDomChar_iff (c : Char) : isDomChar c = true ↔
    (48 ≤ c.toNat ∧ c.toNat ≤ 57) ∨ (65 ≤ c.toNat ∧ c.toNat ≤ 90) ∨
      (97 ≤ c.toNat ∧ c.toNat ≤ 122) ∨ c.toNat = 46 ∨ c.toNat = 45 := by
  unfold isDomChar
  simp only [Bool.or_eq_true, decide_eq_true_eq, charEqNat, isAlphanum_iff]
  have h1 : ('.' : Char).toNat = 46 := by decide
  have h2 : ('-' : Char).toNat = 45 := by decide
  rw [h1, h2]
  tauto


/-! List toolkit for the scrub analysis. -/

theorem takeWhile_append_stop {p : Char → Bool} (u : List Char) (x : Char) (w : List Char)
    (hx : p x = false) :
    (u ++ x :: w).takeWhile p = u.takeWhile p := by
  rw [List.takeWhile_append]
  split
  · rename_i h
    have hu : u.takeWhile p = u :=
      List.IsPrefix.eq_of_length ( List.takeWhile_prefix p) h
    rw [List.takeWhile_cons_of_neg (by simp [hx]), hu, List.append_nil]
  · rfl

theorem takeWhile_append_of_lt {p : Char → Bool} (u v : List Char)
    (h : (u.takeWhile p).length < u.length) :
    (u ++ v).takeWhile p = u.takeWhile p := by
  rw [List.takeWhile_append, if_neg (by omega)]

theorem takeWhile_length_le (p : Char → Bool) (u : List Char) :
    (u.takeWhile p).length ≤ u.length :=
  List.IsPrefix.length_le ( List.takeWhile_prefix p)

theorem takeWhile_length_mono_append {p : Char → Bool} (u v : List Char) :
    (u.takeWhile p).length ≤ ((u ++ v).takeWhile p).length := by
  rw [List.takeWhile_append]
  split
  · rename_i h
    simp only [List.length_append]
    omega
  · exact Nat.le_refl _

theorem takeWhile_get? {p : Char → Bool} (u : List Char) (i : Nat)
    (h : i < (u.takeWhile p).length) : (u.takeWhile p)[i]? = u[i]? := by
  have hpre := @List.takeWhile_prefix _ u p
  rw [List.prefix_iff_eq_take] at hpre
  conv_lhs => rw [hpre]
  rw [List.getElem?_take_of_lt h]

theorem takeWhile_sat_at {p : Char → Bool} (u : List Char) (i : Nat) (c : Char)
    (h : i < (u.takeWhile p).length) (hc : u[i]? = some c) : p c = true := by
  have h2 : (u.takeWhile p)[i]? = some c := by rw [takeWhile_get? u i h, hc]
  have h3 : c ∈ u.takeWhile p := by
    rw [List.getElem?_eq_some_iff] at h2
    obtain ⟨hlt, hEq⟩ := h2
    exact hEq ▸ List.getElem_mem hlt
  exact List.mem_takeWhile_imp h3

theorem takeWhile_stop_false {p : Char → Bool} (u : List Char) (c : Char)
    (h : u[(u.takeWhile p).length]? = some c) : p c = false := by
  induction u with
  | nil => simp at h
  | cons a l ih =>
    by_cases ha : p a = true
    · rw [List.takeWhile_cons_of_pos ha] at h
      simp only [List.length_cons, List.getElem?_cons_succ] at h
      exact ih h
    · rw [List.takeWhile_cons_of_neg (by simp [ha])] at h
      simp only [List.length_nil, List.getElem?_cons_zero, Option.some.injEq] at h
      subst h
      exact Bool.eq_false_iff.mpr ha

theorem takeWhile_covers {p : Char → Bool} (u : List Char)
    (h : (u.takeWhile p).length = u.length) : ∀ c ∈ u, p c = true := by
  have hu : u.takeWhile p = u :=
    List.IsPrefix.eq_of_length ( List.takeWhile_prefix p) h
  rw [← hu]
  intro c hc
  exact List.mem_takeWhile_imp hc

theorem takeWhile_all {p : Char → Bool} (u : List Char)
    (h : ∀ c ∈ u, p c = true) : u.takeWhile p = u :=
  List.takeWhile_eq_self_iff.mpr h

theorem getLast?_take_eq (s : List Char) (n : Nat) (h1 : 1 ≤ n) (h2 : n ≤ s.length) :
    (s.take n).getLast? = s[n - 1]? := by
  rw [List.getLast?_take, if_neg (by omega)]
  have hlt : n - 1 < s.length := by omega
  rw [List.getElem?_eq_getElem hlt]
  rfl

theorem prevAt_drop (pr : Option Char) (s : List Char) (k i : Nat) :
    prevAt (prevAt pr s k) (s.drop k) i = prevAt pr s (k + i) := by
  unfold prevAt
  cases i with
  | zero => simp
  | succ i' =>
    rw [if_neg (by omega), if_neg (by omega)]
    have hidx : k + (i' + 1) - 1 = k + (i' + 1 - 1) := by omega
    rw [hidx]
    simp only [List.get?_eq_getElem?, List.getElem?_drop]

theorem hasMatchFrom_eq_false_of (f : Option Char → List Char → Option Nat)
    (pr : Option Char) (s : List Char)
    (h : ∀ L, L < s.length → f (prevAt pr s L) (s.drop L) = none) :
    hasMatchFrom f pr s = false := by
  induction s generalizing pr with
  | nil => rfl
  | cons c cs ih =>
    rw [hasMatchFrom_cons, Bool.or_eq_false_iff]
    constructor
    · have := h 0 (by simp)
      rw [prevAt_zero, List.drop_zero] at this
      simp [this]
    · apply ih (some c)
      intro L hL
      have := h (L + 1) (by simpa using Nat.succ_lt_succ hL)
      rw [← prevAt_cons pr] at this
      simpa using this

theorem hasMatchFrom_drop (f : Option Char → List Char → Option Nat)
    (pr : Option Char) (s : List Char) (k : Nat)
    (h : hasMatchFrom f pr s = false) :
    hasMatchFrom f (prevAt pr s k) (s.drop k) = false := by
  apply hasMatchFrom_eq_false_of
  intro L hL
  rw [prevAt_drop, List.drop_drop]
  apply hasMatchFrom_false_at f pr s h
  simp only [List.length_drop] at hL
  omega

theorem hasMatchFrom_congr (f : Option Char → List Char → Option Nat)
    (pr1 pr2 : Option Char) (s : List Char)
    (h : ∀ t, f pr1 t = f pr2 t) :
    hasMatchFrom f pr1 s = hasMatchFrom f pr2 s := by
  cases s with
  | nil => rfl
  | cons c cs => rw [hasMatchFrom_cons, hasMatchFrom_cons, h]

theorem hex_isWord (c : Char) (h : isHexChar c = true) : isWordChar c = true := by
  rw [isHexChar_iff] at h
  rw [isWordChar_iff]
  omega

theorem alnum_isWord (c : Char) (h : c.isAlphanum = true) : isWordChar c = true := by
  rw [isAlphanum_iff] at h
  rw [isWordChar_iff]
  omega

/-! Facts about the long-hex pattern. -/

theorem hexMatchAt_sound (pr : Option Char) (s : List Char) (e : Nat)
    (h : hexMatchAt pr s = some e) :
    isBoundary pr s.head? = true ∧ e = (s.takeWhile isHexChar).length ∧
      32 ≤ e ∧ optWord (s.get? e) = false := by
  simp only [hexMatchAt] at h
  split at h
  · exact absurd h (by simp)
  · rename_i hb
    split at h
    · rename_i hcond
      rw [Bool.and_eq_true, decide_eq_true_eq, Bool.not_eq_true'] at hcond
      have he : e = (s.takeWhile isHexChar).length := (Option.some.inj h).symm
      subst he
      exact ⟨by simpa using hb, rfl, hcond.1, hcond.2⟩
    · exact absurd h (by simp)

theorem hexMatchAt_comp (pr : Option Char) (s : List Char)
    (hb : isBoundary pr s.head? = true)
    (h32 : 32 ≤ (s.takeWhile isHexChar).length)
    (hw : optWord (s.get? (s.takeWhile isHexChar).length) = false) :
    hexMatchAt pr s = some (s.takeWhile isHexChar).length := by
  simp only [hexMatchAt, hb, Bool.not_true, Bool.false_eq_true, if_false]
  rw [if_pos]
  rw [Bool.and_eq_true, decide_eq_true_eq, Bool.not_eq_true']
  exact ⟨h32, hw⟩

theorem hexMatchAt_trail (pr : Option Char) (t : List Char) (n : Nat)
    (h : hexMatchAt pr t = some n) :
    isBoundary ((t.take n).getLast?) ((t.drop n).head?) = true := by
  obtain ⟨_, hrun, h32, hw⟩ := hexMatchAt_sound pr t n h
  have hlen : n ≤ t.length := hrun ▸ takeWhile_length_le isHexChar t
  have hlast : (t.take n).getLast? = t[n - 1]? :=
    getLast?_take_eq t n (by omega) hlen
  have hn1 : n - 1 < t.length := by omega
  obtain ⟨c, hc⟩ : ∃ c, t[n - 1]? = some c := ⟨t[n - 1], List.getElem?_eq_getElem hn1⟩
  have hcHex : isHexChar c = true :=
    takeWhile_sat_at t (n - 1) c (by omega) hc
  have hhead : (t.drop n).head? = t[n]? := List.head?_drop t n
  rw [hlast, hhead, hc]
  rw [List.get?_eq_getElem?] at hw
  unfold isBoundary
  rw [hw]
  simp [optWord, hex_isWord c hcHex]

theorem hexMatchAt_prevdep (pr1 pr2 : Option Char) (s : List Char)
    (h : optWord pr1 = optWord pr2) : hexMatchAt pr1 s = hexMatchAt pr2 s := by
  simp only [hexMatchAt, isBoundary, h]

theorem hexMatchAt_nobound (pr : Option Char) (s : List Char)
    (hb : isBoundary pr s.head? = false) : hexMatchAt pr s = none := by
  simp [hexMatchAt, hb]

theorem hex_transfer (pr : Option Char) (u : List Char) (x f : Char) (w rest : List Char)
    (e : Nat) (hu : u ≠ [])
    (hxcls : isHexChar x = false)
    (hb1 : ∀ c, u.getLast? = some c → optWord (some c) = true → optWord (some f) = false)
    (h : hexMatchAt pr (u ++ x :: w) = some e) :
    (hexMatchAt pr (u ++ f :: rest)).isSome = true := by
  obtain ⟨hbnd, hrun, h32, hw⟩ := hexMatchAt_sound pr (u ++ x :: w) e h
  rw [List.head?_append_of_ne_nil u hu] at hbnd
  rw [takeWhile_append_stop u x w hxcls] at hrun
  have hlen : e ≤ u.length := hrun ▸ takeWhile_length_le isHexChar u
  rw [List.get?_eq_getElem?] at hw
  rcases Nat.lt_or_ge e u.length with hlt | hge
  · -- the run stops strictly inside `u`: everything is literally shared
    have hrunIn : (u ++ f :: rest).takeWhile isHexChar = u.takeWhile isHexChar :=
      takeWhile_append_of_lt u (f :: rest) (by omega)
    have hcomp := hexMatchAt_comp pr (u ++ f :: rest)
      (by rw [List.head?_append_of_ne_nil u hu]; exact hbnd) ?_ ?_
    · rw [hcomp]; rfl
    · rw [hrunIn, ← hrun]; exact h32
    · rw [hrunIn, ← hrun, List.get?_eq_getElem?, List.getElem?_append_left hlt]
      rw [List.getElem?_append_left (hrun ▸ hlt)] at hw
      exact hw
  · -- the run covers all of `u`; the stop characters differ but are both non-word
    have heq : e = u.length := by omega
    have hcov : ∀ c ∈ u, isHexChar c = true := by
      apply takeWhile_covers
      omega
    obtain ⟨c, hc⟩ : ∃ c, u.getLast? = some c := by
      have := List.getLast?_isSome.mpr hu
      exact Option.isSome_iff_exists.mp this
    have hcw : optWord (some c) = true := by
      simp only [optWord]
      exact hex_isWord c (hcov c (List.mem_of_mem_getLast? (by rw [hc]; rfl)))
    have hfw : optWord (some f) = false := hb1 c hc hcw
    have hfhex : isHexChar f = false := by
      by_contra hcon
      have h1 : isHexChar f = true := by
        cases hfx : isHexChar f
        · exact absurd hfx hcon
        · rfl
      rw [optWord] at hfw
      rw [hex_isWord f h1] at hfw
      exact absurd hfw (by simp)
    have hrunIn : (u ++ f :: rest).takeWhile isHexChar = u.takeWhile isHexChar :=
      takeWhile_append_stop u f rest hfhex
    have hcomp := hexMatchAt_comp pr (u ++ f :: rest)
      (by rw [List.head?_append_of_ne_nil u hu]; exact hbnd) ?_ ?_
    · rw [hcomp]; rfl
    · rw [hrunIn, ← hrun]; exact h32
    · rw [hrunIn, ← hrun, heq, List.get?_eq_getElem?, List.getElem?_append_right (by omega)]
      simp only [Nat.sub_self, List.getElem?_cons_zero]
      exact hfw

/-! Facts about the API-key pattern. -/

theorem apiKeyMatchAt_eq (prev : Option Char) (s : List Char) :
    apiKeyMatchAt prev s =
      if !isBoundary prev s.head? then none
      else
        match apiTag (lowerChars s) with
        | none => none
        | some t =>
          if decide (8 ≤ ((s.drop (t + 1)).takeWhile Char.isAlphanum).length) &&
              !optWord (s.get? (t + 1 + ((s.drop (t + 1)).takeWhile Char.isAlphanum).length))
            then some (t + 1 + ((s.drop (t + 1)).takeWhile Char.isAlphanum).length)
          else none := rfl

theorem isPrefixOf_two (a b : Char) (l : List Char) :
    [a, b].isPrefixOf l = true ↔ l[0]? = some a ∧ l[1]? = some b := by
  match l with
  | [] => simp only [List.isPrefixOf]; simp
  | [c] => simp only [List.isPrefixOf]; simp
  | c :: d :: l' =>
    simp only [List.isPrefixOf, Bool.and_eq_true, beq_iff_eq,
      List.getElem?_cons_zero, List.getElem?_cons_succ, Option.some.injEq]
    constructor
    · rintro ⟨h1, h2, -⟩
      exact ⟨h1.symm, h2.symm⟩
    · rintro ⟨h1, h2⟩
      exact ⟨h1.symm, h2.symm, trivial⟩

theorem isPrefixOf_three (a b c : Char) (l : List Char) :
    [a, b, c].isPrefixOf l = true ↔
      l[0]? = some a ∧ l[1]? = some b ∧ l[2]? = some c := by
  match l with
  | [] => simp only [List.isPrefixOf]; simp
  | [d] => simp only [List.isPrefixOf]; simp
  | [d, e] => simp only [List.isPrefixOf]; simp
  | d :: e :: g :: l' =>
    simp only [List.isPrefixOf, Bool.and_eq_true, beq_iff_eq,
      List.getElem?_cons_zero, List.getElem?_cons_succ, Option.some.injEq]
    constructor
    · rintro ⟨h1, h2, h3, -⟩
      exact ⟨h1.symm, h2.symm, h3.symm⟩
    · rintro ⟨h1, h2, h3⟩
      exact ⟨h1.symm, h2.symm, h3.symm, trivial⟩

theorem apiCond1_iff (l : List Char) :
    ("sk".toList.isPrefixOf l && (l.get? 2 == some '_' || l.get? 2 == some '-')) = true ↔
      l[0]? = some 's' ∧ l[1]? = some 'k' ∧ (l[2]? = some '_' ∨ l[2]? = some '-') := by
  rw [Bool.and_eq_true, Bool.or_eq_true,
    show "sk".toList = ['s', 'k'] from rfl, isPrefixOf_two]
  simp only [List.get?_eq_getElem?, beq_iff_eq]
  tauto

theorem apiCond2_iff (l : List Char) :
    ("api".toList.isPrefixOf l && (l.get? 3 == some '_' || l.get? 3 == some '-')) = true ↔
      l[0]? = some 'a' ∧ l[1]? = some 'p' ∧ l[2]? = some 'i' ∧
        (l[3]? = some '_' ∨ l[3]? = some '-') := by
  rw [Bool.and_eq_true, Bool.or_eq_true,
    show "api".toList = ['a', 'p', 'i'] from rfl, isPrefixOf_three]
  simp only [List.get?_eq_getElem?, beq_iff_eq]
  tauto

theorem apiCond3_iff (l : List Char) :
    ("key".toList.isPrefixOf l && (l.get? 3 == some '_' || l.get? 3 == some '-')) = true ↔
      l[0]? = some 'k' ∧ l[1]? = some 'e' ∧ l[2]? = some 'y' ∧
        (l[3]? = some '_' ∨ l[3]? = some '-') := by
  rw [Bool.and_eq_true, Bool.or_eq_true,
    show "key".toList = ['k', 'e', 'y'] from rfl, isPrefixOf_three]
  simp only [List.get?_eq_getElem?, beq_iff_eq]
  tauto

theorem apiTag_sound (l : List Char) (t : Nat) (h : apiTag l = some t) :
    (t = 2 ∧ l[0]? = some 's' ∧ l[1]? = some 'k' ∧ (l[2]? = some '_' ∨ l[2]? = some '-')) ∨
    (t = 3 ∧ l[0]? = some 'a' ∧ l[1]? = some 'p' ∧ l[2]? = some 'i' ∧
      (l[3]? = some '_' ∨ l[3]? = some '-')) ∨
    (t = 3 ∧ l[0]? = some 'k' ∧ l[1]? = some 'e' ∧ l[2]? = some 'y' ∧
      (l[3]? = some '_' ∨ l[3]? = some '-')) := by
  unfold apiTag at h
  split at h
  · rename_i hc
    exact Or.inl ⟨(Option.some.inj h).symm, (apiCond1_iff l).mp hc⟩
  · split at h
    · rename_i hc
      exact Or.inr (Or.inl ⟨(Option.some.inj h).symm, (apiCond2_iff l).mp hc⟩)
    · split at h
      · rename_i hc
        exact Or.inr (Or.inr ⟨(Option.some.inj h).symm, (apiCond3_iff l).mp hc⟩)
      · exact absurd h (by simp)

theorem apiTag_agree (l1 l2 : List Char) (t : Nat) (ht : apiTag l1 = some t)
    (h : ∀ j, j ≤ t → l1[j]? = l2[j]?) : apiTag l2 = some t := by
  have ht' := apiTag_sound l1 t ht
  unfold apiTag at ht ⊢
  rcases ht' with ⟨h2, hp⟩ | ⟨h3, hp⟩ | ⟨h3, hp⟩
  · subst h2
    rw [if_pos ((apiCond1_iff l2).mpr
      ⟨h 0 (by omega) ▸ hp.1, h 1 (by omega) ▸ hp.2.1,
       by rcases hp.2.2 with h' | h' <;> [left; right] <;> rw [← h 2 (by omega)] <;> exact h'⟩)]
  · subst h3
    have hc1 : ¬("sk".toList.isPrefixOf l1 &&
        (l1.get? 2 == some '_' || l1.get? 2 == some '-')) = true := by
      intro hc
      rw [if_pos hc] at ht
      exact absurd (Option.some.inj ht) (by omega)
    have hc1' : ¬("sk".toList.isPrefixOf l2 &&
        (l2.get? 2 == some '_' || l2.get? 2 == some '-')) = true := by
      intro hc
      apply hc1
      rw [apiCond1_iff] at hc ⊢
      refine ⟨h 0 (by omega) ▸ hc.1, h 1 (by omega) ▸ hc.2.1, ?_⟩
      rcases hc.2.2 with h' | h' <;> [left; right] <;> rw [h 2 (by omega)] <;> exact h'
    rw [if_neg hc1']
    rw [if_pos ((apiCond2_iff l2).mpr
      ⟨h 0 (by omega) ▸ hp.1, h 1 (by omega) ▸ hp.2.1, h 2 (by omega) ▸ hp.2.2.1,
       by rcases hp.2.2.2 with h' | h' <;> [left; right] <;> rw [← h 3 (by omega)] <;> exact h'⟩)]
  · subst h3
    have hc1 : ¬("sk".toList.isPrefixOf l1 &&
        (l1.get? 2 == some '_' || l1.get? 2 == some '-')) = true := by
      intro hc
      rw [if_pos hc] at ht
      exact absurd (Option.some.inj ht) (by omega)
    have hc1' : ¬("sk".toList.isPrefixOf l2 &&
        (l2.get? 2 == some '_' || l2.get? 2 == some '-')) = true := by
      intro hc
      apply hc1
      rw [apiCond1_iff] at hc ⊢
      refine ⟨h 0 (by omega) ▸ hc.1, h 1 (by omega) ▸ hc.2.1, ?_⟩
      rcases hc.2.2 with h' | h' <;> [left; right] <;> rw [h 2 (by omega)] <;> exact h'
    have hc2 : ¬("api".toList.isPrefixOf l1 &&
        (l1.get? 3 == some '_' || l1.get? 3 == some '-')) = true := by
      intro hc
      rw [if_neg hc1, if_pos hc] at ht
      have hpy := (apiCond2_iff l1).mp hc
      have := hp.1
      rw [hpy.1] at this
      exact absurd (Option.some.inj this) (by decide)
    have hc2' : ¬("api".toList.isPrefixOf l2 &&
        (l2.get? 3 == some '_' || l2.get? 3 == some '-')) = true := by
      intro hc
      apply hc2
      rw [apiCond2_iff] at hc ⊢
      refine ⟨h 0 (by omega) ▸ hc.1, h 1 (by omega) ▸ hc.2.1, h 2 (by omega) ▸ hc.2.2.1, ?_⟩
      rcases hc.2.2.2 with h' | h' <;> [left; right] <;> rw [h 3 (by omega)] <;> exact h'
    rw [if_neg hc1', if_neg hc2']
    rw [if_pos ((apiCond3_iff l2).mpr
      ⟨h 0 (by omega) ▸ hp.1, h 1 (by omega) ▸ hp.2.1, h 2 (by omega) ▸ hp.2.2.1,
       by rcases hp.2.2.2 with h' | h' <;> [left; right] <;> rw [← h 3 (by omega)] <;> exact h'⟩)]

theorem apiTag_block (u w : List Char) (t : Nat) (hu : u ≠ [])
    (ht : apiTag (lowerChars (u ++ '[' :: w)) = some t) : t + 1 ≤ u.length := by
  have hlow : (lowerChars (u ++ '[' :: w))[u.length]? = some '[' := by
    unfold lowerChars
    rw [List.getElem?_map, List.getElem?_append_right (Nat.le_refl _), Nat.sub_self]
    simp
  by_contra hcon
  have hle : u.length ≤ t := by omega
  have hpos : 1 ≤ u.length := List.length_pos.mpr hu
  rcases apiTag_sound _ _ ht with ⟨h2, hp1, hp2, hp3⟩ | ⟨h3, hp1, hp2, hp3, hp4⟩ |
    ⟨h3, hp1, hp2, hp3, hp4⟩
  · subst h2
    have : u.length = 1 ∨ u.length = 2 := by omega
    rcases this with h' | h' <;> rw [h'] at hlow
    · exact absurd (Option.some.inj (hlow.symm.trans hp2)) (by decide)
    · rcases hp3 with h'' | h'' <;>
        exact absurd (Option.some.inj (hlow.symm.trans h'')) (by decide)
  · subst h3
    have : u.length = 1 ∨ u.length = 2 ∨ u.length = 3 := by omega
    rcases this with h' | h' | h' <;> rw [h'] at hlow
    · exact absurd (Option.some.inj (hlow.symm.trans hp2)) (by decide)
    · exact absurd (Option.some.inj (hlow.symm.trans hp3)) (by decide)
    · rcases hp4 with h'' | h'' <;>
        exact absurd (Option.some.inj (hlow.symm.trans h'')) (by decide)
  · subst h3
    have : u.length = 1 ∨ u.length = 2 ∨ u.length = 3 := by omega
    rcases this with h' | h' | h' <;> rw [h'] at hlow
    · exact absurd (Option.some.inj (hlow.symm.trans hp2)) (by decide)
    · exact absurd (Option.some.inj (hlow.symm.trans hp3)) (by decide)
    · rcases hp4 with h'' | h'' <;>
        exact absurd (Option.some.inj (hlow.symm.trans h'')) (by decide)

theorem apiKeyMatchAt_sound (pr : Option Char) (s : List Char) (e : Nat)
    (h : apiKeyMatchAt pr s = some e) :
    isBoundary pr s.head? = true ∧
    ∃ t, apiTag (lowerChars s) = some t ∧
      e = t + 1 + ((s.drop (t + 1)).takeWhile Char.isAlphanum).length ∧
      8 ≤ ((s.drop (t + 1)).takeWhile Char.isAlphanum).length ∧
      optWord (s.get? e) = false := by
  rw [apiKeyMatchAt_eq] at h
  split at h
  · exact absurd h (by simp)
  · rename_i hb
    split at h
    · exact absurd h (by simp)
    · rename_i t htag
      split at h
      · rename_i hcond
        rw [Bool.and_eq_true, decide_eq_true_eq, Bool.not_eq_true'] at hcond
        have he : e = t + 1 + ((s.drop (t + 1)).takeWhile Char.isAlphanum).length :=
          (Option.some.inj h).symm
        subst he
        exact ⟨by simpa using hb, t, htag, rfl, hcond.1, hcond.2⟩
      · exact absurd h (by simp)

theorem apiKeyMatchAt_comp (pr : Option Char) (s : List Char) (t : Nat)
    (hb : isBoundary pr s.head? = true)
    (htag : apiTag (lowerChars s) = some t)
    (h8 : 8 ≤ ((s.drop (t + 1)).takeWhile Char.isAlphanum).length)
    (hw : optWord (s.get? (t + 1 + ((s.drop (t + 1)).takeWhile Char.isAlphanum).length)) =
      false) :
    apiKeyMatchAt pr s =
      some (t + 1 + ((s.drop (t + 1)).takeWhile Char.isAlphanum).length) := by
  rw [apiKeyMatchAt_eq, hb]
  simp only [Bool.not_true, Bool.false_eq_true, if_false]
  rw [htag]
  dsimp only
  rw [if_pos]
  rw [Bool.and_eq_true, decide_eq_true_eq, Bool.not_eq_true']
  exact ⟨h8, hw⟩

theorem apiKeyMatchAt_trail (pr : Option Char) (t : List Char) (n : Nat)
    (h : apiKeyMatchAt pr t = some n) :
    isBoundary ((t.take n).getLast?) ((t.drop n).head?) = true := by
  obtain ⟨_, tg, _, he, h8, hw⟩ := apiKeyMatchAt_sound pr t n h
  have hdl : (t.drop (tg + 1)).length = t.length - (tg + 1) := List.length_drop _ _
  have hrle : ((t.drop (tg + 1)).takeWhile Char.isAlphanum).length ≤
      (t.drop (tg + 1)).length := takeWhile_length_le _ _
  have hlen : n ≤ t.length := by omega
  have hn1 : n - 1 < t.length := by omega
  have hlast : (t.take n).getLast? = t[n - 1]? := getLast?_take_eq t n (by omega) hlen
  obtain ⟨c, hc⟩ : ∃ c, t[n - 1]? = some c := ⟨t[n - 1], List.getElem?_eq_getElem hn1⟩
  have hcd : (t.drop (tg + 1))[((t.drop (tg + 1)).takeWhile Char.isAlphanum).length - 1]? =
      some c := by
    rw [List.getElem?_drop]
    rw [← hc]
    congr 1
    omega
  have hcAl : Char.isAlphanum c = true :=
    takeWhile_sat_at (t.drop (tg + 1)) _ c (by omega) hcd
  have hhead : (t.drop n).head? = t[n]? := List.head?_drop t n
  rw [hlast, hhead, hc]
  rw [List.get?_eq_getElem?] at hw
  unfold isBoundary
  rw [hw]
  simp [optWord, alnum_isWord c hcAl]

theorem apiKeyMatchAt_prevdep (pr1 pr2 : Option Char) (s : List Char)
    (h : optWord pr1 = optWord pr2) : apiKeyMatchAt pr1 s = apiKeyMatchAt pr2 s := by
  simp only [apiKeyMatchAt, isBoundary, h]

theorem apiKeyMatchAt_nobound (pr : Option Char) (s : List Char)
    (hb : isBoundary pr s.head? = false) : apiKeyMatchAt pr s = none := by
  simp [apiKeyMatchAt, hb]

theorem api_transfer (pr : Option Char) (u : List Char) (f : Char) (w rest : List Char)
    (e : Nat) (hu : u ≠ [])
    (hb1 : ∀ c, u.getLast? = some c → optWord (some c) = true → optWord (some f) = false)
    (h : apiKeyMatchAt pr (u ++ '[' :: w) = some e) :
    (apiKeyMatchAt pr (u ++ f :: rest)).isSome = true := by
  obtain ⟨hbnd, t, htag, he, h8, hw⟩ := apiKeyMatchAt_sound pr (u ++ '[' :: w) e h
  rw [List.head?_append_of_ne_nil u hu] at hbnd
  have htle : t + 1 ≤ u.length := apiTag_block u w t hu htag
  have htag2 : apiTag (lowerChars (u ++ f :: rest)) = some t := by
    apply apiTag_agree _ _ t htag
    intro j hj
    have hjlt : j < u.length := by omega
    unfold lowerChars
    rw [List.map_append, List.map_append, List.getElem?_append_left, List.getElem?_append_left]
    · rw [List.length_map]; exact hjlt
    · rw [List.length_map]; exact hjlt
  have hdrop1 : (u ++ '[' :: w).drop (t + 1) = u.drop (t + 1) ++ '[' :: w :=
    List.drop_append_of_le_length htle
  have hdrop2 : (u ++ f :: rest).drop (t + 1) = u.drop (t + 1) ++ f :: rest :=
    List.drop_append_of_le_length htle
  rw [hdrop1] at he h8
  have hstop : ((u.drop (t + 1)) ++ '[' :: w).takeWhile Char.isAlphanum =
      (u.drop (t + 1)).takeWhile Char.isAlphanum :=
    takeWhile_append_stop _ '[' w (by decide)
  rw [hstop] at he h8
  subst he
  have hul : (u.drop (t + 1)).length = u.length - (t + 1) := List.length_drop _ _
  have hwle : ((u.drop (t + 1)).takeWhile Char.isAlphanum).length ≤
      (u.drop (t + 1)).length := takeWhile_length_le _ _
  rw [List.get?_eq_getElem?] at hw
  rcases Nat.lt_or_ge ((u.drop (t + 1)).takeWhile Char.isAlphanum).length
      (u.drop (t + 1)).length with hlt | hge
  · -- run stops inside u
    have hrunIn : ((u.drop (t + 1)) ++ f :: rest).takeWhile Char.isAlphanum =
        (u.drop (t + 1)).takeWhile Char.isAlphanum :=
      takeWhile_append_of_lt _ _ hlt
    have hcomp := apiKeyMatchAt_comp pr (u ++ f :: rest) t
      (by rw [List.head?_append_of_ne_nil u hu]; exact hbnd) htag2 ?_ ?_
    · rw [hcomp]; rfl
    · rw [hdrop2, hrunIn]; exact h8
    · rw [hdrop2, hrunIn, List.get?_eq_getElem?, List.getElem?_append_left (by omega)]
      rw [List.getElem?_append_left (by omega)] at hw
      exact hw
  · -- run covers the rest of u
    have heq : ((u.drop (t + 1)).takeWhile Char.isAlphanum).length =
        (u.drop (t + 1)).length := by omega
    have hcov : ∀ c ∈ u.drop (t + 1), Char.isAlphanum c = true := takeWhile_covers _ heq
    have hne : u.drop (t + 1) ≠ [] := by
      intro hcon
      have hz : (u.drop (t + 1)).length = 0 := by rw [hcon]; rfl
      omega
    obtain ⟨c, hc⟩ : ∃ c, (u.drop (t + 1)).getLast? = some c :=
      Option.isSome_iff_exists.mp (List.getLast?_isSome.mpr hne)
    have hcu : u.getLast? = some c := by
      conv_lhs => rw [← List.take_append_drop (t + 1) u]
      rw [List.getLast?_append, hc]
      rfl
    have hcw : optWord (some c) = true := by
      simp only [optWord]
      exact alnum_isWord c (hcov c (List.mem_of_mem_getLast? (by rw [hc]; rfl)))
    have hfw : optWord (some f) = false := hb1 c hcu hcw
    have hfal : Char.isAlphanum f = false := by
      cases hfx : Char.isAlphanum f
      · rfl
      · rw [optWord] at hfw
        rw [alnum_isWord f hfx] at hfw
        exact absurd hfw (by simp)
    have hrunIn : ((u.drop (t + 1)) ++ f :: rest).takeWhile Char.isAlphanum =
        (u.drop (t + 1)).takeWhile Char.isAlphanum :=
      takeWhile_append_stop _ f rest hfal
    have hcomp := apiKeyMatchAt_comp pr (u ++ f :: rest) t
      (by rw [List.head?_append_of_ne_nil u hu]; exact hbnd) htag2 ?_ ?_
    · rw [hcomp]; rfl
    · rw [hdrop2, hrunIn]; exact h8
    · rw [hdrop2, hrunIn, List.get?_eq_getElem?]
      rw [List.getElem?_append_right (by omega)]
      have hidx : t + 1 + ((u.drop (t + 1)).takeWhile Char.isAlphanum).length - u.length = 0 :=
        by omega
      rw [hidx]
      simpa using hfw

/-! Facts about the base64-like pattern. -/

theorem base64MatchAt_eq (prev : Option Char) (s : List Char) :
    base64MatchAt prev s =
      if !isBoundary prev s.head? then none
      else if decide ((s.takeWhile isB64Char).length < 40) then none
      else
        ((List.range' 40 ((s.takeWhile isB64Char).length - 39)).reverse.findSome? (fun m =>
          (List.range ((if m = (s.takeWhile isB64Char).length then
              min 2 ((s.drop m).takeWhile (fun c => c = '=')).length else 0) + 1)).reverse.findSome?
            (fun eq =>
              if isBoundary (s.get? (m + eq - 1)) (s.get? (m + eq)) then some (m + eq)
              else none))) := rfl

theorem base64MatchAt_sound (pr : Option Char) (s : List Char) (e : Nat)
    (h : base64MatchAt pr s = some e) :
    isBoundary pr s.head? = true ∧ 40 ≤ (s.takeWhile isB64Char).length ∧
    ∃ m eq, 40 ≤ m ∧ m ≤ (s.takeWhile isB64Char).length ∧
      eq ≤ (if m = (s.takeWhile isB64Char).length then
        min 2 ((s.drop m).takeWhile (fun c => c = '=')).length else 0) ∧
      e = m + eq ∧ isBoundary (s.get? (m + eq - 1)) (s.get? (m + eq)) = true := by
  rw [base64MatchAt_eq] at h
  split at h
  · exact absurd h (by simp)
  · rename_i hb
    split at h
    · exact absurd h (by simp)
    · rename_i hlt
      rw [decide_eq_true_eq, Nat.not_lt] at hlt
      obtain ⟨m, hmem, hm⟩ := List.exists_of_findSome?_eq_some h
      rw [List.mem_reverse, List.mem_range'] at hmem
      obtain ⟨i, hi, hmi⟩ := hmem
      obtain ⟨eq, heqmem, heq⟩ := List.exists_of_findSome?_eq_some hm
      rw [List.mem_reverse, List.mem_range] at heqmem
      split at heq
      · rename_i hbd
        refine ⟨by simpa using hb, hlt, m, eq, by omega, by omega, by omega,
          (Option.some.inj heq).symm, hbd⟩
      · exact absurd heq (by simp)

theorem base64MatchAt_comp (pr : Option Char) (s : List Char) (m eq : Nat)
    (hb : isBoundary pr s.head? = true) (h40 : 40 ≤ m)
    (hm : m ≤ (s.takeWhile isB64Char).length)
    (heq : eq ≤ (if m = (s.takeWhile isB64Char).length then
      min 2 ((s.drop m).takeWhile (fun c => c = '=')).length else 0))
    (hbd : isBoundary (s.get? (m + eq - 1)) (s.get? (m + eq)) = true) :
    (base64MatchAt pr s).isSome = true := by
  rw [base64MatchAt_eq, hb]
  simp only [Bool.not_true, Bool.false_eq_true, if_false]
  rw [if_neg (by rw [decide_eq_true_eq]; omega)]
  rw [Option.isSome_iff_ne_none]
  intro hnone
  rw [List.findSome?_eq_none_iff] at hnone
  have hmmem : m ∈ (List.range' 40 ((s.takeWhile isB64Char).length - 39)).reverse := by
    rw [List.mem_reverse, List.mem_range']
    exact ⟨m - 40, by omega, by omega⟩
  have hinner := hnone m hmmem
  rw [List.findSome?_eq_none_iff] at hinner
  have heqmem : eq ∈ (List.range ((if m = (s.takeWhile isB64Char).length then
      min 2 ((s.drop m).takeWhile (fun c => c = '=')).length else 0) + 1)).reverse := by
    rw [List.mem_reverse, List.mem_range]
    omega
  have := hinner eq heqmem
  rw [if_pos hbd] at this
  exact absurd this (by simp)

theorem base64MatchAt_end_le (s : List Char) (m eq : Nat)
    (hm : m ≤ (s.takeWhile isB64Char).length)
    (heq : eq ≤ (if m = (s.takeWhile isB64Char).length then
      min 2 ((s.drop m).takeWhile (fun c => c = '=')).length else 0)) :
    m + eq ≤ s.length := by
  have h1 : (s.takeWhile isB64Char).length ≤ s.length := takeWhile_length_le isB64Char s
  by_cases hcase : m = (s.takeWhile isB64Char).length
  · rw [if_pos hcase] at heq
    have h2 : ((s.drop m).takeWhile (fun c => c = '=')).length ≤ (s.drop m).length :=
      takeWhile_length_le _ _
    have h3 : (s.drop m).length = s.length - m := List.length_drop _ _
    omega
  · rw [if_neg hcase] at heq
    omega

theorem base64MatchAt_trail (pr : Option Char) (t : List Char) (n : Nat)
    (h : base64MatchAt pr t = some n) :
    isBoundary ((t.take n).getLast?) ((t.drop n).head?) = true := by
  obtain ⟨_, _, m, eq, h40, hm, heq, he, hbd⟩ := base64MatchAt_sound pr t n h
  have hle : m + eq ≤ t.length := base64MatchAt_end_le t m eq hm heq
  have hlast : (t.take n).getLast? = t[n - 1]? := getLast?_take_eq t n (by omega) (by omega)
  have hhead : (t.drop n).head? = t[n]? := List.head?_drop t n
  rw [hlast, hhead]
  rw [List.get?_eq_getElem?, List.get?_eq_getElem?] at hbd
  rw [he]
  exact hbd

theorem base64MatchAt_prevdep (pr1 pr2 : Option Char) (s : List Char)
    (h : optWord pr1 = optWord pr2) : base64MatchAt pr1 s = base64MatchAt pr2 s := by
  rw [base64MatchAt_eq, base64MatchAt_eq]
  have hbb : isBoundary pr1 s.head? = isBoundary pr2 s.head? := by
    unfold isBoundary
    rw [h]
  rw [hbb]

theorem base64MatchAt_nobound (pr : Option Char) (s : List Char)
    (hb : isBoundary pr s.head? = false) : base64MatchAt pr s = none := by
  rw [base64MatchAt_eq, hb]
  rfl

theorem boundary_transfer (u : List Char) (f : Char) (w rest : List Char) (e : Nat)
    (h1 : 1 ≤ e) (hle : e ≤ u.length)
    (hb1 : ∀ c, u.getLast? = some c → optWord (some c) = true → optWord (some f) = false)
    (hbd : isBoundary ((u ++ '[' :: w).get? (e - 1)) ((u ++ '[' :: w).get? e) = true) :
    isBoundary ((u ++ f :: rest).get? (e - 1)) ((u ++ f :: rest).get? e) = true := by
  rw [List.get?_eq_getElem?, List.get?_eq_getElem?] at hbd ⊢
  have hm1 : e - 1 < u.length := by omega
  rw [List.getElem?_append_left hm1] at hbd ⊢
  rcases Nat.lt_or_ge e u.length with hlt | hge
  · rw [List.getElem?_append_left hlt] at hbd ⊢
    exact hbd
  · have heq : e = u.length := by omega
    rw [heq] at hbd ⊢
    rw [List.getElem?_append_right (Nat.le_refl _), Nat.sub_self] at hbd ⊢
    simp only [List.getElem?_cons_zero] at hbd ⊢
    obtain ⟨c, hc⟩ : ∃ c, u[u.length - 1]? = some c :=
      ⟨_, List.getElem?_eq_getElem (by omega)⟩
    rw [hc] at hbd ⊢
    unfold isBoundary at hbd ⊢
    have hcw : optWord (some c) = true := by
      cases hcw : optWord (some c)
      · rw [hcw] at hbd
        exact absurd hbd (by decide)
      · rfl
    have hlastc : u.getLast? = some c := by
      rw [List.getLast?_eq_getElem?]
      exact hc
    have hfw := hb1 c hlastc hcw
    rw [hcw, hfw]
    rfl

theorem b64_transfer (pr : Option Char) (u : List Char) (f : Char) (w rest : List Char)
    (e : Nat) (hu : u ≠ [])
    (hb1 : ∀ c, u.getLast? = some c → optWord (some c) = true → optWord (some f) = false)
    (h : base64MatchAt pr (u ++ '[' :: w) = some e) :
    (base64MatchAt pr (u ++ f :: rest)).isSome = true := by
  obtain ⟨hbnd, h40r, m, eq, h40, hm, heq, he, hbd⟩ :=
    base64MatchAt_sound pr (u ++ '[' :: w) e h
  rw [List.head?_append_of_ne_nil u hu] at hbnd
  have hstop : (u ++ '[' :: w).takeWhile isB64Char = u.takeWhile isB64Char :=
    takeWhile_append_stop u '[' w (by decide)
  rw [hstop] at h40r hm
  have hrle : (u.takeWhile isB64Char).length ≤ u.length := takeWhile_length_le isB64Char u
  have hbnd2 : isBoundary pr (u ++ f :: rest).head? = true := by
    rw [List.head?_append_of_ne_nil u hu]
    exact hbnd
  have hmono : (u.takeWhile isB64Char).length ≤
      ((u ++ f :: rest).takeWhile isB64Char).length := takeWhile_length_mono_append u _
  rcases Nat.eq_zero_or_pos eq with heq0 | heqpos
  · -- no `=` padding was used
    subst heq0
    apply base64MatchAt_comp pr (u ++ f :: rest) m 0 hbnd2 h40 (by omega) (Nat.zero_le _)
    have hbd0 : isBoundary ((u ++ '[' :: w).get? (m - 1)) ((u ++ '[' :: w).get? m) = true := by
      simpa using hbd
    have hbd' := boundary_transfer u f w rest m (by omega) (by omega) hb1 hbd0
    simpa using hbd'
  · -- padding used: the class run must stop strictly inside `u`
    have hif : eq ≤ (if m = (u.takeWhile isB64Char).length then
        min 2 (((u ++ '[' :: w).drop m).takeWhile (fun c => c = '=')).length else 0) := by
      rw [← hstop] at hm ⊢
      exact heq
    by_cases hmr : m = (u.takeWhile isB64Char).length
    · rw [if_pos hmr] at hif
      have hmlt : m < u.length := by
        by_contra hcon
        have hmu : m = u.length := by omega
        have : ((u ++ '[' :: w).drop m).takeWhile (fun c => c = '=') = [] := by
          rw [hmu, List.drop_append_of_le_length (Nat.le_refl _), List.drop_length]
          simp [List.takeWhile_cons]
        rw [this] at hif
        simp at hif
        omega
      have hdropm : (u ++ '[' :: w).drop m = u.drop m ++ '[' :: w :=
        List.drop_append_of_le_length (by omega)
      have heqstop : ((u ++ '[' :: w).drop m).takeWhile (fun c => c = '=') =
          (u.drop m).takeWhile (fun c => c = '=') := by
        rw [hdropm]
        exact takeWhile_append_stop _ '[' w (by decide)
      rw [heqstop] at hif
      have heqlen : ((u.drop m).takeWhile (fun c => c = '=')).length ≤ u.length - m := by
        have := takeWhile_length_le (fun c => c = '=') (u.drop m)
        rw [List.length_drop] at this
        exact this
      have hele : e ≤ u.length := by omega
      -- the class run is the same in both views
      have hrunIn : (u ++ f :: rest).takeWhile isB64Char = u.takeWhile isB64Char :=
        takeWhile_append_of_lt u _ (by omega)
      have hdropm2 : (u ++ f :: rest).drop m = u.drop m ++ f :: rest :=
        List.drop_append_of_le_length (by omega)
      have heqmono : ((u.drop m).takeWhile (fun c => c = '=')).length ≤
          (((u ++ f :: rest).drop m).takeWhile (fun c => c = '=')).length := by
        rw [hdropm2]
        exact takeWhile_length_mono_append _ _
      apply base64MatchAt_comp pr (u ++ f :: rest) m eq hbnd2 h40 (by omega)
      · rw [if_pos (by rw [hrunIn]; exact hmr)]
        omega
      · have hbd' := boundary_transfer u f w rest e (by omega) hele hb1 (by
          rw [he]
          exact hbd)
        rw [he] at hbd'
        exact hbd'
    · rw [if_neg hmr] at hif
      omega

/-! Facts about the JWT pattern. -/

theorem jwtMatchAt_eq (prev : Option Char) (s : List Char) :
    jwtMatchAt prev s =
      if !isBoundary prev s.head? then none
      else if (s.takeWhile isJwtChar).isEmpty then none
      else if s.get? (jwtA s) ≠ some '.' then none
      else if ((s.drop (jwtA s + 1)).takeWhile isJwtChar).isEmpty then none
      else if (s.drop (jwtA s + 1)).get? (jwtB s) ≠ some '.' then none
      else if ((s.drop (jwtBase s)).takeWhile isJwtChar).isEmpty then none
      else
        ((List.range' 1 (jwtC s)).reverse.findSome? (fun k =>
          if isBoundary (s.get? (jwtBase s + k - 1)) (s.get? (jwtBase s + k)) then
            some (jwtBase s + k)
          else none)) := rfl

theorem jwtMatchAt_sound (pr : Option Char) (s : List Char) (e : Nat)
    (h : jwtMatchAt pr s = some e) :
    isBoundary pr s.head? = true ∧ 1 ≤ jwtA s ∧ s.get? (jwtA s) = some '.' ∧
      1 ≤ jwtB s ∧ (s.drop (jwtA s + 1)).get? (jwtB s) = some '.' ∧
      ∃ k, 1 ≤ k ∧ k ≤ jwtC s ∧ e = jwtBase s + k ∧
        isBoundary (s.get? (jwtBase s + k - 1)) (s.get? (jwtBase s + k)) = true := by
  rw [jwtMatchAt_eq] at h
  split at h
  · exact absurd h (by simp)
  · rename_i hb
    split at h
    · exact absurd h (by simp)
    · rename_i h1
      split at h
      · exact absurd h (by simp)
      · rename_i h2
        split at h
        · exact absurd h (by simp)
        · rename_i h3
          split at h
          · exact absurd h (by simp)
          · rename_i h4
            split at h
            · exact absurd h (by simp)
            · rename_i h5
              obtain ⟨k, hkmem, hk⟩ := List.exists_of_findSome?_eq_some h
              rw [List.mem_reverse, List.mem_range'] at hkmem
              obtain ⟨i, hi, hki⟩ := hkmem
              split at hk
              · rename_i hbd
                refine ⟨by simpa using hb, ?_, ?_, ?_, ?_, k, by omega, by omega,
                  (Option.some.inj hk).symm, hbd⟩
                · have := (not_iff_not.mpr List.isEmpty_iff_length_eq_zero).mp h1
                  unfold jwtA
                  omega
                · simpa using h2
                · have := (not_iff_not.mpr List.isEmpty_iff_length_eq_zero).mp h3
                  unfold jwtB
                  omega
                · simpa using h4
              · exact absurd hk (by simp)

theorem jwtMatchAt_comp (pr : Option Char) (s : List Char) (k : Nat)
    (hb : isBoundary pr s.head? = true)
    (ha : 1 ≤ jwtA s) (hdot1 : s.get? (jwtA s) = some '.')
    (hbb : 1 ≤ jwtB s) (hdot2 : (s.drop (jwtA s + 1)).get? (jwtB s) = some '.')
    (hk1 : 1 ≤ k) (hk2 : k ≤ jwtC s)
    (hbd : isBoundary (s.get? (jwtBase s + k - 1)) (s.get? (jwtBase s + k)) = true) :
    (jwtMatchAt pr s).isSome = true := by
  rw [jwtMatchAt_eq, hb]
  simp only [Bool.not_true, Bool.false_eq_true, if_false]
  rw [if_neg (by rw [List.isEmpty_iff_length_eq_zero]; unfold jwtA at ha; omega)]
  rw [if_neg (by simpa using hdot1)]
  rw [if_neg (by rw [List.isEmpty_iff_length_eq_zero]; unfold jwtB at hbb; omega)]
  rw [if_neg (by simpa using hdot2)]
  rw [if_neg (by rw [List.isEmpty_iff_length_eq_zero]; unfold jwtC at hk2; omega)]
  rw [Option.isSome_iff_ne_none]
  intro hnone
  rw [List.findSome?_eq_none_iff] at hnone
  have hkmem : k ∈ (List.range' 1 (jwtC s)).reverse := by
    rw [List.mem_reverse, List.mem_range']
    exact ⟨k - 1, by omega, by omega⟩
  have := hnone k hkmem
  rw [if_pos hbd] at this
  exact absurd this (by simp)

theorem jwt_end_le (s : List Char) (k : Nat) (hk1 : 1 ≤ k) (hk : k ≤ jwtC s) :
    jwtBase s + k ≤ s.length := by
  unfold jwtC at hk
  have h1 : ((s.drop (jwtBase s)).takeWhile isJwtChar).length ≤ (s.drop (jwtBase s)).length :=
    takeWhile_length_le _ _
  have h2 : (s.drop (jwtBase s)).length = s.length - jwtBase s := List.length_drop _ _
  rcases Nat.lt_or_ge s.length (jwtBase s) with h3 | h3
  · have : (s.drop (jwtBase s)).length = 0 := by omega
    omega
  · omega

theorem jwtMatchAt_trail (pr : Option Char) (t : List Char) (n : Nat)
    (h : jwtMatchAt pr t = some n) :
    isBoundary ((t.take n).getLast?) ((t.drop n).head?) = true := by
  obtain ⟨_, _, _, _, _, k, hk1, hk2, he, hbd⟩ := jwtMatchAt_sound pr t n h
  have hle : jwtBase t + k ≤ t.length := jwt_end_le t k hk1 hk2
  have hlast : (t.take n).getLast? = t[n - 1]? :=
    getLast?_take_eq t n (by omega) (by omega)
  have hhead : (t.drop n).head? = t[n]? := List.head?_drop t n
  rw [hlast, hhead]
  rw [List.get?_eq_getElem?, List.get?_eq_getElem?] at hbd
  rw [he]
  exact hbd

theorem jwtMatchAt_prevdep (pr1 pr2 : Option Char) (s : List Char)
    (h : optWord pr1 = optWord pr2) : jwtMatchAt pr1 s = jwtMatchAt pr2 s := by
  rw [jwtMatchAt_eq, jwtMatchAt_eq]
  have hbb : isBoundary pr1 s.head? = isBoundary pr2 s.head? := by
    unfold isBoundary
    rw [h]
  rw [hbb]

theorem jwtMatchAt_nobound (pr : Option Char) (s : List Char)
    (hb : isBoundary pr s.head? = false) : jwtMatchAt pr s = none := by
  rw [jwtMatchAt_eq, hb]
  rfl

theorem jwt_transfer (pr : Option Char) (u : List Char) (f : Char) (w rest : List Char)
    (e : Nat) (hu : u ≠ [])
    (hb1 : ∀ c, u.getLast? = some c → optWord (some c) = true → optWord (some f) = false)
    (h : jwtMatchAt pr (u ++ '[' :: w) = some e) :
    (jwtMatchAt pr (u ++ f :: rest)).isSome = true := by
  obtain ⟨hbnd, ha, hdot1, hbb, hdot2, k, hk1, hk2, he, hbd⟩ :=
    jwtMatchAt_sound pr (u ++ '[' :: w) e h
  rw [List.head?_append_of_ne_nil u hu] at hbnd
  have hstop1 : (u ++ '[' :: w).takeWhile isJwtChar = u.takeWhile isJwtChar :=
    takeWhile_append_stop u '[' w (by decide)
  have hAout : jwtA (u ++ '[' :: w) = (u.takeWhile isJwtChar).length := by
    unfold jwtA
    rw [hstop1]
  have hale : (u.takeWhile isJwtChar).length ≤ u.length := takeWhile_length_le isJwtChar u
  -- the first dot lies strictly inside u
  have halt : (u.takeWhile isJwtChar).length < u.length := by
    rcases Nat.lt_or_ge (u.takeWhile isJwtChar).length u.length with h' | h'
    · exact h'
    · have heqa : (u.takeWhile isJwtChar).length = u.length := by omega
      rw [hAout, List.get?_eq_getElem?, heqa,
        List.getElem?_append_right (Nat.le_refl _), Nat.sub_self] at hdot1
      simp only [List.getElem?_cons_zero, Option.some.injEq] at hdot1
      exact absurd hdot1 (by decide)
  have hAin : jwtA (u ++ f :: rest) = (u.takeWhile isJwtChar).length := by
    unfold jwtA
    rw [takeWhile_append_of_lt u _ halt]
  have hdot1u : u[(u.takeWhile isJwtChar).length]? = some '.' := by
    rw [hAout, List.get?_eq_getElem?, List.getElem?_append_left halt] at hdot1
    exact hdot1
  -- second segment
  have hdrop1 : (u ++ '[' :: w).drop ((u.takeWhile isJwtChar).length + 1) =
      u.drop ((u.takeWhile isJwtChar).length + 1) ++ '[' :: w :=
    List.drop_append_of_le_length (by omega)
  have hstop2 : (u.drop ((u.takeWhile isJwtChar).length + 1) ++ '[' :: w).takeWhile isJwtChar
      = (u.drop ((u.takeWhile isJwtChar).length + 1)).takeWhile isJwtChar :=
    takeWhile_append_stop _ '[' w (by decide)
  have hBout : jwtB (u ++ '[' :: w) =
      ((u.drop ((u.takeWhile isJwtChar).length + 1)).takeWhile isJwtChar).length := by
    unfold jwtB
    rw [hAout, hdrop1, hstop2]
  have hble : ((u.drop ((u.takeWhile isJwtChar).length + 1)).takeWhile isJwtChar).length ≤
      u.length - ((u.takeWhile isJwtChar).length + 1) := by
    have := takeWhile_length_le isJwtChar (u.drop ((u.takeWhile isJwtChar).length + 1))
    rw [List.length_drop] at this
    exact this
  -- the second dot lies strictly inside u as well
  have hblt : (u.takeWhile isJwtChar).length + 1 +
      ((u.drop ((u.takeWhile isJwtChar).length + 1)).takeWhile isJwtChar).length <
      u.length := by
    rcases Nat.lt_or_ge ((u.takeWhile isJwtChar).length + 1 +
      ((u.drop ((u.takeWhile isJwtChar).length + 1)).takeWhile isJwtChar).length)
      u.length with h' | h'
    · exact h'
    · have heqb : ((u.drop ((u.takeWhile isJwtChar).length + 1)).takeWhile isJwtChar).length
          = u.length - ((u.takeWhile isJwtChar).length + 1) := by omega
      rw [hBout, hAout, hdrop1, List.get?_eq_getElem?, heqb,
        List.getElem?_append_right (by rw [List.length_drop]),
        List.length_drop] at hdot2
      rw [Nat.sub_self] at hdot2
      simp only [List.getElem?_cons_zero, Option.some.injEq] at hdot2
      exact absurd hdot2 (by decide)
  have hdrop1' : (u ++ f :: rest).drop ((u.takeWhile isJwtChar).length + 1) =
      u.drop ((u.takeWhile isJwtChar).length + 1) ++ f :: rest :=
    List.drop_append_of_le_length (by omega)
  have hBin : jwtB (u ++ f :: rest) =
      ((u.drop ((u.takeWhile isJwtChar).length + 1)).takeWhile isJwtChar).length := by
    unfold jwtB
    rw [hAin, hdrop1', takeWhile_append_of_lt _ _ (by rw [List.length_drop]; omega)]
  have hdot2u : (u.drop ((u.takeWhile isJwtChar).length + 1))[((u.drop
      ((u.takeWhile isJwtChar).length + 1)).takeWhile isJwtChar).length]? = some '.' := by
    rw [hBout, hAout, hdrop1, List.get?_eq_getElem?,
      List.getElem?_append_left (by rw [List.length_drop]; omega)] at hdot2
    exact hdot2
  -- base
  have hBaseOut : jwtBase (u ++ '[' :: w) = (u.takeWhile isJwtChar).length + 1 +
      ((u.drop ((u.takeWhile isJwtChar).length + 1)).takeWhile isJwtChar).length + 1 := by
    unfold jwtBase
    rw [hAout, hBout]
  have hBaseIn : jwtBase (u ++ f :: rest) = (u.takeWhile isJwtChar).length + 1 +
      ((u.drop ((u.takeWhile isJwtChar).length + 1)).takeWhile isJwtChar).length + 1 := by
    unfold jwtBase
    rw [hAin, hBin]
  have hbasele : (u.takeWhile isJwtChar).length + 1 +
      ((u.drop ((u.takeWhile isJwtChar).length + 1)).takeWhile isJwtChar).length + 1 ≤
      u.length := by omega
  -- third segment
  have hdrop2 : (u ++ '[' :: w).drop ((u.takeWhile isJwtChar).length + 1 +
      ((u.drop ((u.takeWhile isJwtChar).length + 1)).takeWhile isJwtChar).length + 1) =
      u.drop ((u.takeWhile isJwtChar).length + 1 +
        ((u.drop ((u.takeWhile isJwtChar).length + 1)).takeWhile isJwtChar).length + 1) ++
        '[' :: w :=
    List.drop_append_of_le_length hbasele
  have hdrop2' : (u ++ f :: rest).drop ((u.takeWhile isJwtChar).length + 1 +
      ((u.drop ((u.takeWhile isJwtChar).length + 1)).takeWhile isJwtChar).length + 1) =
      u.drop ((u.takeWhile isJwtChar).length + 1 +
        ((u.drop ((u.takeWhile isJwtChar).length + 1)).takeWhile isJwtChar).length + 1) ++
        f :: rest :=
    List.drop_append_of_le_length hbasele
  have hCout : jwtC (u ++ '[' :: w) =
      ((u.drop ((u.takeWhile isJwtChar).length + 1 +
        ((u.drop ((u.takeWhile isJwtChar).length + 1)).takeWhile isJwtChar).length +
        1)).takeWhile isJwtChar).length := by
    unfold jwtC
    rw [hBaseOut, hdrop2, takeWhile_append_stop _ '[' w (by decide)]
  have hCin : ((u.drop ((u.takeWhile isJwtChar).length + 1 +
      ((u.drop ((u.takeWhile isJwtChar).length + 1)).takeWhile isJwtChar).length +
      1)).takeWhile isJwtChar).length ≤ jwtC (u ++ f :: rest) := by
    unfold jwtC
    rw [hBaseIn, hdrop2']
    exact takeWhile_length_mono_append _ _
  have hcle : ((u.drop ((u.takeWhile isJwtChar).length + 1 +
      ((u.drop ((u.takeWhile isJwtChar).length + 1)).takeWhile isJwtChar).length +
      1)).takeWhile isJwtChar).length ≤
      u.length - ((u.takeWhile isJwtChar).length + 1 +
        ((u.drop ((u.takeWhile isJwtChar).length + 1)).takeWhile isJwtChar).length + 1) := by
    have := takeWhile_length_le isJwtChar (u.drop ((u.takeWhile isJwtChar).length + 1 +
      ((u.drop ((u.takeWhile isJwtChar).length + 1)).takeWhile isJwtChar).length + 1))
    rw [List.length_drop] at this
    exact this
  rw [hCout] at hk2
  rw [hBaseOut] at he hbd
  have hele : e ≤ u.length := by omega
  apply jwtMatchAt_comp pr (u ++ f :: rest) k
    (by rw [List.head?_append_of_ne_nil u hu]; exact hbnd)
  · rw [hAin]
    rw [hAout] at ha
    exact ha
  · rw [hAin, List.get?_eq_getElem?, List.getElem?_append_left halt]
    exact hdot1u
  · rw [hBin]
    rw [hBout] at hbb
    exact hbb
  · rw [hBin, hAin, hdrop1', List.get?_eq_getElem?,
      List.getElem?_append_left (by rw [List.length_drop]; omega)]
    exact hdot2u
  · exact hk1
  · omega
  · rw [hBaseIn]
    have hbd' := boundary_transfer u f w rest e (by omega) hele hb1 (by
      rw [he]
      exact hbd)
    rw [he] at hbd'
    exact hbd'

/-! Facts about the e-mail pattern. -/

theorem takeWhile_prefix_append {p : Char → Bool} (u v : List Char) :
    u.takeWhile p <+: (u ++ v).takeWhile p := by
  rw [List.takeWhile_append]
  split
  · rename_i h
    have hu : u.takeWhile p = u :=
      List.IsPrefix.eq_of_length ( List.takeWhile_prefix p) h
    rw [hu]
    exact List.prefix_append u _
  · exact List.prefix_rfl

theorem prefix_getElem? (l1 l2 : List Char) (i : Nat) (h : l1 <+: l2)
    (hi : i < l1.length) : l1[i]? = l2[i]? := by
  rw [List.prefix_iff_eq_take] at h
  conv_lhs => rw [h]
  rw [List.getElem?_take_of_lt hi]

theorem takeWhile_length_mono_prefix {p : Char → Bool} (u v : List Char) (h : u <+: v) :
    (u.takeWhile p).length ≤ (v.takeWhile p).length := by
  obtain ⟨t, ht⟩ := h
  rw [← ht]
  exact takeWhile_length_mono_append u t

theorem emailMatchAt_eq (prev : Option Char) (s : List Char) :
    emailMatchAt prev s =
      if (s.takeWhile isLocalChar).isEmpty then none
      else if s.get? (emailLoc s) ≠ some '@' then none
      else
        match (emailCands s).max? with
        | none => none
        | some m =>
          some (emailLoc s + 1 + m + 1 +
            (((emailDom s).drop (m + 1)).takeWhile Char.isAlpha).length) := rfl

theorem emailCands_mem (s : List Char) (m : Nat) :
    m ∈ emailCands s ↔ m < (emailDom s).length ∧ 1 ≤ m ∧ (emailDom s)[m]? = some '.' ∧
      2 ≤ (((emailDom s).drop (m + 1)).takeWhile Char.isAlpha).length := by
  unfold emailCands
  rw [List.mem_filter, List.mem_range]
  simp only [Bool.and_eq_true, decide_eq_true_eq, beq_iff_eq, List.get?_eq_getElem?]
  tauto

theorem emailMatchAt_sound (pr : Option Char) (s : List Char) (e : Nat)
    (h : emailMatchAt pr s = some e) :
    1 ≤ emailLoc s ∧ s.get? (emailLoc s) = some '@' ∧
    ∃ m, (emailCands s).max? = some m ∧
      e = emailLoc s + 1 + m + 1 +
        (((emailDom s).drop (m + 1)).takeWhile Char.isAlpha).length := by
  rw [emailMatchAt_eq] at h
  split at h
  · exact absurd h (by simp)
  · rename_i h1
    split at h
    · exact absurd h (by simp)
    · rename_i h2
      split at h
      · exact absurd h (by simp)
      · rename_i m hmax
        refine ⟨?_, ?_, m, hmax, (Option.some.inj h).symm⟩
        · have := (not_iff_not.mpr List.isEmpty_iff_length_eq_zero).mp h1
          unfold emailLoc
          omega
        · simpa using h2

theorem emailMatchAt_comp (pr : Option Char) (s : List Char)
    (hloc : 1 ≤ emailLoc s) (hat : s.get? (emailLoc s) = some '@')
    (hne : emailCands s ≠ []) : (emailMatchAt pr s).isSome = true := by
  rw [emailMatchAt_eq]
  rw [if_neg (by rw [List.isEmpty_iff_length_eq_zero]; unfold emailLoc at hloc; omega)]
  rw [if_neg (by simpa using hat)]
  cases hmax : (emailCands s).max? with
  | none => exact absurd (List.max?_eq_none_iff.mp hmax) hne
  | some m => rfl

theorem emailMatchAt_prevdep (pr1 pr2 : Option Char) (s : List Char) :
    emailMatchAt pr1 s = emailMatchAt pr2 s := rfl

theorem emailMatchAt_bounds (pr : Option Char) (s : List Char) (e : Nat)
    (h : emailMatchAt pr s = some e) : 1 ≤ e ∧ e ≤ s.length := by
  obtain ⟨hloc, hat, m, hmax, he⟩ := emailMatchAt_sound pr s e h
  have hmem : m ∈ emailCands s := List.max?_mem max_choice hmax
  rw [emailCands_mem] at hmem
  obtain ⟨hmlt, hm1, hdot, htld⟩ := hmem
  have htle : (((emailDom s).drop (m + 1)).takeWhile Char.isAlpha).length ≤
      (emailDom s).length - (m + 1) := by
    have := takeWhile_length_le Char.isAlpha ((emailDom s).drop (m + 1))
    rw [List.length_drop] at this
    exact this
  have hdomle : (emailDom s).length ≤ s.length - (emailLoc s + 1) := by
    have h1 := takeWhile_length_le isDomChar (s.drop (emailLoc s + 1))
    rw [List.length_drop] at h1
    exact h1
  have hlocs : emailLoc s < s.length := by
    rw [List.get?_eq_getElem?] at hat
    rw [List.getElem?_eq_some_iff] at hat
    exact hat.1
  omega

theorem hexMatchAt_bounds (pr : Option Char) (s : List Char) (e : Nat)
    (h : hexMatchAt pr s = some e) : 1 ≤ e ∧ e ≤ s.length := by
  obtain ⟨_, hrun, h32, _⟩ := hexMatchAt_sound pr s e h
  have := takeWhile_length_le isHexChar s
  omega

theorem apiKeyMatchAt_bounds (pr : Option Char) (s : List Char) (e : Nat)
    (h : apiKeyMatchAt pr s = some e) : 1 ≤ e ∧ e ≤ s.length := by
  obtain ⟨_, t, _, he, h8, _⟩ := apiKeyMatchAt_sound pr s e h
  have hdl : (s.drop (t + 1)).length = s.length - (t + 1) := List.length_drop _ _
  have hrle := takeWhile_length_le Char.isAlphanum (s.drop (t + 1))
  omega

theorem base64MatchAt_bounds (pr : Option Char) (s : List Char) (e : Nat)
    (h : base64MatchAt pr s = some e) : 1 ≤ e ∧ e ≤ s.length := by
  obtain ⟨_, _, m, eq, h40, hm, heq, he, _⟩ := base64MatchAt_sound pr s e h
  have := base64MatchAt_end_le s m eq hm heq
  omega

theorem jwtMatchAt_bounds (pr : Option Char) (s : List Char) (e : Nat)
    (h : jwtMatchAt pr s = some e) : 1 ≤ e ∧ e ≤ s.length := by
  obtain ⟨_, _, _, _, _, k, hk1, hk2, he, _⟩ := jwtMatchAt_sound pr s e h
  have := jwt_end_le s k hk1 hk2
  omega

theorem email_transfer (pr : Option Char) (u : List Char) (f : Char) (w rest : List Char)
    (e : Nat) (hu : u ≠ [])
    (h : emailMatchAt pr (u ++ '[' :: w) = some e) :
    (emailMatchAt pr (u ++ f :: rest)).isSome = true := by
  obtain ⟨hloc, hat, m, hmax, he⟩ := emailMatchAt_sound pr (u ++ '[' :: w) e h
  have hstop1 : (u ++ '[' :: w).takeWhile isLocalChar = u.takeWhile isLocalChar :=
    takeWhile_append_stop u '[' w (by decide)
  have hLout : emailLoc (u ++ '[' :: w) = (u.takeWhile isLocalChar).length := by
    unfold emailLoc
    rw [hstop1]
  have hale : (u.takeWhile isLocalChar).length ≤ u.length := takeWhile_length_le isLocalChar u
  have halt : (u.takeWhile isLocalChar).length < u.length := by
    rcases Nat.lt_or_ge (u.takeWhile isLocalChar).length u.length with h' | h'
    · exact h'
    · have heqa : (u.takeWhile isLocalChar).length = u.length := by omega
      rw [hLout, List.get?_eq_getElem?, heqa,
        List.getElem?_append_right (Nat.le_refl _), Nat.sub_self] at hat
      simp only [List.getElem?_cons_zero, Option.some.injEq] at hat
      exact absurd hat (by decide)
  have hLin : emailLoc (u ++ f :: rest) = (u.takeWhile isLocalChar).length := by
    unfold emailLoc
    rw [takeWhile_append_of_lt u _ halt]
  have hatu : u[(u.takeWhile isLocalChar).length]? = some '@' := by
    rw [hLout, List.get?_eq_getElem?, List.getElem?_append_left halt] at hat
    exact hat
  -- domains: the redacted-view domain is a prefix of the plain-view domain
  have hdrop1 : (u ++ '[' :: w).drop ((u.takeWhile isLocalChar).length + 1) =
      u.drop ((u.takeWhile isLocalChar).length + 1) ++ '[' :: w :=
    List.drop_append_of_le_length (by omega)
  have hdrop1' : (u ++ f :: rest).drop ((u.takeWhile isLocalChar).length + 1) =
      u.drop ((u.takeWhile isLocalChar).length + 1) ++ f :: rest :=
    List.drop_append_of_le_length (by omega)
  have hDout : emailDom (u ++ '[' :: w) =
      (u.drop ((u.takeWhile isLocalChar).length + 1)).takeWhile isDomChar := by
    unfold emailDom
    rw [hLout, hdrop1, takeWhile_append_stop _ '[' w (by decide)]
  have hDpre : emailDom (u ++ '[' :: w) <+: emailDom (u ++ f :: rest) := by
    rw [hDout]
    unfold emailDom
    rw [hLin, hdrop1']
    exact takeWhile_prefix_append _ _
  -- transfer the chosen candidate
  have hmem : m ∈ emailCands (u ++ '[' :: w) := List.max?_mem max_choice hmax
  rw [emailCands_mem] at hmem
  obtain ⟨hmlt, hm1, hdot, htld⟩ := hmem
  have hmem2 : m ∈ emailCands (u ++ f :: rest) := by
    rw [emailCands_mem]
    refine ⟨?_, hm1, ?_, ?_⟩
    · have := List.IsPrefix.length_le hDpre
      omega
    · rw [← prefix_getElem? _ _ m hDpre hmlt]
      exact hdot
    · calc 2 ≤ (((emailDom (u ++ '[' :: w)).drop (m + 1)).takeWhile Char.isAlpha).length :=
          htld
        _ ≤ (((emailDom (u ++ f :: rest)).drop (m + 1)).takeWhile Char.isAlpha).length :=
          takeWhile_length_mono_prefix _ _ (List.IsPrefix.drop hDpre (m + 1))
  apply emailMatchAt_comp pr (u ++ f :: rest)
  · rw [hLin]
    rw [hLout] at hloc
    exact hloc
  · rw [hLin, List.get?_eq_getElem?, List.getElem?_append_left halt]
    exact hatu
  · intro hcon
    rw [hcon] at hmem2
    exact absurd hmem2 (List.not_mem_nil m)

/-! No pattern matches inside the redaction token. -/

theorem hexMatchAt_short (pr : Option Char) (s : List Char)
    (h : (s.takeWhile isHexChar).length < 32) : hexMatchAt pr s = none := by
  simp only [hexMatchAt]
  split
  · rfl
  · rw [if_neg]
    intro hc
    rw [Bool.and_eq_true, decide_eq_true_eq] at hc
    omega

theorem base64MatchAt_short (pr : Option Char) (s : List Char)
    (h : (s.takeWhile isB64Char).length < 40) : base64MatchAt pr s = none := by
  rw [base64MatchAt_eq]
  split
  · rfl
  · rw [if_pos (by rw [decide_eq_true_eq]; exact h)]

theorem jwtMatchAt_noseg (pr : Option Char) (s : List Char)
    (h : (s.takeWhile isJwtChar).isEmpty = true) : jwtMatchAt pr s = none := by
  cases hb : isBoundary pr s.head?
  · exact jwtMatchAt_nobound pr s hb
  · rw [jwtMatchAt_eq, hb]
    simp only [Bool.not_true, Bool.false_eq_true, if_false]
    rw [if_pos h]

theorem jwtMatchAt_nodot (pr : Option Char) (s : List Char)
    (h : s.get? (jwtA s) ≠ some '.') : jwtMatchAt pr s = none := by
  cases hb : isBoundary pr s.head?
  · exact jwtMatchAt_nobound pr s hb
  · rw [jwtMatchAt_eq, hb]
    simp only [Bool.not_true, Bool.false_eq_true, if_false]
    by_cases hem : (s.takeWhile isJwtChar).isEmpty = true
    · rw [if_pos hem]
    · rw [if_neg hem, if_pos h]

theorem emailMatchAt_noloc (pr : Option Char) (s : List Char)
    (h : (s.takeWhile isLocalChar).isEmpty = true) : emailMatchAt pr s = none := by
  rw [emailMatchAt_eq]
  rw [if_pos h]

theorem emailMatchAt_noat (pr : Option Char) (s : List Char)
    (h : s.get? (emailLoc s) ≠ some '@') : emailMatchAt pr s = none := by
  rw [emailMatchAt_eq]
  by_cases hem : (s.takeWhile isLocalChar).isEmpty = true
  · rw [if_pos hem]
  · rw [if_neg hem, if_pos h]

theorem apiKeyMatchAt_notag (pr : Option Char) (s : List Char)
    (htag : apiTag (lowerChars s) = none) : apiKeyMatchAt pr s = none := by
  rw [apiKeyMatchAt_eq]
  split
  · rfl
  · rw [htag]

theorem hex_tok (pr : Option Char) (j : Nat) (tail : List Char) (hj : j < REDACTED.length)
    : hexMatchAt pr (REDACTED.drop j ++ tail) = none := by
  have hj' : j < 10 := by
    have : REDACTED.length = 10 := rfl
    omega
  interval_cases j
  · exact hexMatchAt_short pr _ (by
      rw [show (REDACTED.drop 0 ++ tail).takeWhile isHexChar = [] from rfl]; decide)
  · exact hexMatchAt_short pr _ (by
      rw [show (REDACTED.drop 1 ++ tail).takeWhile isHexChar = [] from rfl]; decide)
  · exact hexMatchAt_short pr _ (by
      rw [show (REDACTED.drop 2 ++ tail).takeWhile isHexChar = ['E', 'D', 'A', 'C'] from rfl]
      decide)
  · exact hexMatchAt_short pr _ (by
      rw [show (REDACTED.drop 3 ++ tail).takeWhile isHexChar = ['D', 'A', 'C'] from rfl]
      decide)
  · exact hexMatchAt_short pr _ (by
      rw [show (REDACTED.drop 4 ++ tail).takeWhile isHexChar = ['A', 'C'] from rfl]; decide)
  · exact hexMatchAt_short pr _ (by
      rw [show (REDACTED.drop 5 ++ tail).takeWhile isHexChar = ['C'] from rfl]; decide)
  · exact hexMatchAt_short pr _ (by
      rw [show (REDACTED.drop 6 ++ tail).takeWhile isHexChar = [] from rfl]; decide)
  · exact hexMatchAt_short pr _ (by
      rw [show (REDACTED.drop 7 ++ tail).takeWhile isHexChar = ['E', 'D'] from rfl]; decide)
  · exact hexMatchAt_short pr _ (by
      rw [show (REDACTED.drop 8 ++ tail).takeWhile isHexChar = ['D'] from rfl]; decide)
  · exact hexMatchAt_short pr _ (by
      rw [show (REDACTED.drop 9 ++ tail).takeWhile isHexChar = [] from rfl]; decide)

theorem b64_tok (pr : Option Char) (j : Nat) (tail : List Char) (hj : j < REDACTED.length)
    : base64MatchAt pr (REDACTED.drop j ++ tail) = none := by
  have hj' : j < 10 := by
    have : REDACTED.length = 10 := rfl
    omega
  interval_cases j
  · exact base64MatchAt_short pr _ (by
      rw [show (REDACTED.drop 0 ++ tail).takeWhile isB64Char = [] from rfl]; decide)
  · exact base64MatchAt_short pr _ (by
      rw [show (REDACTED.drop 1 ++ tail).takeWhile isB64Char =
        ['R', 'E', 'D', 'A', 'C', 'T', 'E', 'D'] from rfl]; decide)
  · exact base64MatchAt_short pr _ (by
      rw [show (REDACTED.drop 2 ++ tail).takeWhile isB64Char =
        ['E', 'D', 'A', 'C', 'T', 'E', 'D'] from rfl]; decide)
  · exact base64MatchAt_short pr _ (by
      rw [show (REDACTED.drop 3 ++ tail).takeWhile isB64Char =
        ['D', 'A', 'C', 'T', 'E', 'D'] from rfl]; decide)
  · exact base64MatchAt_short pr _ (by
      rw [show (REDACTED.drop 4 ++ tail).takeWhile isB64Char =
        ['A', 'C', 'T', 'E', 'D'] from rfl]; decide)
  · exact base64MatchAt_short pr _ (by
      rw [show (REDACTED.drop 5 ++ tail).takeWhile isB64Char =
        ['C', 'T', 'E', 'D'] from rfl]; decide)
  · exact base64MatchAt_short pr _ (by
      rw [show (REDACTED.drop 6 ++ tail).takeWhile isB64Char =
        ['T', 'E', 'D'] from rfl]; decide)
  · exact base64MatchAt_short pr _ (by
      rw [show (REDACTED.drop 7 ++ tail).takeWhile isB64Char = ['E', 'D'] from rfl]; decide)
  · exact base64MatchAt_short pr _ (by
      rw [show (REDACTED.drop 8 ++ tail).takeWhile isB64Char = ['D'] from rfl]; decide)
  · exact base64MatchAt_short pr _ (by
      rw [show (REDACTED.drop 9 ++ tail).takeWhile isB64Char = [] from rfl]; decide)

theorem jwt_tok (pr : Option Char) (j : Nat) (tail : List Char) (hj : j < REDACTED.length)
    : jwtMatchAt pr (REDACTED.drop j ++ tail) = none := by
  have hj' : j < 10 := by
    have : REDACTED.length = 10 := rfl
    omega
  interval_cases j
  · exact jwtMatchAt_noseg pr _ (by
      rw [show (REDACTED.drop 0 ++ tail).takeWhile isJwtChar = [] from rfl]; rfl)
  · exact jwtMatchAt_nodot pr _ (by
      rw [show (REDACTED.drop 1 ++ tail).get? (jwtA (REDACTED.drop 1 ++ tail)) =
        some ']' from rfl]
      decide)
  · exact jwtMatchAt_nodot pr _ (by
      rw [show (REDACTED.drop 2 ++ tail).get? (jwtA (REDACTED.drop 2 ++ tail)) =
        some ']' from rfl]
      decide)
  · exact jwtMatchAt_nodot pr _ (by
      rw [show (REDACTED.drop 3 ++ tail).get? (jwtA (REDACTED.drop 3 ++ tail)) =
        some ']' from rfl]
      decide)
  · exact jwtMatchAt_nodot pr _ (by
      rw [show (REDACTED.drop 4 ++ tail).get? (jwtA (REDACTED.drop 4 ++ tail)) =
        some ']' from rfl]
      decide)
  · exact jwtMatchAt_nodot pr _ (by
      rw [show (REDACTED.drop 5 ++ tail).get? (jwtA (REDACTED.drop 5 ++ tail)) =
        some ']' from rfl]
      decide)
  · exact jwtMatchAt_nodot pr _ (by
      rw [show (REDACTED.drop 6 ++ tail).get? (jwtA (REDACTED.drop 6 ++ tail)) =
        some ']' from rfl]
      decide)
  · exact jwtMatchAt_nodot pr _ (by
      rw [show (REDACTED.drop 7 ++ tail).get? (jwtA (REDACTED.drop 7 ++ tail)) =
        some ']' from rfl]
      decide)
  · exact jwtMatchAt_nodot pr _ (by
      rw [show (REDACTED.drop 8 ++ tail).get? (jwtA (REDACTED.drop 8 ++ tail)) =
        some ']' from rfl]
      decide)
  · exact jwtMatchAt_noseg pr _ (by
      rw [show (REDACTED.drop 9 ++ tail).takeWhile isJwtChar = [] from rfl]; rfl)

theorem email_tok (pr : Option Char) (j : Nat) (tail : List Char) (hj : j < REDACTED.length)
    : emailMatchAt pr (REDACTED.drop j ++ tail) = none := by
  have hj' : j < 10 := by
    have : REDACTED.length = 10 := rfl
    omega
  interval_cases j
  · exact emailMatchAt_noloc pr _ (by
      rw [show (REDACTED.drop 0 ++ tail).takeWhile isLocalChar = [] from rfl]; rfl)
  · exact emailMatchAt_noat pr _ (by
      rw [show (REDACTED.drop 1 ++ tail).get? (emailLoc (REDACTED.drop 1 ++ tail)) =
        some ']' from rfl]
      decide)
  · exact emailMatchAt_noat pr _ (by
      rw [show (REDACTED.drop 2 ++ tail).get? (emailLoc (REDACTED.drop 2 ++ tail)) =
        some ']' from rfl]
      decide)
  · exact emailMatchAt_noat pr _ (by
      rw [show (REDACTED.drop 3 ++ tail).get? (emailLoc (REDACTED.drop 3 ++ tail)) =
        some ']' from rfl]
      decide)
  · exact emailMatchAt_noat pr _ (by
      rw [show (REDACTED.drop 4 ++ tail).get? (emailLoc (REDACTED.drop 4 ++ tail)) =
        some ']' from rfl]
      decide)
  · exact emailMatchAt_noat pr _ (by
      rw [show (REDACTED.drop 5 ++ tail).get? (emailLoc (REDACTED.drop 5 ++ tail)) =
        some ']' from rfl]
      decide)
  · exact emailMatchAt_noat pr _ (by
      rw [show (REDACTED.drop 6 ++ tail).get? (emailLoc (REDACTED.drop 6 ++ tail)) =
        some ']' from rfl]
      decide)
  · exact emailMatchAt_noat pr _ (by
      rw [show (REDACTED.drop 7 ++ tail).get? (emailLoc (REDACTED.drop 7 ++ tail)) =
        some ']' from rfl]
      decide)
  · exact emailMatchAt_noat pr _ (by
      rw [show (REDACTED.drop 8 ++ tail).get? (emailLoc (REDACTED.drop 8 ++ tail)) =
        some ']' from rfl]
      decide)
  · exact emailMatchAt_noloc pr _ (by
      rw [show (REDACTED.drop 9 ++ tail).takeWhile isLocalChar = [] from rfl]; rfl)

theorem api_tok (pr : Option Char) (j : Nat) (tail : List Char) (hj : j < REDACTED.length)
    : apiKeyMatchAt pr (REDACTED.drop j ++ tail) = none := by
  have hj' : j < 10 := by
    have : REDACTED.length = 10 := rfl
    omega
  interval_cases j
  · exact apiKeyMatchAt_notag pr _ rfl
  · exact apiKeyMatchAt_notag pr _ rfl
  · exact apiKeyMatchAt_notag pr _ rfl
  · exact apiKeyMatchAt_notag pr _ rfl
  · exact apiKeyMatchAt_notag pr _ rfl
  · exact apiKeyMatchAt_notag pr _ rfl
  · exact apiKeyMatchAt_notag pr _ rfl
  · exact apiKeyMatchAt_notag pr _ rfl
  · exact apiKeyMatchAt_notag pr _ rfl
  · exact apiKeyMatchAt_notag pr _ rfl

/-! The master induction: a substitution pass leaves no `q`-match, given the
segment-transfer, token, and context-step facts. -/

theorem substAux_clean_generic
    (p q : Option Char → List Char → Option Nat)
    (Ctx : Option Char → Option Char → List Char → Prop)
    (CC : Option Char → List Char → Prop)
    (hp1 : ∀ pr t m, p pr t = some m → 1 ≤ m ∧ m ≤ t.length)
    (hctxstep : ∀ pr t n, p pr t = some n →
        Ctx ((t.take n).getLast?) (some ']') (t.drop n))
    (hccstep : ∀ pr s L n, CC pr s → p (prevAt pr s L) (s.drop L) = some n → 1 ≤ n →
        L + n ≤ s.length → CC (((s.drop L).take n).getLast?) (s.drop (L + n)))
    (hclean : ∀ prevIn prevOut s, Ctx prevIn prevOut s → CC prevIn s →
        hasMatchFrom p prevIn s = false → hasMatchFrom q prevOut s = false)
    (htok : ∀ pr j tail, j < REDACTED.length → q pr (REDACTED.drop j ++ tail) = none)
    (hseam : ∀ prevIn prevOut s L n, Ctx prevIn prevOut s → CC prevIn s →
        p (prevAt prevIn s L) (s.drop L) = some n → 1 ≤ n → L + n ≤ s.length →
        (∀ i, i < L → p (prevAt prevIn s i) (s.drop i) = none) →
        ∀ i w, i < L → q (prevAt prevOut s i) ((s.take L).drop i ++ '[' :: w) = none) :
    ∀ N fuel prevIn prevOut s, s.length ≤ N → s.length ≤ fuel →
      Ctx prevIn prevOut s → CC prevIn s →
      hasMatchFrom q prevOut (substAux p fuel prevIn s).1 = false := by
  intro N
  induction N using Nat.strong_induction_on with
  | _ N ih =>
    intro fuel prevIn prevOut s hN hfuel hctx hcc
    rcases substAux_seg p hp1 fuel prevIn s hfuel with ⟨hid, hcleanIn⟩ | hseg'
    · rw [hid]
      exact hclean prevIn prevOut s hctx hcc hcleanIn
    · obtain ⟨L, n, fuelR, hLn, hn1, hmatch, hbefore, hfR, hout⟩ := hseg'
      rw [hout, List.append_assoc]
      apply hasMatchFrom_append_false q (s.take L)
        (REDACTED ++ (substAux p fuelR (((s.drop L).take n).getLast?) (s.drop (L + n))).1)
        prevOut
      · intro i hiu
        have hiL : i < L := by
          rw [List.length_take] at hiu
          omega
        have hpv : prevAt prevOut (s.take L) i = prevAt prevOut s i := by
          unfold prevAt
          cases i with
          | zero => rfl
          | succ i' =>
            rw [if_neg (by omega), if_neg (by omega)]
            simp only [List.get?_eq_getElem?]
            rw [List.getElem?_take_of_lt (by omega)]
        rw [hpv]
        have hw := hseam prevIn prevOut s L n hctx hcc hmatch hn1 hLn hbefore i
          (REDACTED.drop 1 ++
            (substAux p fuelR (((s.drop L).take n).getLast?) (s.drop (L + n))).1) hiL
        have heq2 : REDACTED ++
            (substAux p fuelR (((s.drop L).take n).getLast?) (s.drop (L + n))).1 =
            '[' :: (REDACTED.drop 1 ++
              (substAux p fuelR (((s.drop L).take n).getLast?) (s.drop (L + n))).1) := rfl
        rw [heq2]
        exact hw
      · apply hasMatchFrom_append_false q REDACTED _ (endPrev prevOut (s.take L))
        · intro j hj
          exact htok _ j _ hj
        · have hend : endPrev (endPrev prevOut (s.take L)) REDACTED = some ']' := rfl
          rw [hend]
          have hctx' : Ctx (((s.drop L).take n).getLast?) (some ']') (s.drop (L + n)) := by
            have := hctxstep (prevAt prevIn s L) (s.drop L) n hmatch
            rw [List.drop_drop] at this
            exact this
          have hcc' : CC (((s.drop L).take n).getLast?) (s.drop (L + n)) :=
            hccstep prevIn s L n hcc hmatch hn1 hLn
          apply ih (N - 1) (by omega) fuelR _ (some ']') (s.drop (L + n)) ?_ hfR hctx' hcc'
          rw [List.length_drop]
          omega

/-! Context handling between a pass's input and output positions. -/

theorem cleanTrans (q : Option Char → List Char → Option Nat)
    (hdep : ∀ pr1 pr2 s, optWord pr1 = optWord pr2 → q pr1 s = q pr2 s)
    (hnb : ∀ pr s, isBoundary pr s.head? = false → q pr s = none)
    (prevIn prevOut : Option Char) (s : List Char)
    (hinv : optWord prevOut = optWord prevIn ∨
      (optWord prevOut = false ∧ isBoundary prevIn s.head? = true))
    (h : hasMatchFrom q prevIn s = false) : hasMatchFrom q prevOut s = false := by
  cases s with
  | nil => rfl
  | cons c cs =>
    rw [hasMatchFrom_cons, Bool.or_eq_false_iff] at h ⊢
    refine ⟨?_, h.2⟩
    rcases hinv with heq | ⟨how, hbd⟩
    · rw [hdep prevOut prevIn _ heq]
      exact h.1
    · by_cases hcw : optWord (some c) = true
      · have hpw : optWord prevIn = false := by
          unfold isBoundary at hbd
          cases hpw : optWord prevIn
          · rfl
          · rw [hpw, show ((c :: cs : List Char).head?) = some c from rfl, hcw] at hbd
            exact absurd hbd (by decide)
        rw [hdep prevOut prevIn _ (by rw [how, hpw])]
        exact h.1
      · have hcf : optWord (some c) = false := by
          cases hx : optWord (some c)
          · rfl
          · exact absurd hx hcw
        have hnb' : isBoundary prevOut (c :: cs : List Char).head? = false := by
          unfold isBoundary
          rw [show ((c :: cs : List Char).head?) = some c from rfl, how, hcf]
          rfl
        rw [hnb prevOut (c :: cs) hnb']
        rfl

theorem prevSwap (q : Option Char → List Char → Option Nat)
    (hdep : ∀ pr1 pr2 s, optWord pr1 = optWord pr2 → q pr1 s = q pr2 s)
    (hlead : ∀ pr v e, q pr v = some e → isBoundary pr v.head? = true)
    (prevIn prevOut : Option Char) (v : List Char)
    (hpc : optWord prevOut = optWord prevIn ∨
      (optWord prevOut = false ∧ isBoundary prevIn v.head? = true))
    (hs : (q prevOut v).isSome = true) : (q prevIn v).isSome = true := by
  rcases hpc with heq | ⟨how, hbd⟩
  · rw [hdep prevIn prevOut v heq.symm]
    exact hs
  · obtain ⟨e, he⟩ := Option.isSome_iff_exists.mp hs
    have hbd2 := hlead prevOut v e he
    unfold isBoundary at hbd hbd2
    have hvw : optWord v.head? = true := by
      cases hvw : optWord v.head?
      · rw [hvw, how] at hbd2
        exact absurd hbd2 (by decide)
      · rfl
    have hpw : optWord prevIn = false := by
      cases hpw : optWord prevIn
      · rfl
      · rw [hpw, hvw] at hbd
        exact absurd hbd (by decide)
    rw [hdep prevIn prevOut v (by rw [hpw, how])]
    exact hs

theorem hexMatchAt_lead (pr : Option Char) (v : List Char) (e : Nat)
    (h : hexMatchAt pr v = some e) : isBoundary pr v.head? = true :=
  (hexMatchAt_sound pr v e h).1

theorem apiKeyMatchAt_lead (pr : Option Char) (v : List Char) (e : Nat)
    (h : apiKeyMatchAt pr v = some e) : isBoundary pr v.head? = true :=
  (apiKeyMatchAt_sound pr v e h).1

theorem base64MatchAt_lead (pr : Option Char) (v : List Char) (e : Nat)
    (h : base64MatchAt pr v = some e) : isBoundary pr v.head? = true :=
  (base64MatchAt_sound pr v e h).1

theorem jwtMatchAt_lead (pr : Option Char) (v : List Char) (e : Nat)
    (h : jwtMatchAt pr v = some e) : isBoundary pr v.head? = true :=
  (jwtMatchAt_sound pr v e h).1

theorem seg_view_eq (s : List Char) (i L : Nat) (hiL : i < L) (hLs : L ≤ s.length) :
    (s.take L).drop i ++ s.drop L = s.drop i := by
  conv_rhs => rw [← List.take_append_drop L s]
  rw [List.drop_append_of_le_length (by rw [List.length_take]; omega)]

theorem seg_getLast?_eq (s : List Char) (i L : Nat) (hiL : i < L) (hLs : L ≤ s.length) :
    ((s.take L).drop i).getLast? = s[L - 1]? := by
  rw [List.getLast?_drop, if_neg (by rw [List.length_take]; omega)]
  exact getLast?_take_eq s L (by omega) hLs

theorem hseam_generic (p q : Option Char → List Char → Option Nat)
    (hplead : ∀ pr v n, p pr v = some n → isBoundary pr v.head? = true)
    (hswap : ∀ prevIn prevOut v, (optWord prevOut = optWord prevIn ∨
        (optWord prevOut = false ∧ isBoundary prevIn v.head? = true)) →
        (q prevOut v).isSome = true → (q prevIn v).isSome = true)
    (htr : ∀ pr u f w rest e, u ≠ [] →
        (∀ c, u.getLast? = some c → optWord (some c) = true → optWord (some f) = false) →
        q pr (u ++ '[' :: w) = some e → (q pr (u ++ f :: rest)).isSome = true)
    (prevIn prevOut : Option Char) (s : List Char) (L n : Nat)
    (hctx : optWord prevOut = optWord prevIn ∨
      (optWord prevOut = false ∧ isBoundary prevIn s.head? = true))
    (hnoq : ∀ i, i < L → q (prevAt prevIn s i) (s.drop i) = none)
    (hmatch : p (prevAt prevIn s L) (s.drop L) = some n)
    (hn1 : 1 ≤ n) (hLn : L + n ≤ s.length) :
    ∀ i w, i < L → q (prevAt prevOut s i) ((s.take L).drop i ++ '[' :: w) = none := by
  intro i w hiL
  cases hq : q (prevAt prevOut s i) ((s.take L).drop i ++ '[' :: w) with
  | none => rfl
  | some e =>
    exfalso
    have hulen : ((s.take L).drop i).length = L - i := by
      rw [List.length_drop, List.length_take]
      omega
    have hune : (s.take L).drop i ≠ [] := by
      intro hc
      rw [hc] at hulen
      simp only [List.length_nil] at hulen
      omega
    obtain ⟨f, rest, hfr⟩ : ∃ f rest, s.drop L = f :: rest := by
      cases hdl : s.drop L with
      | nil =>
        have : (s.drop L).length = 0 := by rw [hdl]; rfl
        rw [List.length_drop] at this
        omega
      | cons f rest => exact ⟨f, rest, rfl⟩
    have hb1 : ∀ c, ((s.take L).drop i).getLast? = some c → optWord (some c) = true →
        optWord (some f) = false := by
      intro c hc hcw
      have hul : ((s.take L).drop i).getLast? = s[L - 1]? :=
        seg_getLast?_eq s i L hiL (by omega)
      have hlead := hplead _ _ _ hmatch
      rw [hfr] at hlead
      have hpAt : prevAt prevIn s L = s[L - 1]? := by
        unfold prevAt
        rw [if_neg (by omega), List.get?_eq_getElem?]
      rw [hpAt] at hlead
      rw [hul] at hc
      rw [hc, show ((f :: rest : List Char).head?) = some f from rfl] at hlead
      unfold isBoundary at hlead
      cases hfw : optWord (some f)
      · rfl
      · rw [hcw, hfw] at hlead
        exact absurd hlead (by decide)
    have hsome := htr (prevAt prevOut s i) ((s.take L).drop i) f w rest e hune hb1 hq
    have hview : (s.take L).drop i ++ f :: rest = s.drop i := by
      rw [← hfr]
      exact seg_view_eq s i L hiL (by omega)
    rw [hview] at hsome
    cases i with
    | zero =>
      rw [prevAt_zero] at hsome
      have hnone := hnoq 0 hiL
      rw [prevAt_zero] at hnone
      have hpc : optWord prevOut = optWord prevIn ∨
          (optWord prevOut = false ∧ isBoundary prevIn (s.drop 0).head? = true) := by
        rw [List.drop_zero]
        exact hctx
      have hswapped := hswap prevIn prevOut (s.drop 0) hpc hsome
      rw [hnone] at hswapped
      exact absurd hswapped (by simp)
    | succ i' =>
      have hpeq : prevAt prevOut s (i' + 1) = prevAt prevIn s (i' + 1) := by
        unfold prevAt
        rw [if_neg (by omega), if_neg (by omega)]
      rw [hpeq] at hsome
      have hnone := hnoq (i' + 1) hiL
      rw [hnone] at hsome
      exact absurd hsome (by simp)

theorem hseam_email (prevIn prevOut : Option Char) (s : List Char) (L n : Nat)
    (hnoq : ∀ i, i < L → emailMatchAt (prevAt prevIn s i) (s.drop i) = none)
    (hLn : L + n ≤ s.length) (hn1 : 1 ≤ n) :
    ∀ i w, i < L →
      emailMatchAt (prevAt prevOut s i) ((s.take L).drop i ++ '[' :: w) = none := by
  intro i w hiL
  cases hq : emailMatchAt (prevAt prevOut s i) ((s.take L).drop i ++ '[' :: w) with
  | none => rfl
  | some e =>
    exfalso
    have hulen : ((s.take L).drop i).length = L - i := by
      rw [List.length_drop, List.length_take]
      omega
    have hune : (s.take L).drop i ≠ [] := by
      intro hc
      rw [hc] at hulen
      simp only [List.length_nil] at hulen
      omega
    obtain ⟨f, rest, hfr⟩ : ∃ f rest, s.drop L = f :: rest := by
      cases hdl : s.drop L with
      | nil =>
        have : (s.drop L).length = 0 := by rw [hdl]; rfl
        rw [List.length_drop] at this
        omega
      | cons f rest => exact ⟨f, rest, rfl⟩
    have hsome := email_transfer (prevAt prevOut s i) ((s.take L).drop i) f w rest e hune hq
    have hview : (s.take L).drop i ++ f :: rest = s.drop i := by
      rw [← hfr]
      exact seg_view_eq s i L hiL (by omega)
    rw [hview] at hsome
    have hdep : emailMatchAt (prevAt prevOut s i) (s.drop i) =
        emailMatchAt (prevAt prevIn s i) (s.drop i) := rfl
    rw [hdep] at hsome
    have hnone := hnoq i hiL
    rw [hnone] at hsome
    exact absurd hsome (by simp)

/-! Pass-level wrappers. -/

theorem pass_preserves (p q : Option Char → List Char → Option Nat)
    (hp1 : ∀ pr t m, p pr t = some m → 1 ≤ m ∧ m ≤ t.length)
    (hptrail : ∀ pr t n, p pr t = some n →
      isBoundary ((t.take n).getLast?) ((t.drop n).head?) = true)
    (hplead : ∀ pr v n, p pr v = some n → isBoundary pr v.head? = true)
    (hqct : ∀ pi po t, (optWord po = optWord pi ∨
        (optWord po = false ∧ isBoundary pi t.head? = true)) →
      hasMatchFrom q pi t = false → hasMatchFrom q po t = false)
    (hqswap : ∀ pi po v, (optWord po = optWord pi ∨
        (optWord po = false ∧ isBoundary pi v.head? = true)) →
      (q po v).isSome = true → (q pi v).isSome = true)
    (hqtr : ∀ pr u f w rest e, u ≠ [] →
        (∀ c, u.getLast? = some c → optWord (some c) = true → optWord (some f) = false) →
        q pr (u ++ '[' :: w) = some e → (q pr (u ++ f :: rest)).isSome = true)
    (hqtok : ∀ pr j tail, j < REDACTED.length → q pr (REDACTED.drop j ++ tail) = none)
    (s : List Char) (hclean : hasMatchFrom q none s = false) :
    hasMatchFrom q none (substPattern p s).1 = false := by
  unfold substPattern
  apply substAux_clean_generic p q
    (fun pi po t => optWord po = optWord pi ∨
      (optWord po = false ∧ isBoundary pi t.head? = true))
    (fun pr t => hasMatchFrom q pr t = false)
    hp1 ?_ ?_ ?_ hqtok ?_ s.length s.length none none s (Nat.le_refl _) (Nat.le_refl _)
    (Or.inl rfl) hclean
  · intro pr t n hm
    exact Or.inr ⟨by decide, hptrail pr t n hm⟩
  · intro pr t L n hcc hm hn1 hLn
    have h1 := hasMatchFrom_drop q pr t (L + n) hcc
    have h2 : prevAt pr t (L + n) = ((t.drop L).take n).getLast? := by
      unfold prevAt
      rw [if_neg (by omega), List.get?_eq_getElem?,
        getLast?_take_eq (t.drop L) n hn1 (by rw [List.length_drop]; omega),
        List.getElem?_drop]
      congr 1
      omega
    rw [h2] at h1
    exact h1
  · intro pi po t hctx hcc _
    exact hqct pi po t hctx hcc
  · intro pi po t L n hctx hcc hm hn1 hLn hbefore
    exact hseam_generic p q hplead hqswap hqtr pi po t L n hctx
      (fun i hi => hasMatchFrom_false_at q pi t hcc i (by omega)) hm hn1 hLn

theorem pass_self (p : Option Char → List Char → Option Nat)
    (hp1 : ∀ pr t m, p pr t = some m → 1 ≤ m ∧ m ≤ t.length)
    (hptrail : ∀ pr t n, p pr t = some n →
      isBoundary ((t.take n).getLast?) ((t.drop n).head?) = true)
    (hplead : ∀ pr v n, p pr v = some n → isBoundary pr v.head? = true)
    (hpct : ∀ pi po t, (optWord po = optWord pi ∨
        (optWord po = false ∧ isBoundary pi t.head? = true)) →
      hasMatchFrom p pi t = false → hasMatchFrom p po t = false)
    (hpswap : ∀ pi po v, (optWord po = optWord pi ∨
        (optWord po = false ∧ isBoundary pi v.head? = true)) →
      (p po v).isSome = true → (p pi v).isSome = true)
    (hptr : ∀ pr u f w rest e, u ≠ [] →
        (∀ c, u.getLast? = some c → optWord (some c) = true → optWord (some f) = false) →
        p pr (u ++ '[' :: w) = some e → (p pr (u ++ f :: rest)).isSome = true)
    (hptok : ∀ pr j tail, j < REDACTED.length → p pr (REDACTED.drop j ++ tail) = none)
    (s : List Char) :
    hasMatchFrom p none (substPattern p s).1 = false := by
  unfold substPattern
  apply substAux_clean_generic p p
    (fun pi po t => optWord po = optWord pi ∨
      (optWord po = false ∧ isBoundary pi t.head? = true))
    (fun _ _ => True)
    hp1 ?_ ?_ ?_ hptok ?_ s.length s.length none none s (Nat.le_refl _) (Nat.le_refl _)
    (Or.inl rfl) trivial
  · intro pr t n hm
    exact Or.inr ⟨by decide, hptrail pr t n hm⟩
  · intro pr t L n _ hm hn1 hLn
    trivial
  · intro pi po t hctx _ hcl
    exact hpct pi po t hctx hcl
  · intro pi po t L n hctx _ hm hn1 hLn hbefore
    exact hseam_generic p p hplead hpswap hptr pi po t L n hctx hbefore hm hn1 hLn

theorem pass_self_email (s : List Char) :
    hasMatchFrom emailMatchAt none (substPattern emailMatchAt s).1 = false := by
  unfold substPattern
  apply substAux_clean_generic emailMatchAt emailMatchAt
    (fun _ _ _ => True) (fun _ _ => True)
    emailMatchAt_bounds ?_ ?_ ?_ email_tok ?_ s.length s.length none none s
    (Nat.le_refl _) (Nat.le_refl _) trivial trivial
  · intro pr t n hm
    trivial
  · intro pr t L n _ hm hn1 hLn
    trivial
  · intro pi po t _ _ hcl
    rw [hasMatchFrom_congr emailMatchAt po pi t (fun v => rfl)]
    exact hcl
  · intro pi po t L n _ _ hm hn1 hLn hbefore
    exact hseam_email pi po t L n hbefore hLn hn1

/-! The fifteen pass facts needed for idempotence. -/

theorem api_pass_self (s : List Char) :
    hasMatchFrom apiKeyMatchAt none (substPattern apiKeyMatchAt s).1 = false :=
  pass_self apiKeyMatchAt apiKeyMatchAt_bounds apiKeyMatchAt_trail apiKeyMatchAt_lead
    (fun pi po t hctx hcl =>
      cleanTrans apiKeyMatchAt apiKeyMatchAt_prevdep apiKeyMatchAt_nobound pi po t hctx hcl)
    (prevSwap apiKeyMatchAt apiKeyMatchAt_prevdep apiKeyMatchAt_lead)
    (fun pr u f w rest e hu hb1 hq => api_transfer pr u f w rest e hu hb1 hq)
    api_tok s

theorem hex_pass_self (s : List Char) :
    hasMatchFrom hexMatchAt none (substPattern hexMatchAt s).1 = false :=
  pass_self hexMatchAt hexMatchAt_bounds hexMatchAt_trail hexMatchAt_lead
    (fun pi po t hctx hcl =>
      cleanTrans hexMatchAt hexMatchAt_prevdep hexMatchAt_nobound pi po t hctx hcl)
    (prevSwap hexMatchAt hexMatchAt_prevdep hexMatchAt_lead)
    (fun pr u f w rest e hu hb1 hq => hex_transfer pr u '[' f w rest e hu (by decide) hb1 hq)
    hex_tok s

theorem b64_pass_self (s : List Char) :
    hasMatchFrom base64MatchAt none (substPattern base64MatchAt s).1 = false :=
  pass_self base64MatchAt base64MatchAt_bounds base64MatchAt_trail base64MatchAt_lead
    (fun pi po t hctx hcl =>
      cleanTrans base64MatchAt base64MatchAt_prevdep base64MatchAt_nobound pi po t hctx hcl)
    (prevSwap base64MatchAt base64MatchAt_prevdep base64MatchAt_lead)
    (fun pr u f w rest e hu hb1 hq => b64_transfer pr u f w rest e hu hb1 hq)
    b64_tok s

theorem jwt_pass_self (s : List Char) :
    hasMatchFrom jwtMatchAt none (substPattern jwtMatchAt s).1 = false :=
  pass_self jwtMatchAt jwtMatchAt_bounds jwtMatchAt_trail jwtMatchAt_lead
    (fun pi po t hctx hcl =>
      cleanTrans jwtMatchAt jwtMatchAt_prevdep jwtMatchAt_nobound pi po t hctx hcl)
    (prevSwap jwtMatchAt jwtMatchAt_prevdep jwtMatchAt_lead)
    (fun pr u f w rest e hu hb1 hq => jwt_transfer pr u f w rest e hu hb1 hq)
    jwt_tok s

theorem email_preserved_api (s : List Char)
    (h : hasMatchFrom emailMatchAt none s = false) :
    hasMatchFrom emailMatchAt none (substPattern apiKeyMatchAt s).1 = false :=
  pass_preserves apiKeyMatchAt emailMatchAt apiKeyMatchAt_bounds apiKeyMatchAt_trail
    apiKeyMatchAt_lead
    (fun pi po t _ hcl => by
      rw [hasMatchFrom_congr emailMatchAt po pi t (fun v => rfl)]; exact hcl)
    (fun pi po v _ hs => by
      rw [show emailMatchAt pi v = emailMatchAt po v from rfl]; exact hs)
    (fun pr u f w rest e hu _ hq => email_transfer pr u f w rest e hu hq)
    email_tok s h

theorem email_preserved_hex (s : List Char)
    (h : hasMatchFrom emailMatchAt none s = false) :
    hasMatchFrom emailMatchAt none (substPattern hexMatchAt s).1 = false :=
  pass_preserves hexMatchAt emailMatchAt hexMatchAt_bounds hexMatchAt_trail hexMatchAt_lead
    (fun pi po t _ hcl => by
      rw [hasMatchFrom_congr emailMatchAt po pi t (fun v => rfl)]; exact hcl)
    (fun pi po v _ hs => by
      rw [show emailMatchAt pi v = emailMatchAt po v from rfl]; exact hs)
    (fun pr u f w rest e hu _ hq => email_transfer pr u f w rest e hu hq)
    email_tok s h

theorem email_preserved_b64 (s : List Char)
    (h : hasMatchFrom emailMatchAt none s = false) :
    hasMatchFrom emailMatchAt none (substPattern base64MatchAt s).1 = false :=
  pass_preserves base64MatchAt emailMatchAt base64MatchAt_bounds base64MatchAt_trail
    base64MatchAt_lead
    (fun pi po t _ hcl => by
      rw [hasMatchFrom_congr emailMatchAt po pi t (fun v => rfl)]; exact hcl)
    (fun pi po v _ hs => by
      rw [show emailMatchAt pi v = emailMatchAt po v from rfl]; exact hs)
    (fun pr u f w rest e hu _ hq => email_transfer pr u f w rest e hu hq)
    email_tok s h

theorem email_preserved_jwt (s : List Char)
    (h : hasMatchFrom emailMatchAt none s = false) :
    hasMatchFrom emailMatchAt none (substPattern jwtMatchAt s).1 = false :=
  pass_preserves jwtMatchAt emailMatchAt jwtMatchAt_bounds jwtMatchAt_trail jwtMatchAt_lead
    (fun pi po t _ hcl => by
      rw [hasMatchFrom_congr emailMatchAt po pi t (fun v => rfl)]; exact hcl)
    (fun pi po v _ hs => by
      rw [show emailMatchAt pi v = emailMatchAt po v from rfl]; exact hs)
    (fun pr u f w rest e hu _ hq => email_transfer pr u f w rest e hu hq)
    email_tok s h

theorem api_preserved_hex (s : List Char)
    (h : hasMatchFrom apiKeyMatchAt none s = false) :
    hasMatchFrom apiKeyMatchAt none (substPattern hexMatchAt s).1 = false :=
  pass_preserves hexMatchAt apiKeyMatchAt hexMatchAt_bounds hexMatchAt_trail hexMatchAt_lead
    (fun pi po t hctx hcl =>
      cleanTrans apiKeyMatchAt apiKeyMatchAt_prevdep apiKeyMatchAt_nobound pi po t hctx hcl)
    (prevSwap apiKeyMatchAt apiKeyMatchAt_prevdep apiKeyMatchAt_lead)
    (fun pr u f w rest e hu hb1 hq => api_transfer pr u f w rest e hu hb1 hq)
    api_tok s h

theorem api_preserved_b64 (s : List Char)
    (h : hasMatchFrom apiKeyMatchAt none s = false) :
    hasMatchFrom apiKeyMatchAt none (substPattern base64MatchAt s).1 = false :=
  pass_preserves base64MatchAt apiKeyMatchAt base64MatchAt_bounds base64MatchAt_trail
    base64MatchAt_lead
    (fun pi po t hctx hcl =>
      cleanTrans apiKeyMatchAt apiKeyMatchAt_prevdep apiKeyMatchAt_nobound pi po t hctx hcl)
    (prevSwap apiKeyMatchAt apiKeyMatchAt_prevdep apiKeyMatchAt_lead)
    (fun pr u f w rest e hu hb1 hq => api_transfer pr u f w rest e hu hb1 hq)
    api_tok s h

theorem api_preserved_jwt (s : List Char)
    (h : hasMatchFrom apiKeyMatchAt none s = false) :
    hasMatchFrom apiKeyMatchAt none (substPattern jwtMatchAt s).1 = false :=
  pass_preserves jwtMatchAt apiKeyMatchAt jwtMatchAt_bounds jwtMatchAt_trail jwtMatchAt_lead
    (fun pi po t hctx hcl =>
      cleanTrans apiKeyMatchAt apiKeyMatchAt_prevdep apiKeyMatchAt_nobound pi po t hctx hcl)
    (prevSwap apiKeyMatchAt apiKeyMatchAt_prevdep apiKeyMatchAt_lead)
    (fun pr u f w rest e hu hb1 hq => api_transfer pr u f w rest e hu hb1 hq)
    api_tok s h

theorem hex_preserved_b64 (s : List Char)
    (h : hasMatchFrom hexMatchAt none s = false) :
    hasMatchFrom hexMatchAt none (substPattern base64MatchAt s).1 = false :=
  pass_preserves base64MatchAt hexMatchAt base64MatchAt_bounds base64MatchAt_trail
    base64MatchAt_lead
    (fun pi po t hctx hcl =>
      cleanTrans hexMatchAt hexMatchAt_prevdep hexMatchAt_nobound pi po t hctx hcl)
    (prevSwap hexMatchAt hexMatchAt_prevdep hexMatchAt_lead)
    (fun pr u f w rest e hu hb1 hq => hex_transfer pr u '[' f w rest e hu (by decide) hb1 hq)
    hex_tok s h

theorem hex_preserved_jwt (s : List Char)
    (h : hasMatchFrom hexMatchAt none s = false) :
    hasMatchFrom hexMatchAt none (substPattern jwtMatchAt s).1 = false :=
  pass_preserves jwtMatchAt hexMatchAt jwtMatchAt_bounds jwtMatchAt_trail jwtMatchAt_lead
    (fun pi po t hctx hcl =>
      cleanTrans hexMatchAt hexMatchAt_prevdep hexMatchAt_nobound pi po t hctx hcl)
    (prevSwap hexMatchAt hexMatchAt_prevdep hexMatchAt_lead)
    (fun pr u f w rest e hu hb1 hq => hex_transfer pr u '[' f w rest e hu (by decide) hb1 hq)
    hex_tok s h

theorem b64_preserved_jwt (s : List Char)
    (h : hasMatchFrom base64MatchAt none s = false) :
    hasMatchFrom base64MatchAt none (substPattern jwtMatchAt s).1 = false :=
  pass_preserves jwtMatchAt base64MatchAt jwtMatchAt_bounds jwtMatchAt_trail jwtMatchAt_lead
    (fun pi po t hctx hcl =>
      cleanTrans base64MatchAt base64MatchAt_prevdep base64MatchAt_nobound pi po t hctx hcl)
    (prevSwap base64MatchAt base64MatchAt_prevdep base64MatchAt_lead)
    (fun pr u f w rest e hu hb1 hq => b64_transfer pr u f w rest e hu hb1 hq)
    b64_tok s h

/-! Idempotence of `scrub`. -/

theorem scrub_fst (s : List Char) :
    (scrub s).1 = (substPattern jwtMatchAt (substPattern base64MatchAt (substPattern
      hexMatchAt (substPattern apiKeyMatchAt (substPattern emailMatchAt s).1).1).1).1).1 :=
  rfl

theorem scrub_of_clean (s : List Char)
    (h1 : hasMatchFrom emailMatchAt none s = false)
    (h2 : hasMatchFrom apiKeyMatchAt none s = false)
    (h3 : hasMatchFrom hexMatchAt none s = false)
    (h4 : hasMatchFrom base64MatchAt none s = false)
    (h5 : hasMatchFrom jwtMatchAt none s = false) :
    scrub s = (s, 0) := by
  have e1 : substPattern emailMatchAt s = (s, 0) :=
    substAux_of_clean _ _ _ _ (Nat.le_refl _) h1
  have e2 : substPattern apiKeyMatchAt s = (s, 0) :=
    substAux_of_clean _ _ _ _ (Nat.le_refl _) h2
  have e3 : substPattern hexMatchAt s = (s, 0) :=
    substAux_of_clean _ _ _ _ (Nat.le_refl _) h3
  have e4 : substPattern base64MatchAt s = (s, 0) :=
    substAux_of_clean _ _ _ _ (Nat.le_refl _) h4
  have e5 : substPattern jwtMatchAt s = (s, 0) :=
    substAux_of_clean _ _ _ _ (Nat.le_refl _) h5
  unfold scrub PATTERNS
  simp only [List.foldl_cons, List.foldl_nil]
  simp only [e1, e2, e3, e4, e5]

theorem scrub_clean_email (s : List Char) :
    hasMatchFrom emailMatchAt none (scrub s).1 = false := by
  rw [scrub_fst]
  exact email_preserved_jwt _ (email_preserved_b64 _ (email_preserved_hex _
    (email_preserved_api _ (pass_self_email s))))

theorem scrub_clean_api (s : List Char) :
    hasMatchFrom apiKeyMatchAt none (scrub s).1 = false := by
  rw [scrub_fst]
  exact api_preserved_jwt _ (api_preserved_b64 _ (api_preserved_hex _ (api_pass_self _)))

theorem scrub_clean_hex (s : List Char) :
    hasMatchFrom hexMatchAt none (scrub s).1 = false := by
  rw [scrub_fst]
  exact hex_preserved_jwt _ (hex_preserved_b64 _ (hex_pass_self _))

theorem scrub_clean_b64 (s : List Char) :
    hasMatchFrom base64MatchAt none (scrub s).1 = false := by
  rw [scrub_fst]
  exact b64_preserved_jwt _ (b64_pass_self _)

theorem scrub_clean_jwt (s : List Char) :
    hasMatchFrom jwtMatchAt none (scrub s).1 = false := by
  rw [scrub_fst]
  exact jwt_pass_self _

theorem scrub_scrub (s : List Char) : scrub (scrub s).1 = ((scrub s).1, 0) :=
  scrub_of_clean (scrub s).1 (scrub_clean_email s) (scrub_clean_api s)
    (scrub_clean_hex s) (scrub_clean_b64 s) (scrub_clean_jwt s)

theorem redacted_token_inert :
    hasMatchFrom emailMatchAt none REDACTED = false ∧
    hasMatchFrom apiKeyMatchAt none REDACTED = false ∧
    hasMatchFrom hexMatchAt none REDACTED = false ∧
    hasMatchFrom base64MatchAt none REDACTED = false ∧
    hasMatchFrom jwtMatchAt none REDACTED = false := by
  decide

/-- C10 counterexample to the no-creation clause: the input
`a@b.zz` followed by 32 `0`s has no long-hex match, but after the e-mail
pass replaces `a@b.zz` with `[REDACTED]`, the `]` creates a word boundary
and the 32-digit run becomes a long-hex match for the later hex pattern. -/
theorem email_redaction_creates_hex_match :
    hasMatchFrom hexMatchAt none ("a@b.zz".toList ++ List.replicate 32 '0') = false ∧
    hasMatchFrom hexMatchAt none
      (substPattern emailMatchAt ("a@b.zz".toList ++ List.replicate 32 '0')).1 = true := by
  decide

/-- C10: the compliance scrubber is idempotent: for every input text, applying
`scrub` to the redacted output of a first `scrub` returns that output
unchanged with a redaction count of `0`, and the literal replacement token
`[REDACTED]` matches none of the five redaction patterns at any position.
(The claim's further clause, that no replacement creates a new match for a
later pattern of the cascade, is refuted separately: see the counterexample
on the e-mail pass exposing a long-hex match.) -/
theorem scrub_idempotent (s : List Char) :
    scrub (scrub s).1 = ((scrub s).1, 0) ∧
    hasMatchFrom emailMatchAt none REDACTED = false ∧
    hasMatchFrom apiKeyMatchAt none REDACTED = false ∧
    hasMatchFrom hexMatchAt none REDACTED = false ∧
    hasMatchFrom base64MatchAt none REDACTED = false ∧
    hasMatchFrom jwtMatchAt none REDACTED = false :=
  ⟨scrub_scrub s, redacted_token_inert.1, redacted_token_inert.2.1,
    redacted_token_inert.2.2.1, redacted_token_inert.2.2.2.1,
    redacted_token_inert.2.2.2.2⟩

end LensOra
